import Mathlib

/-!
# asio_kcp multicast plane: server group manager and client receiver

A shallow embedding of

* `src/server_lib/udp_multicast_manager.{hpp,cpp}` (class `UdpMulticastManager`),
* `src/client_lib/kcp_multicast_client.{hpp,cpp}` (class `kcp_multicast_client`), and
* the lines of `main` in `src/udp_multicast_test_server/multicast_server.cpp` that read the
  address and port back from the group information text,

followed by theorems about the embedded functions.

Conventions of the embedding.

* `uint32_t` values are `Nat`, every increment is written with an explicit
  `% 4294967296` (that is `2 ^ 32`).
* `std::string` payloads are byte lists; `std::map` is a key-ordered association list.
* A member function that mutates the object returns the new object; what it hands to the
  operating system (`send_to`, timer arming, ...) is returned as a list of effects, in
  program order.
* Outcomes decided outside the program (whether a socket call throws, what the random
  generator draws, what the clock reads) are explicit arguments.
* The mutex only serialises the member functions; the embedding is their sequential
  behaviour.
-/

namespace AsioKcp

/-! ## Bytes, text and byte order -/

/-- One `char` of a `std::string`, as an unsigned value. -/
abbrev Byte := Fin 256

/-- The contents of a `std::string` or of a datagram buffer. -/
abbrev Bytes := List Byte

/-- Two to the power 32, the number of `uint32_t` values. -/
def UINT32_SIZE : Nat := 4294967296

/-- The bytes of an ASCII text. -/
def ascii (s : List Char) : Bytes := s.map (fun c => Fin.ofNat c.toNat)

/-- `std::to_string` of an unsigned value: its decimal digits. -/
def to_string (n : Nat) : List Char := Nat.toDigits 10 n

/-- The four bytes that `htonl(seq)` followed by `memcpy(&seq_msg[0], &net_seq, 4)` writes:
the value in network (big-endian) byte order. -/
def htonl_bytes (seq : Nat) : Bytes :=
  [Fin.ofNat (seq / 16777216), Fin.ofNat (seq / 65536), Fin.ofNat (seq / 256), Fin.ofNat seq]

/-- The value that `memcpy(&net_seq, buffer, 4)` followed by `ntohl(net_seq)` reads from the
first four bytes of a buffer (a missing byte reads as zero; callers check the length). -/
def ntohl_bytes (buffer : Bytes) : Nat :=
  (buffer.getD 0 0).val * 16777216 + (buffer.getD 1 0).val * 65536
    + (buffer.getD 2 0).val * 256 + (buffer.getD 3 0).val

/-! ## `std::map` with `uint32_t` keys -/

/-- A `std::map<uint32_t, V>`: its entries, which the operations below keep in key order. -/
abbrev StdMap (V : Type) := List (Nat × V)

/-- Lookup `m.find(k)`: the mapped value, `none` for `m.end()`. -/
def map_find {V : Type} : StdMap V → Nat → Option V
  | [], _ => none
  | (k1, v) :: rest, k => if k1 = k then some v else map_find rest k

/-- Assignment `m[k] = v`: replaces the value of an existing key, otherwise inserts the entry
at its place in key order. -/
def map_insert {V : Type} : StdMap V → Nat → V → StdMap V
  | [], k, v => [(k, v)]
  | (k1, v1) :: rest, k, v =>
    if k < k1 then (k, v) :: (k1, v1) :: rest
    else if k = k1 then (k, v) :: rest
    else (k1, v1) :: map_insert rest k v

/-- Removal `m.erase(k)`: drops the entry of key `k` if there is one. -/
def map_erase {V : Type} (m : StdMap V) (k : Nat) : StdMap V :=
  m.filter (fun e => decide (e.1 ≠ k))

/-- Mutation through an iterator or a shared pointer, `it->second->field = ...`: the mapped
object of key `k` is changed in place, the map itself keeps its shape. -/
def map_modify {V : Type} (m : StdMap V) (k : Nat) (f : V → V) : StdMap V :=
  m.map (fun e => if e.1 = k then (e.1, f e.2) else e)

/-- The keys of a map, in iteration order. -/
def map_keys {V : Type} (m : StdMap V) : List Nat := m.map Prod.fst

/-! ## Server side: `UdpMulticastManager` -/

/-- An IPv4 `boost::asio::ip::address`: its four octets. -/
structure Address where
  octets : List Nat
  deriving DecidableEq, Repr

/-- A `boost::asio::ip::udp::endpoint`. -/
structure Endpoint where
  address : Address
  port : Nat
  deriving DecidableEq, Repr

/-- One decimal field of a dotted address, as `inet_pton` reads it: one to three digits, no
leading zero before another digit, value at most 255. -/
def parse_octet (cs : List Char) : Option Nat :=
  if cs.length = 0 ∨ 3 < cs.length then none
  else if !cs.all Char.isDigit then none
  else if 1 < cs.length ∧ cs.head? = some '0' then none
  else
    let v := cs.foldl (fun acc c => acc * 10 + (c.toNat - 48)) 0
    if v ≤ 255 then some v else none

/-- The call `boost::asio::ip::address::from_string` on dotted-decimal IPv4 text; `none`
stands for the exception it throws on text that does not parse. The groups of this program
are IPv4 groups; IPv6 text is not modelled. -/
def from_string (s : List Char) : Option Address :=
  match s.splitOn '.' with
  | [p1, p2, p3, p4] =>
    match parse_octet p1, parse_octet p2, parse_octet p3, parse_octet p4 with
    | some a, some b, some c, some d => some ⟨[a, b, c, d]⟩
    | _, _, _, _ => none
  | _ => none

/-- The text of `address().to_string()`: dotted decimal. -/
def Address.to_string (a : Address) : List Char :=
  List.intercalate ['.'] (a.octets.map AsioKcp.to_string)

/-- The struct `UdpMulticastManager::MulticastGroup`. The socket has no state of its own
here: a group in the table has an open socket. `retransmit_timer` is the expiry of the wait
registered by the last `expires_from_now` + `async_wait`, `none` when no wait was registered
or it was cancelled. -/
structure MulticastGroup where
  endpoint : Endpoint
  next_seq : Nat
  sent_msgs : StdMap Bytes
  retransmit_timer : Option Nat
  deriving DecidableEq, Repr

/-- The members `groups_` and `next_group_id_` of `UdpMulticastManager`. -/
structure UdpMulticastManager where
  groups_ : StdMap MulticastGroup
  next_group_id_ : Nat
  deriving DecidableEq, Repr

/-- What the manager hands to the operating system and to the timer service. -/
inductive Effect where
  /-- The call `socket.send_to(buffer, endpoint)` with the bytes of the buffer. -/
  | send_to (endpoint : Endpoint) (data : Bytes)
  /-- The pair `expires_from_now(500 ms)`, `async_wait(handle_retransmit(group_id))`,
  with the resulting expiry. -/
  | timer_arm (group_id : Nat) (expiry : Nat)
  /-- The call `retransmit_timer.cancel()`. -/
  | timer_cancel (group_id : Nat)
  /-- The call `socket.close()`. -/
  | socket_close (group_id : Nat)
  deriving DecidableEq, Repr

/-- Outcomes that `create_group` does not control: the three draws of
`generate_multicast_address` (two in `0..255`, one in `30000..40000`, stored as its offset
from 30000) and whether opening and configuring the socket succeeds. -/
structure CreateEnv where
  addr_x : Fin 256
  addr_y : Fin 256
  port_offset : Fin 10001
  socket_ok : Bool
  deriving DecidableEq, Repr

/-- The constant `MULTICAST_PREFIX`. -/
def MULTICAST_PREFIX : List Char := "239.255.".toList

/-- The constant `MULTICAST_PORT_MIN`. -/
def MULTICAST_PORT_MIN : Nat := 30000

/-- The constant `MULTICAST_PORT_MAX`. -/
def MULTICAST_PORT_MAX : Nat := 40000

/-- The retransmission interval passed to `expires_from_now`, in milliseconds. -/
def RETRANSMIT_MS : Nat := 500

/-- The constructor `UdpMulticastManager(io_service)`. -/
def UdpMulticastManager.init : UdpMulticastManager :=
  { groups_ := [], next_group_id_ := 1 }

/-- The constructor `MulticastGroup(io_service)`, with the endpoint that
`init_group_socket` stores. -/
def MulticastGroup.init (endpoint : Endpoint) : MulticastGroup :=
  { endpoint := endpoint, next_seq := 0, sent_msgs := [], retransmit_timer := none }

/-- The function `generate_multicast_address`, on the three values drawn. -/
def generate_multicast_address (env : CreateEnv) : List Char × Nat :=
  (MULTICAST_PREFIX ++ to_string env.addr_x.val ++ ['.'] ++ to_string env.addr_y.val,
   MULTICAST_PORT_MIN + env.port_offset.val)

/-- The function `init_group_socket`: the endpoint of the group on success, `none` for the
`false` it returns when the address does not parse or a socket call throws. -/
def init_group_socket (multicast_addr : List Char) (port : Nat) (env : CreateEnv) :
    Option Endpoint :=
  match from_string multicast_addr with
  | none => none
  | some a => if env.socket_ok then some { address := a, port := port } else none

/-- The function `create_group`: the new manager and the returned id (0 on failure). -/
def create_group (m : UdpMulticastManager) (multicast_addr : List Char) (port : Nat)
    (env : CreateEnv) : UdpMulticastManager × Nat :=
  let group_id := m.next_group_id_
  let m1 := { m with next_group_id_ := (m.next_group_id_ + 1) % UINT32_SIZE }
  let addr_port :=
    if multicast_addr.isEmpty ∨ port = 0 then generate_multicast_address env
    else (multicast_addr, port)
  match init_group_socket addr_port.1 addr_port.2 env with
  | none => (m1, 0)
  | some ep => ({ m1 with groups_ := map_insert m1.groups_ group_id (MulticastGroup.init ep) },
      group_id)

/-- The function `delete_group`: new manager, returned flag, effects. -/
def delete_group (m : UdpMulticastManager) (group_id : Nat) :
    UdpMulticastManager × Bool × List Effect :=
  match map_find m.groups_ group_id with
  | none => (m, false, [])
  | some _ =>
    ({ m with groups_ := map_erase m.groups_ group_id }, true,
      [Effect.timer_cancel group_id, Effect.socket_close group_id])

/-- The function `send_to_group`. An exception of `send_to` is caught and logged, so the
outcome of the send changes nothing here. -/
def send_to_group (m : UdpMulticastManager) (group_id : Nat) (msg : Bytes) :
    UdpMulticastManager × List Effect :=
  match map_find m.groups_ group_id with
  | none => (m, [])
  | some group => (m, [Effect.send_to group.endpoint msg])

/-- The function `send_reliable_to_group` at clock reading `now`; `send_ok = false` is the
case where `send_to` throws, which skips the timer lines of the `try` block. -/
def send_reliable_to_group (m : UdpMulticastManager) (group_id : Nat) (msg : Bytes)
    (now : Nat) (send_ok : Bool) : UdpMulticastManager × List Effect :=
  match map_find m.groups_ group_id with
  | none => (m, [])
  | some group =>
    let seq := group.next_seq
    let stored : MulticastGroup → MulticastGroup := fun g =>
      { g with next_seq := (g.next_seq + 1) % UINT32_SIZE,
               sent_msgs := map_insert g.sent_msgs g.next_seq msg }
    let seq_msg := htonl_bytes seq ++ msg
    if send_ok then
      ({ m with groups_ := (map_modify m.groups_ group_id
            (fun g => { stored g with retransmit_timer := some (now + RETRANSMIT_MS) })) },
        [Effect.send_to group.endpoint seq_msg, Effect.timer_arm group_id (now + RETRANSMIT_MS)])
    else
      ({ m with groups_ := map_modify m.groups_ group_id stored },
        [Effect.send_to group.endpoint seq_msg])

/-- The function `handle_retransmit` at clock reading `now`. -/
def handle_retransmit (m : UdpMulticastManager) (group_id : Nat) (now : Nat) :
    UdpMulticastManager × List Effect :=
  match map_find m.groups_ group_id with
  | none => (m, [])
  | some group =>
    let msgs_to_retransmit := group.sent_msgs
    if msgs_to_retransmit.isEmpty then (m, [])
    else
      ({ m with groups_ := (map_modify m.groups_ group_id
            (fun g => { g with retransmit_timer := some (now + RETRANSMIT_MS) })) },
        msgs_to_retransmit.map (fun kv => Effect.send_to group.endpoint (htonl_bytes kv.1 ++ kv.2))
          ++ [Effect.timer_arm group_id (now + RETRANSMIT_MS)])

/-- The function `handle_ack`. -/
def handle_ack (m : UdpMulticastManager) (group_id : Nat) (seq : Nat) : UdpMulticastManager :=
  match map_find m.groups_ group_id with
  | none => m
  | some _ =>
    { m with groups_ := (map_modify m.groups_ group_id
        (fun g => { g with sent_msgs := map_erase g.sent_msgs seq })) }

/-- The function `stop`. -/
def stop (m : UdpMulticastManager) : UdpMulticastManager × List Effect :=
  ({ m with groups_ := [] },
    m.groups_.flatMap (fun kv => [Effect.timer_cancel kv.1, Effect.socket_close kv.1]))

/-- One call on the manager, with the outcomes it does not control. -/
inductive Op where
  | create_group (multicast_addr : List Char) (port : Nat) (env : CreateEnv)
  | delete_group (group_id : Nat)
  | send_to_group (group_id : Nat) (msg : Bytes)
  | send_reliable_to_group (group_id : Nat) (msg : Bytes) (now : Nat) (send_ok : Bool)
  | handle_retransmit (group_id : Nat) (now : Nat)
  | handle_ack (group_id : Nat) (seq : Nat)
  | stop
  deriving DecidableEq, Repr

/-- The manager after one call. -/
def step (m : UdpMulticastManager) : Op → UdpMulticastManager
  | Op.create_group a p env => (create_group m a p env).1
  | Op.delete_group g => (delete_group m g).1
  | Op.send_to_group g msg => (send_to_group m g msg).1
  | Op.send_reliable_to_group g msg now ok => (send_reliable_to_group m g msg now ok).1
  | Op.handle_retransmit g now => (handle_retransmit m g now).1
  | Op.handle_ack g seq => handle_ack m g seq
  | Op.stop => (stop m).1

/-- The manager after a sequence of calls, first call first. -/
def run (m : UdpMulticastManager) (ops : List Op) : UdpMulticastManager :=
  ops.foldl step m

/-- A manager state that some sequence of calls produces from a freshly constructed
manager. -/
def Reachable (m : UdpMulticastManager) : Prop :=
  ∃ ops : List Op, run UdpMulticastManager.init ops = m

/-! ## Client side: `kcp_multicast_client` -/

/-- The struct `kcp_multicast_client::GroupInfo`. -/
structure GroupInfo where
  multicast_addr : List Char
  port : Nat
  socket_fd : Int
  last_seq : Nat
  deriving DecidableEq, Repr

/-- The members of `kcp_multicast_client`; `msg_callback_` records whether a callable is
stored in the `std::function`. -/
structure kcp_multicast_client where
  groups_ : StdMap GroupInfo
  running_ : Bool
  thread_running_ : Bool
  msg_callback_ : Bool
  deriving DecidableEq, Repr

/-- What the client does that is visible outside it. -/
inductive ClientEvent where
  /-- The application callback is called with `(group_id, msg)`. -/
  | callback (group_id : Nat) (msg : Bytes)
  /-- The call `sendto(socket_fd, data, ...)` towards `(addr, port)`. -/
  | sendto (socket_fd : Int) (addr : List Char) (port : Nat) (data : Bytes)
  deriving DecidableEq, Repr

/-- The four bytes of the literal `"ACK:"`. -/
def ACK_TAG : Bytes := ascii "ACK:".toList

/-- The function `send_ack`. -/
def send_ack (c : kcp_multicast_client) (group_id : Nat) (seq : Nat) : List ClientEvent :=
  match map_find c.groups_ group_id with
  | none => []
  | some info =>
    let ack_msg := ACK_TAG ++ ascii (to_string seq)
    [ClientEvent.sendto info.socket_fd info.multicast_addr info.port ack_msg]

/-- The function `handle_multicast_message`. -/
def handle_multicast_message (c : kcp_multicast_client) (group_id : Nat) (msg : Bytes) :
    List ClientEvent :=
  if c.msg_callback_ then [ClientEvent.callback group_id msg] else []

/-- The function `handle_reliable_message`: the block that looks the group up is empty in the
source, so the client is returned as it was. -/
def handle_reliable_message (c : kcp_multicast_client) (group_id : Nat) (data : Bytes) :
    kcp_multicast_client × List ClientEvent :=
  let msg := data
  let c1 :=
    match map_find c.groups_ group_id with
    | some _ => c
    | none => c
  (c1, handle_multicast_message c1 group_id msg)

/-- The body of the loop of `receive_thread_func` for one datagram that `recvfrom` returned
on the socket of `group_id`: `buffer` holds the `recv_len` bytes received. -/
def receive_datagram (c : kcp_multicast_client) (group_id : Nat) (buffer : Bytes) :
    kcp_multicast_client × List ClientEvent :=
  let recv_len := buffer.length
  if 4 ≤ recv_len ∧ buffer.take 4 = ACK_TAG then (c, [])
  else if 4 ≤ recv_len then
    let seq := ntohl_bytes buffer
    let r := handle_reliable_message c group_id (buffer.drop 4)
    (r.1, r.2 ++ send_ack r.1 group_id seq)
  else
    let msg := buffer
    (c, handle_multicast_message c group_id msg)

/-! ## Observations on effect lists, counters on call sequences, sample states -/

/-- The datagrams among the effects: destination and bytes of every `send_to`, in order. -/
def datagrams (es : List Effect) : List (Endpoint × Bytes) :=
  es.filterMap (fun e => match e with
    | Effect.send_to ep d => some (ep, d)
    | _ => none)

/-- The timer armings among the effects: group id and expiry, in order. -/
def timer_arms (es : List Effect) : List (Nat × Nat) :=
  es.filterMap (fun e => match e with
    | Effect.timer_arm g t => some (g, t)
    | _ => none)

/-- The callback invocations among the client events, in order. -/
def callbacks (es : List ClientEvent) : List (Nat × Bytes) :=
  es.filterMap (fun e => match e with
    | ClientEvent.callback g msg => some (g, msg)
    | _ => none)

/-- The datagrams the client sent, in order. -/
def client_datagrams (es : List ClientEvent) : List Bytes :=
  es.filterMap (fun e => match e with
    | ClientEvent.sendto _ _ _ d => some d
    | _ => none)

/-- Whether a call is `send_reliable_to_group` on group `g`. -/
def Op.is_reliable_send (g : Nat) : Op → Bool
  | Op.send_reliable_to_group g1 _ _ _ => decide (g1 = g)
  | _ => false

/-- Whether a call is `create_group`. -/
def Op.is_create : Op → Bool
  | Op.create_group _ _ _ => true
  | _ => false

/-- How many calls of `send_reliable_to_group` on group `g` a sequence holds. -/
def reliable_sends (g : Nat) (ops : List Op) : Nat := ops.countP (Op.is_reliable_send g)

/-- How many calls of `create_group` a sequence holds. -/
def creates (ops : List Op) : Nat := ops.countP Op.is_create

/-- Every key of the unacked table of every live group is below `next_seq` of that group. -/
def unacked_keys_below_next_seq (m : UdpMulticastManager) : Prop :=
  ∀ g grp, map_find m.groups_ g = some grp → ∀ seq ∈ map_keys grp.sent_msgs, seq < grp.next_seq

/-- Between the state after `ops1` and the state after `ops1 ++ ops2`, the counter of the
group found under id `g` has not decreased. -/
def next_seq_not_decreased (ops1 ops2 : List Op) (g : Nat) : Prop :=
  ∀ grp1 grp2, map_find (run UdpMulticastManager.init ops1).groups_ g = some grp1 →
    map_find (run UdpMulticastManager.init (ops1 ++ ops2)).groups_ g = some grp2 →
    grp1.next_seq ≤ grp2.next_seq

/-- The timer of group `g` is disarmed exactly when its unacked table is empty. -/
def timer_disarmed_iff_unacked_empty (m : UdpMulticastManager) (g : Nat) : Prop :=
  ∀ grp, map_find m.groups_ g = some grp → (grp.retransmit_timer = none ↔ grp.sent_msgs = [])

/-- Well-formedness of a group: the keys of its unacked table ascend, and its counter and
those keys are `uint32_t` values. -/
def MulticastGroup.wf (grp : MulticastGroup) : Prop :=
  (map_keys grp.sent_msgs).Pairwise (· < ·) ∧ grp.next_seq < UINT32_SIZE
    ∧ ∀ k ∈ map_keys grp.sent_msgs, k < UINT32_SIZE

/-- Well-formedness of a manager: the group ids ascend and are `uint32_t` values, as is the
id counter, and every group is well-formed. -/
def UdpMulticastManager.wf (m : UdpMulticastManager) : Prop :=
  (map_keys m.groups_).Pairwise (· < ·) ∧ m.next_group_id_ < UINT32_SIZE
    ∧ ∀ e ∈ m.groups_, e.1 < UINT32_SIZE ∧ e.2.wf

/-- A sample environment for `create_group`: the socket calls succeed. -/
def sample_env : CreateEnv := { addr_x := 0, addr_y := 1, port_offset := 1, socket_ok := true }

/-- The call `create_group("239.255.0.1", 30001)` of the first end-to-end scenario. -/
def sample_create : Op := Op.create_group "239.255.0.1".toList 30001 sample_env

/-- A client that joined group 1 at `239.255.0.1:30001` on descriptor 3 and has a callback. -/
def sample_client : kcp_multicast_client :=
  { groups_ := [(1, { multicast_addr := "239.255.0.1".toList, port := 30001, socket_fd := 3,
                      last_seq := 0 })],
    running_ := true, thread_running_ := true, msg_callback_ := true }

/-! ## Group information text, and what the test server reads back from it -/

/-- The function `get_group_info`: the text that the `ostringstream` collects. -/
def get_group_info (m : UdpMulticastManager) (group_id : Nat) : List Char :=
  match map_find m.groups_ group_id with
  | none => "Group not found".toList
  | some group =>
    "Group ID: ".toList ++ to_string group_id ++ ['\n']
      ++ "Multicast Address: ".toList ++ group.endpoint.address.to_string ++ ['\n']
      ++ "Port: ".toList ++ to_string group.endpoint.port ++ ['\n']
      ++ "Pending Messages: ".toList ++ to_string group.sent_msgs.length

/-- The search of `std::string::find` through the rest of a text whose first character has
index `i`: the index of the first occurrence of `needle`, `none` for `npos`. -/
def find_from : List Char → List Char → Nat → Option Nat
  | [], needle, i => if needle = [] then some i else none
  | c :: cs, needle, i =>
    if needle.isPrefixOf (c :: cs) then some i else find_from cs needle (i + 1)

/-- The call `s.find(needle, pos)`. -/
def string_find (s needle : List Char) (pos : Nat) : Option Nat :=
  if pos ≤ s.length then find_from (s.drop pos) needle pos else none

/-- The call `s.substr(pos, end - pos)` where `end` is the result of a `find` from `pos`:
with `end = npos` the count exceeds the text and the rest of the text is taken. -/
def substr_until (s : List Char) (pos : Nat) (stop : Option Nat) : List Char :=
  match stop with
  | some e => (s.drop pos).take (e - pos)
  | none => s.drop pos

/-- The value of a run of decimal digits, most significant first. -/
def decimal_value (cs : List Char) : Nat :=
  cs.foldl (fun acc c => acc * 10 + (c.toNat - 48)) 0

/-- The function `isspace` of the C locale: space, and the control characters 9 to 13. -/
def isspace (c : Char) : Bool := c.toNat = 32 || (9 ≤ c.toNat && c.toNat ≤ 13)

/-- The optional sign that `std::stoi` reads: whether it is a minus, and the text after it. -/
def stoi_sign (s1 : List Char) : Bool × List Char :=
  match s1 with
  | '-' :: r => (true, r)
  | '+' :: r => (false, r)
  | _ => (false, s1)

/-- The function `std::stoi`: leading white space is skipped, an optional sign and then the
longest run of digits is read; `none` stands for the exception thrown when there is no digit
or the value is not an `int`. -/
def stoi (s : List Char) : Option Int :=
  let s1 := s.dropWhile isspace
  let signed := stoi_sign s1
  let ds := signed.2.takeWhile Char.isDigit
  if ds.isEmpty then none
  else
    let v : Int := if signed.1 then - (decimal_value ds : Int) else (decimal_value ds : Int)
    if v < -2147483648 ∨ 2147483647 < v then none else some v

/-- Lines 166 to 183 of `main` of the test server: the values of `g_multicast_address` and
`g_multicast_port` (a `uint16_t`) after the group information text has been read back;
they keep their initial values when one of the two labels is not found, and `none` stands
for the exception of `std::stoi`. -/
def read_back_group_info (group_info : List Char) : Option (List Char × Nat) :=
  match string_find group_info "Multicast Address: ".toList 0,
        string_find group_info "Port: ".toList 0 with
  | some addr_pos0, some port_pos0 =>
    let addr_pos := addr_pos0 + 19
    let addr_end := string_find group_info ['\n'] addr_pos
    let g_multicast_address := substr_until group_info addr_pos addr_end
    let port_pos := port_pos0 + 6
    let port_end := string_find group_info ['\n'] port_pos
    match stoi (substr_until group_info port_pos port_end) with
    | none => none
    | some v => some (g_multicast_address, (v % 65536).toNat)
  | _, _ => some ([], 0)

/-! ## Calls whose errors do not reach the caller, ids returned, joining a group -/

/-- The function `send_to_group` with the outcome of `socket.send_to` made explicit; the
value is what reaches the caller, `Except.error` standing for an exception that leaves the
function. The `catch` clause logs the exception, so both outcomes end the same way. -/
def send_to_group_caller (m : UdpMulticastManager) (group_id : Nat) (msg : Bytes)
    (send_ok : Bool) : Except Unit (UdpMulticastManager × List Effect) :=
  match map_find m.groups_ group_id with
  | none => Except.ok (m, [])
  | some group =>
    let attempt : Except Unit Unit := if send_ok then Except.ok () else Except.error ()
    match attempt with
    | Except.ok _ => Except.ok (m, [Effect.send_to group.endpoint msg])
    | Except.error _ => Except.ok (m, [Effect.send_to group.endpoint msg])

/-- What one call returns to its caller as a new group id: the result of `create_group`
unless it is the value 0 that signals failure; nothing for the other calls. -/
def returned_id (m : UdpMulticastManager) : Op → List Nat
  | Op.create_group a p env =>
    if (create_group m a p env).2 = 0 then [] else [(create_group m a p env).2]
  | _ => []

/-- The ids that the calls of `create_group` in a sequence return to their callers, in call
order, leaving out the value 0 that signals failure. -/
def returned_ids (m : UdpMulticastManager) : List Op → List Nat
  | [] => []
  | op :: ops => returned_id m op ++ returned_ids (step m op) ops

/-- The coordinates that `create_group` passes to `init_group_socket`: those of the caller,
or the generated pair when the address is empty or the port is 0. -/
def chosen_coordinates (multicast_addr : List Char) (port : Nat) (env : CreateEnv) :
    List Char × Nat :=
  if multicast_addr.isEmpty ∨ port = 0 then generate_multicast_address env
  else (multicast_addr, port)

/-- The id 0 is not the id of a live group. -/
def zero_not_live (m : UdpMulticastManager) : Prop := map_find m.groups_ 0 = none

/-- Two different live groups never have the same endpoint. -/
def endpoints_distinct (m : UdpMulticastManager) : Prop :=
  ∀ g1 g2 grp1 grp2, g1 ≠ g2 → map_find m.groups_ g1 = some grp1 →
    map_find m.groups_ g2 = some grp2 → grp1.endpoint ≠ grp2.endpoint

/-- A call of `create_group` whose address text does not parse, so that it fails. -/
def sample_failed_create : Op := Op.create_group "no address".toList 30001 sample_env

/-- A call of `create_group` without coordinates: the allocator is used. -/
def sample_allocating_create : Op := Op.create_group [] 0 sample_env

/-- The results of the system calls that `join_group` makes, as the C functions return
them: a negative value signals failure. -/
structure JoinEnv where
  socket_result : Int
  setsockopt_reuse : Int
  fcntl_getfl : Int
  fcntl_setfl : Int
  bind_result : Int
  setsockopt_add_membership : Int
  deriving DecidableEq, Repr

/-- The function `join_group`: the new client and the returned code. -/
def join_group (c : kcp_multicast_client) (multicast_addr : List Char) (port : Nat)
    (group_id : Nat) (env : JoinEnv) : kcp_multicast_client × Int :=
  if (map_find c.groups_ group_id).isSome then (c, -1)
  else
    let sock_fd := env.socket_result
    if sock_fd < 0 then (c, -2)
    else if env.setsockopt_reuse < 0 then (c, -3)
    else if env.fcntl_getfl < 0 ∨ env.fcntl_setfl < 0 then (c, -4)
    else if env.bind_result < 0 then (c, -5)
    else if env.setsockopt_add_membership < 0 then (c, -6)
    else
      ({ c with groups_ := (map_insert c.groups_ group_id
          { multicast_addr := multicast_addr, port := port, socket_fd := sock_fd,
            last_seq := 0 }) }, 0)

/-- System calls that all succeed, the socket being descriptor 3. -/
def sample_join_env : JoinEnv :=
  { socket_result := 3, setsockopt_reuse := 0, fcntl_getfl := 2, fcntl_setfl := 0,
    bind_result := 0, setsockopt_add_membership := 0 }

/-! ## Client side: leaving a group, starting and stopping -/

/-- The constructor `kcp_multicast_client()`; no callable is stored yet. -/
def kcp_multicast_client.init : kcp_multicast_client :=
  { groups_ := [], running_ := false, thread_running_ := false, msg_callback_ := false }

/-- The function `set_message_callback` called with a callable. -/
def set_message_callback (c : kcp_multicast_client) : kcp_multicast_client :=
  { c with msg_callback_ := true }

/-- The function `leave_group`, given what `setsockopt(IP_DROP_MEMBERSHIP)` returns: the new
client, the returned code and the descriptors passed to `close`. A negative result of
`setsockopt` is only logged. -/
def leave_group (c : kcp_multicast_client) (group_id : Nat) (setsockopt_drop_membership : Int) :
    kcp_multicast_client × Int × List Int :=
  match map_find c.groups_ group_id with
  | none => (c, -1, [])
  | some info =>
    let closed : kcp_multicast_client × Int × List Int :=
      ({ c with groups_ := map_erase c.groups_ group_id }, 0, [info.socket_fd])
    if setsockopt_drop_membership < 0 then closed else closed

/-- The function `start`, given what `pthread_create` returns: the new client and the
returned flag. The flag `thread_running_` is written by the worker, not here. -/
def kcp_multicast_client.start (c : kcp_multicast_client) (pthread_create_result : Int) :
    kcp_multicast_client × Bool :=
  if c.running_ then (c, false)
  else
    let c1 := { c with running_ := true }
    if pthread_create_result ≠ 0 then ({ c1 with running_ := false }, false)
    else (c1, true)

/-- The function `stop` of the client: the new client and the descriptors passed to
`close`. After `pthread_join` the worker has left `receive_thread_func`, whose last
statement clears `thread_running_`. -/
def kcp_multicast_client.stop (c : kcp_multicast_client) : kcp_multicast_client × List Int :=
  if !c.running_ then (c, [])
  else
    let c1 := { c with running_ := false }
    let c2 := if c1.thread_running_ then { c1 with thread_running_ := false } else c1
    ({ c2 with groups_ := [] }, c2.groups_.map (fun e => e.2.socket_fd))

/-- A client that joined group 1 on descriptor 3 and was never started. -/
def sample_joined_client : kcp_multicast_client :=
  (join_group (set_message_callback kcp_multicast_client.init) "239.255.0.1".toList 30001 1
    sample_join_env).1

/-! ## The announcement: composed by the test server, handled by the test client -/

/-- The text that `event_callback` of the test server composes on `eConnect`. -/
def compose_multicast_info (g_multicast_address : List Char)
    (g_multicast_port g_multicast_group_id : Nat) : List Char :=
  "MULTICAST:".toList ++ g_multicast_address ++ [':'] ++ to_string g_multicast_port ++ [':']
    ++ to_string g_multicast_group_id

/-- The globals of the test client that the announcement handler reads and writes;
`g_multicast_client` is `none` for the null pointer. -/
structure TestClient where
  g_multicast_addr : List Char
  g_multicast_port : Nat
  g_multicast_group_id : Nat
  g_multicast_client : Option kcp_multicast_client
  deriving DecidableEq, Repr

/-- The initial values of these globals. -/
def TestClient.init : TestClient :=
  { g_multicast_addr := [], g_multicast_port := 0, g_multicast_group_id := 0,
    g_multicast_client := none }

/-- The announcement part of the `eRcvMsg` case of `client_event_callback` (lines 145 to
175): the globals afterwards, and whether an exception of `std::stoi` left the handler.
The results of the system calls of `join_group` and of `pthread_create` are arguments. -/
def on_receive_message (s : TestClient) (msg : List Char) (jenv : JoinEnv)
    (pthread_create_result : Int) : TestClient × Bool :=
  if string_find msg "MULTICAST:".toList 0 = some 0 then
    let pos1 := 10
    let pos2 := string_find msg [':'] pos1
    let pos3 :=
      match pos2 with
      | some p2 => string_find msg [':'] (p2 + 1)
      | none => string_find msg [':'] 0
    match pos2, pos3 with
    | some p2, some p3 =>
      let s1 := { s with g_multicast_addr := substr_until msg pos1 (some p2) }
      match stoi (substr_until msg (p2 + 1) (some p3)) with
      | none => (s1, true)
      | some vp =>
        let s2 := { s1 with g_multicast_port := (vp % 65536).toNat }
        match stoi (msg.drop (p3 + 1)) with
        | none => (s2, true)
        | some vg =>
          let s3 := { s2 with g_multicast_group_id := (vg % 4294967296).toNat }
          match s3.g_multicast_client with
          | some _ => (s3, false)
          | none =>
            let c := set_message_callback kcp_multicast_client.init
            let r := join_group c s3.g_multicast_addr s3.g_multicast_port
              s3.g_multicast_group_id jenv
            if r.2 = 0 then
              ({ s3 with g_multicast_client := some (r.1.start pthread_create_result).1 }, false)
            else ({ s3 with g_multicast_client := some r.1 }, false)
    | _, _ => (s, false)
  else (s, false)

/-- The handler ignores a message: it returns normally and leaves the globals as they were,
so no receiver is created and no group is joined. -/
def announcement_ignored (s : TestClient) (msg : List Char) (jenv : JoinEnv)
    (pthread_create_result : Int) : Prop :=
  on_receive_message s msg jenv pthread_create_result = (s, false)

/-! ## The server facade -/

/-- The member `multicast_manager_ptr_` of `kcp_svr::server`, the only one that the
multicast functions of the facade use. -/
structure server where
  multicast_manager_ptr_ : UdpMulticastManager
  deriving DecidableEq, Repr

/-- The function `server::send_msg_to_multicast_group`; `none` is the null pointer. -/
def server.send_msg_to_multicast_group (s : server) (group_id : Nat) (msg : Option Bytes) :
    server × List Effect :=
  match msg with
  | some b =>
    if !b.isEmpty then
      ({ multicast_manager_ptr_ := (send_to_group s.multicast_manager_ptr_ group_id b).1 },
        (send_to_group s.multicast_manager_ptr_ group_id b).2)
    else (s, [])
  | none => (s, [])

/-- The function `server::send_reliable_msg_to_multicast_group`. -/
def server.send_reliable_msg_to_multicast_group (s : server) (group_id : Nat)
    (msg : Option Bytes) (now : Nat) (send_ok : Bool) : server × List Effect :=
  match msg with
  | some b =>
    if !b.isEmpty then
      ({ multicast_manager_ptr_ :=
          (send_reliable_to_group s.multicast_manager_ptr_ group_id b now send_ok).1 },
        (send_reliable_to_group s.multicast_manager_ptr_ group_id b now send_ok).2)
    else (s, [])
  | none => (s, [])

/-- A reliable send on a group whose timer is armed keeps the expiry of the timer. -/
def timer_kept_when_armed (m : UdpMulticastManager) (g : Nat) (msg : Bytes) (now : Nat)
    (send_ok : Bool) : Prop :=
  ∀ grp t, map_find m.groups_ g = some grp → grp.retransmit_timer = some t →
    ∃ grp1, map_find (send_reliable_to_group m g msg now send_ok).1.groups_ g = some grp1
      ∧ grp1.retransmit_timer = some t

theorem map_find_nil {V : Type} (k : Nat) : map_find ([] : StdMap V) k = none := rfl

theorem map_find_cons {V : Type} (k1 : Nat) (v : V) (rest : StdMap V) (k : Nat) :
    map_find ((k1, v) :: rest) k = if k1 = k then some v else map_find rest k := rfl

theorem map_modify_cons {V : Type} (k1 : Nat) (v : V) (rest : StdMap V) (k : Nat) (f : V → V) :
    map_modify ((k1, v) :: rest) k f
      = (k1, if k1 = k then f v else v) :: map_modify rest k f := by
  unfold map_modify
  by_cases h : k1 = k <;> simp [h]

theorem map_find_modify {V : Type} (m : StdMap V) (k g : Nat) (f : V → V) :
    map_find (map_modify m k f) g
      = if g = k then (map_find m k).map f else map_find m g := by
  induction m with
  | nil => simp [map_modify, map_find]
  | cons e rest ih =>
    obtain ⟨k1, v⟩ := e
    simp only [map_modify_cons, map_find_cons, ih]
    by_cases h1 : k1 = k <;> by_cases h2 : g = k <;> by_cases h3 : k1 = g <;> simp_all

theorem map_find_insert {V : Type} (m : StdMap V) (k g : Nat) (v : V) :
    map_find (map_insert m k v) g = if g = k then some v else map_find m g := by
  induction m with
  | nil =>
    by_cases h : g = k
    · subst h; simp [map_insert, map_find]
    · have h1 : ¬ k = g := fun e => h e.symm
      simp [map_insert, map_find, h, h1]
  | cons e rest ih =>
    obtain ⟨k1, v1⟩ := e
    simp only [map_insert]
    by_cases h1 : k < k1
    · simp only [h1, if_true, map_find]
      by_cases h2 : g = k
      · subst h2; simp
      · have h3 : ¬ k = g := fun e => h2 e.symm
        simp [h2, h3]
    · simp only [h1, if_false]
      by_cases h2 : k = k1
      · subst h2
        simp only [if_true, map_find]
        by_cases h3 : g = k
        · subst h3; simp
        · have h4 : ¬ k = g := fun e => h3 e.symm
          simp [h3, h4]
      · simp only [h2, if_false, map_find]
        by_cases h3 : k1 = g
        · subst h3
          have h4 : ¬ k1 = k := fun e => h2 e.symm
          simp [h4]
        · simp only [h3, if_false]; exact ih

theorem map_find_erase {V : Type} (m : StdMap V) (k g : Nat) :
    map_find (map_erase m k) g = if g = k then none else map_find m g := by
  induction m with
  | nil => simp [map_erase, map_find]
  | cons e rest ih =>
    obtain ⟨k1, v1⟩ := e
    simp only [map_erase] at ih ⊢
    by_cases h1 : k1 = k
    · subst h1
      simp only [List.filter_cons, ne_eq, not_true_eq_false, decide_False, map_find]
      by_cases h2 : g = k1
      · subst h2; simpa using ih
      · have h3 : ¬ k1 = g := fun e => h2 e.symm
        simpa [h2, h3] using ih
    · simp only [List.filter_cons, ne_eq, h1, not_false_eq_true, decide_True, if_true, map_find]
      by_cases h3 : k1 = g
      · subst h3; simp [h1]
      · simp only [h3, if_false]; exact ih

theorem map_find_eq_none_iff {V : Type} (m : StdMap V) (k : Nat) :
    map_find m k = none ↔ k ∉ map_keys m := by
  induction m with
  | nil => simp [map_find, map_keys]
  | cons e rest ih =>
    obtain ⟨k1, v1⟩ := e
    by_cases h : k1 = k
    · subst h; simp [map_find, map_keys]
    · have h1 : ¬ k = k1 := fun e => h e.symm
      simp only [map_find, h, if_false, map_keys, List.map_cons, List.mem_cons, h1, false_or]
      simpa [map_keys] using ih

theorem map_erase_of_not_found {V : Type} (m : StdMap V) (k : Nat)
    (h : map_find m k = none) : map_erase m k = m := by
  rw [map_find_eq_none_iff] at h
  unfold map_erase
  rw [List.filter_eq_self]
  intro e he
  have : e.1 ∈ map_keys m := List.mem_map_of_mem Prod.fst he
  have hne : e.1 ≠ k := fun hk => h (hk ▸ this)
  simp [hne]

theorem map_keys_modify {V : Type} (m : StdMap V) (k : Nat) (f : V → V) :
    map_keys (map_modify m k f) = map_keys m := by
  induction m with
  | nil => rfl
  | cons e rest ih =>
    simp only [map_keys, map_modify, List.map_cons] at ih ⊢
    by_cases h : e.1 = k <;> simp [h, ih]

theorem mem_map_keys_insert {V : Type} (m : StdMap V) (k x : Nat) (v : V) :
    x ∈ map_keys (map_insert m k v) ↔ x = k ∨ x ∈ map_keys m := by
  induction m with
  | nil => simp [map_insert, map_keys]
  | cons e rest ih =>
    obtain ⟨k1, v1⟩ := e
    simp only [map_insert]
    by_cases h1 : k < k1
    · simp [h1, map_keys]
    · by_cases h2 : k = k1
      · subst h2; simp [map_keys]
      · simp only [h1, h2, if_false, map_keys, List.map_cons, List.mem_cons]
        simp only [map_keys] at ih
        rw [ih]
        tauto

theorem mem_map_keys_erase {V : Type} (m : StdMap V) (k x : Nat) :
    x ∈ map_keys (map_erase m k) ↔ x ≠ k ∧ x ∈ map_keys m := by
  simp only [map_keys, map_erase, List.mem_map, List.mem_filter, ne_eq, decide_eq_true_eq]
  constructor
  · rintro ⟨e, ⟨he, hne⟩, rfl⟩
    exact ⟨hne, e, he, rfl⟩
  · rintro ⟨hne, e, he, rfl⟩
    exact ⟨e, ⟨he, hne⟩, rfl⟩

/-! ## Byte order -/

theorem htonl_bytes_length (seq : Nat) : (htonl_bytes seq).length = 4 := rfl

theorem htonl_bytes_val (seq : Nat) :
    (htonl_bytes seq).map Fin.val
      = [seq / 16777216 % 256, seq / 65536 % 256, seq / 256 % 256, seq % 256] := by
  simp [htonl_bytes, Fin.ofNat]

theorem ntohl_bytes_cons (b0 b1 b2 b3 : Byte) (rest : Bytes) :
    ntohl_bytes (b0 :: b1 :: b2 :: b3 :: rest)
      = b0.val * 16777216 + b1.val * 65536 + b2.val * 256 + b3.val := by
  simp [ntohl_bytes]

theorem ntohl_htonl (seq : Nat) (msg : Bytes) :
    ntohl_bytes (htonl_bytes seq ++ msg) = seq % UINT32_SIZE := by
  simp only [htonl_bytes, List.cons_append, List.nil_append, ntohl_bytes_cons, Fin.ofNat,
    UINT32_SIZE]
  omega

theorem take_drop_htonl (seq : Nat) (msg : Bytes) :
    (htonl_bytes seq ++ msg).take 4 = htonl_bytes seq ∧ (htonl_bytes seq ++ msg).drop 4 = msg := by
  simp [htonl_bytes]

theorem ACK_TAG_eq : ACK_TAG = [65, 67, 75, 58] := by decide

theorem htonl_eq_ACK_TAG_iff (seq : Nat) :
    htonl_bytes seq = ACK_TAG ↔ seq % UINT32_SIZE = 1094929210 := by
  rw [ACK_TAG_eq]
  simp only [htonl_bytes, Fin.ofNat, List.cons.injEq, and_true, UINT32_SIZE]
  constructor
  · rintro ⟨h0, h1, h2, h3⟩
    have e0 : seq / 16777216 % 256 = 65 := congrArg Fin.val h0
    have e1 : seq / 65536 % 256 = 67 := congrArg Fin.val h1
    have e2 : seq / 256 % 256 = 75 := congrArg Fin.val h2
    have e3 : seq % 256 = 58 := congrArg Fin.val h3
    omega
  · intro h
    have e0 : seq / 16777216 % 256 = 65 := by omega
    have e1 : seq / 65536 % 256 = 67 := by omega
    have e2 : seq / 256 % 256 = 75 := by omega
    have e3 : seq % 256 = 58 := by omega
    exact ⟨Fin.ext e0, Fin.ext e1, Fin.ext e2, Fin.ext e3⟩

/-! ## The server functions on a live group -/

theorem send_reliable_groups (m : UdpMulticastManager) (g : Nat) (grp : MulticastGroup)
    (msg : Bytes) (now : Nat) (ok : Bool) (h : map_find m.groups_ g = some grp) (g1 : Nat) :
    map_find (send_reliable_to_group m g msg now ok).1.groups_ g1
      = if g1 = g then
          some { grp with
            next_seq := (grp.next_seq + 1) % UINT32_SIZE
            sent_msgs := map_insert grp.sent_msgs grp.next_seq msg
            retransmit_timer := if ok then some (now + RETRANSMIT_MS) else grp.retransmit_timer }
        else map_find m.groups_ g1 := by
  unfold send_reliable_to_group
  cases ok <;> simp [h, map_find_modify]

theorem send_reliable_effects (m : UdpMulticastManager) (g : Nat) (grp : MulticastGroup)
    (msg : Bytes) (now : Nat) (ok : Bool) (h : map_find m.groups_ g = some grp) :
    (send_reliable_to_group m g msg now ok).2
      = Effect.send_to grp.endpoint (htonl_bytes grp.next_seq ++ msg)
          :: (if ok then [Effect.timer_arm g (now + RETRANSMIT_MS)] else []) := by
  unfold send_reliable_to_group
  cases ok <;> simp [h]

theorem send_reliable_next_group_id (m : UdpMulticastManager) (g : Nat) (msg : Bytes)
    (now : Nat) (ok : Bool) :
    (send_reliable_to_group m g msg now ok).1.next_group_id_ = m.next_group_id_ := by
  unfold send_reliable_to_group
  cases hf : map_find m.groups_ g <;> cases ok <;> simp

theorem step_send_reliable (m : UdpMulticastManager) (g : Nat) (msg : Bytes) (now : Nat)
    (ok : Bool) :
    step m (Op.send_reliable_to_group g msg now ok) = (send_reliable_to_group m g msg now ok).1 :=
  rfl

theorem run_append (m : UdpMulticastManager) (ops1 ops2 : List Op) :
    run m (ops1 ++ ops2) = run (run m ops1) ops2 := by
  simp [run, List.foldl_append]

theorem run_snoc (m : UdpMulticastManager) (ops : List Op) (op : Op) :
    run m (ops ++ [op]) = step (run m ops) op := by
  simp [run, List.foldl_append]

theorem run_cons (m : UdpMulticastManager) (op : Op) (ops : List Op) :
    run m (op :: ops) = run (step m op) ops := rfl

theorem Reachable.step {m : UdpMulticastManager} (h : Reachable m) (op : Op) :
    Reachable (AsioKcp.step m op) := by
  obtain ⟨ops, rfl⟩ := h
  exact ⟨ops ++ [op], run_snoc _ _ _⟩

/-- After `n` reliable sends on a fresh group, its counter is `n` modulo `2 ^ 32`, and the
first sequence number is still unacknowledged. -/
theorem run_replicate_reliable (m : UdpMulticastManager) (g : Nat) (grp : MulticastGroup)
    (msg : Bytes) (now : Nat) (ok : Bool) (h : map_find m.groups_ g = some grp)
    (h0 : grp.next_seq = 0) (n : Nat) :
    ∃ grp1, map_find (run m (List.replicate n (Op.send_reliable_to_group g msg now ok))).groups_ g
        = some grp1
      ∧ grp1.next_seq = n % UINT32_SIZE ∧ grp1.endpoint = grp.endpoint
      ∧ (0 < n → 0 ∈ map_keys grp1.sent_msgs) := by
  induction n with
  | zero => exact ⟨grp, by simpa [run] using h, by simp [h0], rfl, by simp⟩
  | succ n ih =>
    obtain ⟨grp1, hf, hseq, hep, hkey⟩ := ih
    rw [List.replicate_succ', run_snoc]
    have hstep := send_reliable_groups _ g grp1 msg now ok hf g
    rw [if_pos rfl] at hstep
    refine ⟨_, hstep, ?_, hep, ?_⟩
    · simp only [hseq, UINT32_SIZE]; omega
    · intro _
      rw [mem_map_keys_insert]
      by_cases hn : n = 0
      · left; rw [hseq, hn]; rfl
      · right; exact hkey (Nat.pos_of_ne_zero hn)

theorem sample_create_group :
    map_find (step UdpMulticastManager.init sample_create).groups_ 1
      = some (MulticastGroup.init ⟨⟨[239, 255, 0, 1]⟩, 30001⟩) := by decide

theorem receive_datagram_ack_tag (c : kcp_multicast_client) (g : Nat) (rest : Bytes) :
    receive_datagram c g (ACK_TAG ++ rest) = (c, []) := by
  unfold receive_datagram
  simp [ACK_TAG_eq]

theorem receive_datagram_reliable (c : kcp_multicast_client) (g : Nat) (b0 b1 b2 b3 : Byte)
    (rest : Bytes) (h : [b0, b1, b2, b3] ≠ ACK_TAG) :
    receive_datagram c g (b0 :: b1 :: b2 :: b3 :: rest)
      = (c, handle_multicast_message c g rest
            ++ send_ack c g (b0.val * 16777216 + b1.val * 65536 + b2.val * 256 + b3.val)) := by
  unfold receive_datagram handle_reliable_message
  have h1 : ¬ (List.take 4 (b0 :: b1 :: b2 :: b3 :: rest) = ACK_TAG) := by simpa using h
  simp only [List.length_cons, h1, and_false, if_false, ntohl_bytes_cons, List.drop_succ_cons,
    List.drop_zero]
  cases hf : map_find c.groups_ g <;> simp

theorem receive_datagram_short (c : kcp_multicast_client) (g : Nat) (d : Bytes)
    (h : d.length < 4) :
    receive_datagram c g d = (c, handle_multicast_message c g d) := by
  unfold receive_datagram
  have h1 : ¬ 4 ≤ d.length := by omega
  simp [h1]

/-- The reliable round trip outside the one sequence number whose encoding is the ACK tag:
the frame of sequence number `seq`, below `2 ^ 32` and other than 1094929210, is delivered
once with the payload that was sent, and acknowledged with that sequence number. -/
theorem reliable_round_trip_of_ne (c : kcp_multicast_client) (g : Nat) (info : GroupInfo)
    (seq : Nat) (msg : Bytes) (hjoin : map_find c.groups_ g = some info)
    (hcb : c.msg_callback_ = true) (hlt : seq < UINT32_SIZE) (hne : seq ≠ 1094929210) :
    receive_datagram c g (htonl_bytes seq ++ msg)
      = (c, [ClientEvent.callback g msg,
             ClientEvent.sendto info.socket_fd info.multicast_addr info.port
               (ACK_TAG ++ ascii (to_string seq))]) := by
  have hmod : seq % UINT32_SIZE = seq := Nat.mod_eq_of_lt hlt
  have hne1 : htonl_bytes seq ≠ ACK_TAG := by
    rw [Ne, htonl_eq_ACK_TAG_iff, hmod]; exact hne
  have hv := ntohl_htonl seq []
  rw [hmod] at hv
  simp only [htonl_bytes, List.cons_append, List.nil_append, ntohl_bytes_cons] at hv hne1 ⊢
  rw [receive_datagram_reliable c g _ _ _ _ msg hne1, hv]
  simp [handle_multicast_message, hcb, send_ack, hjoin]

/-- C1 (the code at the failing input). A group whose counter has reached 1094929210, the
number whose big-endian bytes are the text "ACK:", is reachable; the frame that
`send_reliable_to_group` emits for it is the tag followed by the payload, and the client
drops that frame: no callback, no acknowledgement, client unchanged. -/
theorem reliable_frame_with_seq_ACK_is_dropped :
    ∃ m : UdpMulticastManager, Reachable m ∧ ∃ grp, map_find m.groups_ 1 = some grp ∧
      grp.next_seq = 1094929210 ∧
      ∀ (msg : Bytes) (now : Nat) (c : kcp_multicast_client),
        datagrams (send_reliable_to_group m 1 msg now true).2 = [(grp.endpoint, ACK_TAG ++ msg)]
          ∧ receive_datagram c 1 (ACK_TAG ++ msg) = (c, []) := by
  obtain ⟨grp, hf, hseq, -, -⟩ :=
    run_replicate_reliable (step UdpMulticastManager.init sample_create) 1 _ [] 0 true
      sample_create_group rfl 1094929210
  refine ⟨_, ⟨sample_create :: List.replicate 1094929210 (Op.send_reliable_to_group 1 [] 0 true),
    rfl⟩, grp, ?_, ?_, ?_⟩
  · rw [run_cons]; exact hf
  · rw [hseq]; decide
  · intro msg now c
    refine ⟨?_, receive_datagram_ack_tag c 1 msg⟩
    rw [run_cons, send_reliable_effects _ 1 grp msg now true hf, hseq]
    have h1 : htonl_bytes (1094929210 % UINT32_SIZE) = ACK_TAG := by decide
    simp [datagrams, h1]

/-- C2 (the code at the failing input). The datagram that `send_to_group` emits for the
payload "hello" is the five bytes of "hello"; the client that joined the group takes its
first four bytes for a sequence number: the callback receives "o", and an
acknowledgement "ACK:1751477356" is sent. -/
theorem unreliable_hello_is_stripped_and_acked :
    datagrams (send_to_group (step UdpMulticastManager.init sample_create) 1
        (ascii "hello".toList)).2
      = [(⟨⟨[239, 255, 0, 1]⟩, 30001⟩, ascii "hello".toList)]
    ∧ receive_datagram sample_client 1 (ascii "hello".toList)
      = (sample_client,
          [ClientEvent.callback 1 (ascii "o".toList),
           ClientEvent.sendto 3 "239.255.0.1".toList 30001 (ascii "ACK:1751477356".toList)]) := by
  constructor <;> decide

/-- C3. On a joined group, with a callback registered: a datagram of at least four bytes
that starts with "ACK:" causes no callback and no send; any other datagram of at least four
bytes `b0 b1 b2 b3 rest` is delivered as `rest`, and then one acknowledgement is sent for the
big-endian value of `b0 b1 b2 b3`; a datagram of fewer than four bytes is delivered whole and
nothing is sent. The client itself is unchanged in all three cases. -/
theorem receive_datagram_classification (c : kcp_multicast_client) (g : Nat) (info : GroupInfo)
    (hjoin : map_find c.groups_ g = some info) (hcb : c.msg_callback_ = true) :
    (∀ d : Bytes, 4 ≤ d.length → d.take 4 = ACK_TAG → receive_datagram c g d = (c, []))
    ∧ (∀ (b0 b1 b2 b3 : Byte) (rest : Bytes), [b0, b1, b2, b3] ≠ ACK_TAG →
        receive_datagram c g (b0 :: b1 :: b2 :: b3 :: rest)
          = (c, [ClientEvent.callback g rest,
                 ClientEvent.sendto info.socket_fd info.multicast_addr info.port
                   (ACK_TAG ++ ascii (to_string
                     (b0.val * 16777216 + b1.val * 65536 + b2.val * 256 + b3.val)))]))
    ∧ (∀ d : Bytes, d.length < 4 → receive_datagram c g d = (c, [ClientEvent.callback g d])) := by
  refine ⟨?_, ?_, ?_⟩
  · intro d hlen htake
    have hd : d = ACK_TAG ++ d.drop 4 := by
      rw [← htake]; exact (List.take_append_drop 4 d).symm
    rw [hd]; exact receive_datagram_ack_tag c g _
  · intro b0 b1 b2 b3 rest hne
    rw [receive_datagram_reliable c g b0 b1 b2 b3 rest hne]
    simp [handle_multicast_message, hcb, send_ack, hjoin]
  · intro d hlen
    rw [receive_datagram_short c g d hlen]
    simp [handle_multicast_message, hcb]

/-- C3 at the sample client: the three kinds of datagram. -/
theorem receive_datagram_classification_witness :
    (map_find sample_client.groups_ 1
        = some { multicast_addr := "239.255.0.1".toList, port := 30001, socket_fd := 3,
                 last_seq := 0 }
      ∧ sample_client.msg_callback_ = true)
    ∧ receive_datagram sample_client 1 (ascii "ACK:12".toList) = (sample_client, [])
    ∧ receive_datagram sample_client 1 (0 :: 0 :: 1 :: 2 :: ascii "A".toList)
        = (sample_client, [ClientEvent.callback 1 (ascii "A".toList),
            ClientEvent.sendto 3 "239.255.0.1".toList 30001 (ascii "ACK:258".toList)])
    ∧ receive_datagram sample_client 1 (ascii "hey".toList)
        = (sample_client, [ClientEvent.callback 1 (ascii "hey".toList)]) :=
  have h := receive_datagram_classification sample_client 1
    { multicast_addr := "239.255.0.1".toList, port := 30001, socket_fd := 3, last_seq := 0 }
    (by decide) (by decide)
  ⟨⟨by decide, by decide⟩, h.1 _ (by decide) (by decide), h.2.1 0 0 1 2 _ (by decide),
    h.2.2 _ (by decide)⟩

/-- C4 (the code at the failing input). The reliable frame of sequence number 7 with
payload "A", processed twice by the client that joined the group, invokes the callback
twice and is acknowledged twice; `last_seq` of the group is still 0 afterwards. -/
theorem duplicate_frame_is_delivered_twice :
    callbacks ((receive_datagram sample_client 1 (htonl_bytes 7 ++ ascii "A".toList)).2
        ++ (receive_datagram
              (receive_datagram sample_client 1 (htonl_bytes 7 ++ ascii "A".toList)).1 1
              (htonl_bytes 7 ++ ascii "A".toList)).2)
      = [(1, ascii "A".toList), (1, ascii "A".toList)]
    ∧ client_datagrams ((receive_datagram sample_client 1 (htonl_bytes 7 ++ ascii "A".toList)).2
        ++ (receive_datagram
              (receive_datagram sample_client 1 (htonl_bytes 7 ++ ascii "A".toList)).1 1
              (htonl_bytes 7 ++ ascii "A".toList)).2)
      = [ascii "ACK:7".toList, ascii "ACK:7".toList]
    ∧ (receive_datagram
          (receive_datagram sample_client 1 (htonl_bytes 7 ++ ascii "A".toList)).1 1
          (htonl_bytes 7 ++ ascii "A".toList)).1 = sample_client := by
  refine ⟨?_, ?_, ?_⟩ <;> decide

/-- The receive step never changes the client, so no datagram can influence how a later one
is treated. -/
theorem receive_datagram_client (c : kcp_multicast_client) (g : Nat) (d : Bytes) :
    (receive_datagram c g d).1 = c := by
  unfold receive_datagram handle_reliable_message
  cases hf : map_find c.groups_ g <;> simp only [] <;> split_ifs <;> rfl

theorem create_group_result (m : UdpMulticastManager) (a : List Char) (p : Nat)
    (env : CreateEnv) :
    (create_group m a p env = ({ m with next_group_id_ := (m.next_group_id_ + 1) % UINT32_SIZE }, 0))
    ∨ ∃ ep, create_group m a p env
        = ({ groups_ := map_insert m.groups_ m.next_group_id_ (MulticastGroup.init ep),
             next_group_id_ := (m.next_group_id_ + 1) % UINT32_SIZE }, m.next_group_id_) := by
  unfold create_group
  simp only []
  split
  · left; rfl
  · rename_i ep _
    right; exact ⟨ep, rfl⟩

/-- C5. On a live group with counter `n`, `send_reliable_to_group` sets the counter to
`(n + 1) mod 2 ^ 32`, stores the payload under `n` and leaves every other entry of the unacked
table and every other group as they were, and hands exactly one datagram to the socket,
addressed to the endpoint of the group: the four big-endian bytes of `n` followed by the
payload, `4 + |payload|` bytes in all. A group that `create_group` has just stored has
counter 0 and an empty unacked table. -/
theorem send_reliable_to_group_step (m : UdpMulticastManager) (g : Nat) (grp : MulticastGroup)
    (msg : Bytes) (now : Nat) (ok : Bool) (h : map_find m.groups_ g = some grp) :
    (∃ grp1, map_find (send_reliable_to_group m g msg now ok).1.groups_ g = some grp1
        ∧ grp1.next_seq = (grp.next_seq + 1) % 4294967296
        ∧ map_find grp1.sent_msgs grp.next_seq = some msg
        ∧ (∀ k, k ≠ grp.next_seq → map_find grp1.sent_msgs k = map_find grp.sent_msgs k)
        ∧ grp1.endpoint = grp.endpoint)
    ∧ (∀ g1, g1 ≠ g →
        map_find (send_reliable_to_group m g msg now ok).1.groups_ g1 = map_find m.groups_ g1)
    ∧ (send_reliable_to_group m g msg now ok).1.next_group_id_ = m.next_group_id_
    ∧ datagrams (send_reliable_to_group m g msg now ok).2
        = [(grp.endpoint, htonl_bytes grp.next_seq ++ msg)]
    ∧ (htonl_bytes grp.next_seq).map Fin.val
        = [grp.next_seq / 16777216 % 256, grp.next_seq / 65536 % 256,
           grp.next_seq / 256 % 256, grp.next_seq % 256]
    ∧ (htonl_bytes grp.next_seq ++ msg).length = 4 + msg.length
    ∧ (∀ (m0 : UdpMulticastManager) (a : List Char) (p : Nat) (env : CreateEnv),
        (create_group m0 a p env).2 ≠ 0 →
        ∃ grp0, map_find (create_group m0 a p env).1.groups_ (create_group m0 a p env).2
            = some grp0
          ∧ grp0.next_seq = 0 ∧ grp0.sent_msgs = []) := by
  have hstep := send_reliable_groups m g grp msg now ok h g
  rw [if_pos rfl] at hstep
  refine ⟨⟨_, hstep, rfl, ?_, ?_, rfl⟩, ?_, ?_, ?_, htonl_bytes_val _, ?_, ?_⟩
  · simp [map_find_insert]
  · intro k hk
    simp [map_find_insert, hk]
  · intro g1 hg1
    rw [send_reliable_groups m g grp msg now ok h g1, if_neg hg1]
  · exact send_reliable_next_group_id m g msg now ok
  · rw [send_reliable_effects m g grp msg now ok h]
    cases ok <;> simp [datagrams]
  · simp [htonl_bytes_length]
  · intro m0 a p env hne
    rcases create_group_result m0 a p env with h0 | ⟨ep, h1⟩
    · rw [h0] at hne; exact absurd rfl hne
    · rw [h1]
      exact ⟨MulticastGroup.init ep, by simp [map_find_insert], rfl, rfl⟩

/-- C5 at a concrete state: the second reliable send on the group of the first scenario. -/
theorem send_reliable_to_group_step_witness :
    map_find (run UdpMulticastManager.init
        [sample_create, Op.send_reliable_to_group 1 (ascii "A".toList) 0 true]).groups_ 1
      = some { endpoint := ⟨⟨[239, 255, 0, 1]⟩, 30001⟩, next_seq := 1,
               sent_msgs := [(0, ascii "A".toList)], retransmit_timer := some 500 }
    ∧ datagrams (send_reliable_to_group (run UdpMulticastManager.init
        [sample_create, Op.send_reliable_to_group 1 (ascii "A".toList) 0 true])
        1 (ascii "B".toList) 100 true).2
      = [(⟨⟨[239, 255, 0, 1]⟩, 30001⟩, [0, 0, 0, 1, 66])] :=
  ⟨by decide,
   (send_reliable_to_group_step _ 1
      { endpoint := ⟨⟨[239, 255, 0, 1]⟩, 30001⟩, next_seq := 1,
        sent_msgs := [(0, ascii "A".toList)], retransmit_timer := some 500 }
      (ascii "B".toList) 100 true (by decide)).2.2.2.1⟩

/-! ## One call, seen from one group -/

theorem step_next_group_id (m : UdpMulticastManager) (op : Op) :
    (step m op).next_group_id_
      = if op.is_create then (m.next_group_id_ + 1) % UINT32_SIZE else m.next_group_id_ := by
  cases op with
  | create_group a p env =>
    rcases create_group_result m a p env with h | ⟨ep, h⟩ <;> simp [step, h, Op.is_create]
  | delete_group g =>
    simp only [step, delete_group, Op.is_create]
    cases map_find m.groups_ g <;> simp
  | send_to_group g msg =>
    simp only [step, send_to_group, Op.is_create]
    cases map_find m.groups_ g <;> simp
  | send_reliable_to_group g msg now ok =>
    simp [step, send_reliable_next_group_id, Op.is_create]
  | handle_retransmit g now =>
    simp only [step, handle_retransmit, Op.is_create]
    cases map_find m.groups_ g <;> simp
    split_ifs <;> rfl
  | handle_ack g seq =>
    simp only [step, handle_ack, Op.is_create]
    cases map_find m.groups_ g <;> simp
  | stop => simp [step, stop, Op.is_create]

/-- What one call can do to the group found under id `g` afterwards: it is a group that
`create_group` has just stored under the id it drew, or the group that was there before with
the same counter and no new unacked key, or the group that was there before after one
reliable send on it. -/
theorem step_group_cases (m : UdpMulticastManager) (op : Op) (g : Nat) (grp1 : MulticastGroup)
    (h : map_find (step m op).groups_ g = some grp1) :
    (grp1.next_seq = 0 ∧ grp1.sent_msgs = [] ∧ op.is_create = true ∧ g = m.next_group_id_)
    ∨ (∃ grp, map_find m.groups_ g = some grp ∧ grp1.next_seq = grp.next_seq
        ∧ ∀ k ∈ map_keys grp1.sent_msgs, k ∈ map_keys grp.sent_msgs)
    ∨ (∃ grp, map_find m.groups_ g = some grp ∧ op.is_reliable_send g = true
        ∧ grp1.next_seq = (grp.next_seq + 1) % UINT32_SIZE
        ∧ ∀ k ∈ map_keys grp1.sent_msgs, k = grp.next_seq ∨ k ∈ map_keys grp.sent_msgs) := by
  have same : map_find m.groups_ g = some grp1 →
      ∃ grp, map_find m.groups_ g = some grp ∧ grp1.next_seq = grp.next_seq
        ∧ ∀ k ∈ map_keys grp1.sent_msgs, k ∈ map_keys grp.sent_msgs :=
    fun hm => ⟨grp1, hm, rfl, fun _ hk => hk⟩
  cases op with
  | create_group a p env =>
    simp only [step] at h
    rcases create_group_result m a p env with h0 | ⟨ep, h0⟩
    · rw [h0] at h
      exact Or.inr (Or.inl (same h))
    · rw [h0] at h
      simp only [map_find_insert] at h
      by_cases hg : g = m.next_group_id_
      · rw [if_pos hg] at h
        cases h
        exact Or.inl ⟨rfl, rfl, rfl, hg⟩
      · rw [if_neg hg] at h
        exact Or.inr (Or.inl (same h))
  | delete_group g1 =>
    simp only [step, delete_group] at h
    cases hf : map_find m.groups_ g1 with
    | none =>
      rw [hf] at h
      exact Or.inr (Or.inl (same h))
    | some grp0 =>
      rw [hf] at h
      simp only [map_find_erase] at h
      by_cases hg : g = g1
      · rw [if_pos hg] at h; cases h
      · rw [if_neg hg] at h
        exact Or.inr (Or.inl (same h))
  | send_to_group g1 msg =>
    simp only [step, send_to_group] at h
    cases hf : map_find m.groups_ g1 <;> rw [hf] at h <;> exact Or.inr (Or.inl (same h))
  | send_reliable_to_group g1 msg now ok =>
    simp only [step] at h
    cases hf : map_find m.groups_ g1 with
    | none =>
      simp only [send_reliable_to_group, hf] at h
      exact Or.inr (Or.inl (same h))
    | some grp0 =>
      rw [send_reliable_groups m g1 grp0 msg now ok hf g] at h
      by_cases hg : g = g1
      · subst hg
        rw [if_pos rfl] at h
        cases h
        refine Or.inr (Or.inr ⟨grp0, hf, by simp [Op.is_reliable_send], rfl, ?_⟩)
        intro k hk
        exact (mem_map_keys_insert _ _ _ _).1 hk
      · rw [if_neg hg] at h
        exact Or.inr (Or.inl (same h))
  | handle_retransmit g1 now =>
    simp only [step, handle_retransmit] at h
    cases hf : map_find m.groups_ g1 with
    | none =>
      rw [hf] at h
      exact Or.inr (Or.inl (same h))
    | some grp0 =>
      rw [hf] at h
      simp only [] at h
      split_ifs at h with hempty
      · exact Or.inr (Or.inl (same h))
      · simp only [map_find_modify, hf, Option.map_some] at h
        by_cases hg : g = g1
        · subst hg
          rw [if_pos rfl] at h
          cases h
          exact Or.inr (Or.inl ⟨grp0, hf, rfl, fun _ hk => hk⟩)
        · rw [if_neg hg] at h
          exact Or.inr (Or.inl (same h))
  | handle_ack g1 seq =>
    simp only [step, handle_ack] at h
    cases hf : map_find m.groups_ g1 with
    | none =>
      rw [hf] at h
      exact Or.inr (Or.inl (same h))
    | some grp0 =>
      rw [hf] at h
      simp only [map_find_modify, hf, Option.map_some] at h
      by_cases hg : g = g1
      · subst hg
        rw [if_pos rfl] at h
        cases h
        exact Or.inr (Or.inl ⟨grp0, hf, rfl, fun k hk => ((mem_map_keys_erase _ _ _).1 hk).2⟩)
      · rw [if_neg hg] at h
        exact Or.inr (Or.inl (same h))
  | stop =>
    simp [step, stop, map_find] at h

theorem reliable_sends_snoc (g : Nat) (ops : List Op) (op : Op) :
    reliable_sends g (ops ++ [op])
      = reliable_sends g ops + if op.is_reliable_send g then 1 else 0 := by
  simp [reliable_sends, List.countP_append, List.countP_singleton]

theorem creates_snoc (ops : List Op) (op : Op) :
    creates (ops ++ [op]) = creates ops + if op.is_create then 1 else 0 := by
  simp [creates, List.countP_append, List.countP_singleton]

/-- Along a run with fewer than `2 ^ 32` reliable sends on group `g`, the counter of `g` is at
most the number of those sends and every unacked key is below the counter. -/
theorem run_seq_bound (ops : List Op) :
    ∀ (g : Nat) (grp : MulticastGroup),
      map_find (run UdpMulticastManager.init ops).groups_ g = some grp →
      reliable_sends g ops < UINT32_SIZE →
      grp.next_seq ≤ reliable_sends g ops ∧ ∀ seq ∈ map_keys grp.sent_msgs, seq < grp.next_seq := by
  induction ops using List.reverseRecOn with
  | nil =>
    intro g grp h
    simp [run, UdpMulticastManager.init, map_find] at h
  | append_singleton ops op ih =>
    intro g grp1 h hfew
    rw [run_snoc] at h
    rw [reliable_sends_snoc] at hfew ⊢
    rcases step_group_cases _ op g grp1 h with ⟨h0, hnil, -, -⟩ | ⟨grp, hf, hseq, hkeys⟩
        | ⟨grp, hf, hrel, hseq, hkeys⟩
    · rw [h0, hnil]
      exact ⟨Nat.zero_le _, by simp [map_keys]⟩
    · obtain ⟨hb, hk⟩ := ih g grp hf (by omega)
      refine ⟨by omega, fun seq hs => ?_⟩
      rw [hseq]
      exact hk seq (hkeys seq hs)
    · rw [hrel, if_pos rfl] at hfew ⊢
      obtain ⟨hb, hk⟩ := ih g grp hf (by omega)
      have hs1 : grp1.next_seq = grp.next_seq + 1 := by
        rw [hseq]; simp only [UINT32_SIZE] at hfew ⊢; omega
      refine ⟨by omega, fun seq hs => ?_⟩
      rcases hkeys seq hs with hk1 | hk1
      · omega
      · have := hk seq hk1; omega

/-- Along a run with fewer than `2 ^ 32 - 1` calls of `create_group`, the id counter is one
more than the number of those calls and every live id is below it. -/
theorem run_ids (ops : List Op) :
    creates ops + 1 < UINT32_SIZE →
      (run UdpMulticastManager.init ops).next_group_id_ = creates ops + 1
      ∧ ∀ (g : Nat) (grp : MulticastGroup),
          map_find (run UdpMulticastManager.init ops).groups_ g = some grp →
          g < (run UdpMulticastManager.init ops).next_group_id_ := by
  induction ops using List.reverseRecOn with
  | nil =>
    intro _
    refine ⟨rfl, fun g grp h => ?_⟩
    simp [run, UdpMulticastManager.init, map_find] at h
  | append_singleton ops op ih =>
    intro hfew
    rw [creates_snoc] at hfew ⊢
    obtain ⟨hid, hlive⟩ := ih (by omega)
    have hnext : (run UdpMulticastManager.init (ops ++ [op])).next_group_id_
        = creates ops + 1 + if op.is_create then 1 else 0 := by
      rw [run_snoc, step_next_group_id, hid]
      by_cases hc : op.is_create = true
      · rw [if_pos hc] at hfew ⊢
        rw [if_pos hc]
        simp only [UINT32_SIZE] at hfew ⊢; omega
      · rw [if_neg hc, if_neg hc]
    refine ⟨by rw [hnext]; omega, fun g grp1 h => ?_⟩
    rw [hnext]
    rw [run_snoc] at h
    rcases step_group_cases _ op g grp1 h with ⟨-, -, hc, hg⟩ | ⟨grp, hf, -, -⟩ | ⟨grp, hf, -, -, -⟩
    · rw [hg, hid, if_pos hc]; omega
    · have := hlive g grp hf; omega
    · have := hlive g grp hf; omega

theorem creates_append_le (ops1 ops2 : List Op) : creates ops1 ≤ creates (ops1 ++ ops2) := by
  simp [creates, List.countP_append]

theorem reliable_sends_append_le (g : Nat) (ops1 ops2 : List Op) :
    reliable_sends g ops1 ≤ reliable_sends g (ops1 ++ ops2) := by
  simp [reliable_sends, List.countP_append]

/-- Without wrap of either counter, the counter of the group under id `g` only grows along
a run. -/
theorem run_next_seq_mono (ops1 ops2 : List Op) (g : Nat) :
    creates (ops1 ++ ops2) + 1 < UINT32_SIZE →
    reliable_sends g (ops1 ++ ops2) < UINT32_SIZE →
    next_seq_not_decreased ops1 ops2 g := by
  induction ops2 using List.reverseRecOn with
  | nil =>
    intro _ _ grp1 grp2 h1 h2
    rw [List.append_nil, h1] at h2
    cases h2
    exact Nat.le_refl _
  | append_singleton ops2 op ih =>
    intro hc hs grp1 grp2 h1 h2
    rw [← List.append_assoc] at hc hs h2
    have hc0 : creates (ops1 ++ ops2) + 1 < UINT32_SIZE := by
      have := creates_append_le (ops1 ++ ops2) [op]; omega
    have hs0 : reliable_sends g (ops1 ++ ops2) < UINT32_SIZE := by
      have := reliable_sends_append_le g (ops1 ++ ops2) [op]; omega
    rw [run_snoc] at h2
    rcases step_group_cases _ op g grp2 h2 with ⟨-, -, -, hg⟩ | ⟨grp, hf, hseq, -⟩
        | ⟨grp, hf, hrel, hseq, -⟩
    · exfalso
      have hle := creates_append_le ops1 ops2
      obtain ⟨hid1, hlive1⟩ := run_ids ops1 (by omega)
      obtain ⟨hid2, -⟩ := run_ids (ops1 ++ ops2) hc0
      have := hlive1 g grp1 h1
      omega
    · rw [hseq]
      exact ih hc0 hs0 grp1 grp h1 hf
    · have hprev := ih hc0 hs0 grp1 grp h1 hf
      obtain ⟨hb, -⟩ := run_seq_bound (ops1 ++ ops2) g grp hf hs0
      rw [reliable_sends_snoc, hrel, if_pos rfl] at hs
      rw [hseq]
      simp only [UINT32_SIZE] at hs ⊢
      omega

/-- C6 (counterexample). After `create_group` and `2 ^ 32` reliable sends on the new group
without any acknowledgement, the counter of the group is back at 0 while key 0 is still in
its unacked table. -/
theorem unacked_key_not_below_next_seq_after_wrap :
    ¬ unacked_keys_below_next_seq (run UdpMulticastManager.init
        (sample_create :: List.replicate 4294967296 (Op.send_reliable_to_group 1 [] 0 true))) := by
  intro hinv
  obtain ⟨grp, hf, hseq, -, hkey⟩ :=
    run_replicate_reliable (step UdpMulticastManager.init sample_create) 1 _ [] 0 true
      sample_create_group rfl 4294967296
  have h0 := hinv 1 grp (by rw [run_cons]; exact hf) 0 (hkey (by decide))
  rw [hseq] at h0
  exact absurd h0 (by decide)

/-- C6 (amended). In the state after any sequence of calls on a freshly constructed manager,
every key of the unacked table of a live group `g` is below `next_seq` of `g`, provided the
sequence holds fewer than `2 ^ 32` calls of `send_reliable_to_group` on `g`. -/
theorem unacked_keys_below_next_seq_before_wrap (ops : List Op) (g : Nat) (grp : MulticastGroup)
    (hlive : map_find (run UdpMulticastManager.init ops).groups_ g = some grp)
    (hfew : reliable_sends g ops < 4294967296) :
    ∀ seq ∈ map_keys grp.sent_msgs, seq < grp.next_seq :=
  (run_seq_bound ops g grp hlive hfew).2

/-- C6 (amended) at a concrete run: one reliable send, then its key 0 is below counter 1. -/
theorem unacked_keys_below_next_seq_before_wrap_witness :
    (map_find (run UdpMulticastManager.init
        [sample_create, Op.send_reliable_to_group 1 (ascii "A".toList) 0 true]).groups_ 1
      = some { endpoint := ⟨⟨[239, 255, 0, 1]⟩, 30001⟩, next_seq := 1,
               sent_msgs := [(0, ascii "A".toList)], retransmit_timer := some 500 }
      ∧ reliable_sends 1 [sample_create, Op.send_reliable_to_group 1 (ascii "A".toList) 0 true]
          < 4294967296)
    ∧ ∀ seq ∈ map_keys [(0, ascii "A".toList)], seq < 1 :=
  ⟨⟨by decide, by decide⟩,
   unacked_keys_below_next_seq_before_wrap
     [sample_create, Op.send_reliable_to_group 1 (ascii "A".toList) 0 true] 1
     { endpoint := ⟨⟨[239, 255, 0, 1]⟩, 30001⟩, next_seq := 1,
       sent_msgs := [(0, ascii "A".toList)], retransmit_timer := some 500 }
     (by decide) (by decide)⟩

/-- C7 (counterexample). After `create_group` and `2 ^ 32 - 1` reliable sends the counter of
the group is `2 ^ 32 - 1`; the next reliable send is assigned that number and leaves the
counter at 0, so the counter has decreased and the send after it is assigned the smaller
number 0. -/
theorem next_seq_decreases_at_wrap :
    ¬ next_seq_not_decreased
        (sample_create :: List.replicate 4294967295 (Op.send_reliable_to_group 1 [] 0 true))
        [Op.send_reliable_to_group 1 [] 0 true] 1 := by
  intro hmono
  obtain ⟨grp1, hf1, hseq1, -, -⟩ :=
    run_replicate_reliable (step UdpMulticastManager.init sample_create) 1 _ [] 0 true
      sample_create_group rfl 4294967295
  have hstep := send_reliable_groups _ 1 grp1 [] 0 true hf1 1
  rw [if_pos rfl, ← step_send_reliable, ← run_snoc, ← run_cons, ← List.cons_append] at hstep
  rw [← run_cons] at hf1
  have h := hmono grp1 _ hf1 hstep
  simp only [hseq1] at h
  exact absurd h (by decide)

/-- C7 (amended). Along any sequence of calls on a freshly constructed manager that holds
fewer than `2 ^ 32` reliable sends on `g` (and fewer than `2 ^ 32 - 1` calls of
`create_group`, so that the id `g` is not drawn a second time): whenever `g` is live at two
points of the run, its `next_seq` at the later point is at least its `next_seq` at the
earlier one, whatever calls lie between; and when a reliable send on `g` is made at the
earlier point, the number assigned to a reliable send at the later point is strictly
greater than the number assigned to that earlier send. -/
theorem next_seq_monotone_before_wrap (ops1 ops2 : List Op) (g : Nat)
    (hcreates : creates (ops1 ++ ops2) + 1 < 4294967296)
    (hsends : reliable_sends g (ops1 ++ ops2) < 4294967296) :
    next_seq_not_decreased ops1 ops2 g
    ∧ ∀ (msg : Bytes) (now : Nat) (ok : Bool) (rest : List Op) (grp1 grp2 : MulticastGroup),
        ops2 = Op.send_reliable_to_group g msg now ok :: rest →
        map_find (run UdpMulticastManager.init ops1).groups_ g = some grp1 →
        map_find (run UdpMulticastManager.init (ops1 ++ ops2)).groups_ g = some grp2 →
        grp1.next_seq < grp2.next_seq := by
  refine ⟨run_next_seq_mono ops1 ops2 g hcreates hsends, ?_⟩
  intro msg now ok rest grp1 grp2 hops h1 h2
  subst hops
  have hassoc : ops1 ++ Op.send_reliable_to_group g msg now ok :: rest
      = (ops1 ++ [Op.send_reliable_to_group g msg now ok]) ++ rest := by simp
  rw [hassoc] at hcreates hsends h2
  have hs1 : reliable_sends g (ops1 ++ [Op.send_reliable_to_group g msg now ok]) < UINT32_SIZE := by
    have := reliable_sends_append_le g (ops1 ++ [Op.send_reliable_to_group g msg now ok]) rest
    simp only [UINT32_SIZE]; omega
  have hs0 : reliable_sends g ops1 + 1 < UINT32_SIZE := by
    rw [reliable_sends_snoc] at hs1
    simpa [Op.is_reliable_send] using hs1
  obtain ⟨hb, -⟩ := run_seq_bound ops1 g grp1 h1 (by omega)
  have hstep := send_reliable_groups _ g grp1 msg now ok h1 g
  rw [if_pos rfl] at hstep
  have hmid := run_next_seq_mono (ops1 ++ [Op.send_reliable_to_group g msg now ok]) rest g
    hcreates hsends _ grp2 (by rw [run_snoc]; exact hstep) h2
  simp only [UINT32_SIZE] at hmid hs0
  have hnowrap : (grp1.next_seq + 1) % 4294967296 = grp1.next_seq + 1 := by omega
  rw [hnowrap] at hmid
  omega

/-- C7 (amended) at a concrete run: two reliable sends with an unreliable send and a
retransmission tick between them are assigned 0 and then 1. -/
theorem next_seq_monotone_before_wrap_witness :
    (creates ([sample_create] ++ [Op.send_reliable_to_group 1 [] 0 true,
        Op.send_to_group 1 [], Op.handle_retransmit 1 500]) + 1 < 4294967296
      ∧ reliable_sends 1 ([sample_create] ++ [Op.send_reliable_to_group 1 [] 0 true,
        Op.send_to_group 1 [], Op.handle_retransmit 1 500]) < 4294967296)
    ∧ map_find (run UdpMulticastManager.init [sample_create]).groups_ 1
        = some (MulticastGroup.init ⟨⟨[239, 255, 0, 1]⟩, 30001⟩)
    ∧ map_find (run UdpMulticastManager.init ([sample_create]
          ++ [Op.send_reliable_to_group 1 [] 0 true, Op.send_to_group 1 [],
              Op.handle_retransmit 1 500])).groups_ 1
        = some { endpoint := ⟨⟨[239, 255, 0, 1]⟩, 30001⟩, next_seq := 1,
                 sent_msgs := [(0, [])], retransmit_timer := some 1000 }
    ∧ (MulticastGroup.init ⟨⟨[239, 255, 0, 1]⟩, 30001⟩).next_seq < 1 :=
  ⟨⟨by decide, by decide⟩, by decide, by decide,
   (next_seq_monotone_before_wrap [sample_create]
      [Op.send_reliable_to_group 1 [] 0 true, Op.send_to_group 1 [], Op.handle_retransmit 1 500] 1
      (by decide) (by decide)).2 [] 0 true [Op.send_to_group 1 [], Op.handle_retransmit 1 500]
      (MulticastGroup.init ⟨⟨[239, 255, 0, 1]⟩, 30001⟩)
      { endpoint := ⟨⟨[239, 255, 0, 1]⟩, 30001⟩, next_seq := 1,
        sent_msgs := [(0, [])], retransmit_timer := some 1000 }
      rfl (by decide) (by decide)⟩

/-! ## Well-formedness of reachable states -/

theorem pairwise_keys_insert {V : Type} (m : StdMap V) (k : Nat) (v : V)
    (h : (map_keys m).Pairwise (· < ·)) : (map_keys (map_insert m k v)).Pairwise (· < ·) := by
  induction m with
  | nil => simp [map_insert, map_keys]
  | cons e rest ih =>
    obtain ⟨k1, v1⟩ := e
    simp only [map_keys, List.map_cons, List.pairwise_cons] at h
    obtain ⟨hall, hrest⟩ := h
    simp only [map_insert]
    by_cases h1 : k < k1
    · simp only [h1, if_true, map_keys, List.map_cons, List.pairwise_cons, List.mem_cons]
      refine ⟨?_, hall, hrest⟩
      intro x hx
      rcases hx with rfl | hx
      · exact h1
      · exact Nat.lt_trans h1 (hall x hx)
    · by_cases h2 : k = k1
      · subst h2
        simp only [Nat.lt_irrefl, if_false, if_true, map_keys, List.map_cons, List.pairwise_cons]
        exact ⟨hall, hrest⟩
      · simp only [h1, h2, if_false, map_keys, List.map_cons, List.pairwise_cons]
        refine ⟨?_, ih hrest⟩
        intro x hx
        rcases (mem_map_keys_insert rest k x v).1 hx with rfl | hx1
        · omega
        · exact hall x hx1

theorem pairwise_keys_erase {V : Type} (m : StdMap V) (k : Nat)
    (h : (map_keys m).Pairwise (· < ·)) : (map_keys (map_erase m k)).Pairwise (· < ·) :=
  List.Pairwise.sublist (List.Sublist.map Prod.fst (List.filter_sublist m)) h

theorem map_insert_cons {V : Type} (k1 : Nat) (v1 : V) (rest : StdMap V) (k : Nat) (v : V) :
    map_insert ((k1, v1) :: rest) k v
      = if k < k1 then (k, v) :: (k1, v1) :: rest
        else if k = k1 then (k, v) :: rest
        else (k1, v1) :: map_insert rest k v := rfl

theorem mem_map_insert {V : Type} (m : StdMap V) (k : Nat) (v : V) (e : Nat × V)
    (h : e ∈ map_insert m k v) : e = (k, v) ∨ e ∈ m := by
  induction m with
  | nil => simpa [map_insert] using h
  | cons e1 rest ih =>
    obtain ⟨k1, v1⟩ := e1
    rw [map_insert_cons] at h
    split_ifs at h with h1 h2
    · simpa using h
    · rcases List.mem_cons.1 h with h | h
      · left; exact h
      · right; exact List.mem_cons_of_mem _ h
    · rcases List.mem_cons.1 h with h | h
      · right; rw [h]; exact List.mem_cons_self _ _
      · rcases ih h with h3 | h3
        · left; exact h3
        · right; exact List.mem_cons_of_mem _ h3

theorem mem_map_erase {V : Type} (m : StdMap V) (k : Nat) (e : Nat × V)
    (h : e ∈ map_erase m k) : e ∈ m :=
  (List.mem_filter.1 h).1

theorem mem_map_modify {V : Type} (m : StdMap V) (k : Nat) (f : V → V) (e : Nat × V)
    (h : e ∈ map_modify m k f) : e ∈ m ∨ ∃ v, (e.1, v) ∈ m ∧ e.2 = f v := by
  simp only [map_modify, List.mem_map] at h
  obtain ⟨⟨k0, v0⟩, he0, rfl⟩ := h
  by_cases hk : k0 = k
  · right
    simp only [hk, if_true]
    exact ⟨v0, by rw [← hk]; exact he0, rfl⟩
  · left
    simp only [hk, if_false]
    exact he0

/-- In a map with ascending keys, the entry that `find` returns is the only one of its key. -/
theorem entry_unique {V : Type} (m : StdMap V) (k : Nat) (v : V)
    (hp : (map_keys m).Pairwise (· < ·)) (hf : map_find m k = some v) :
    ∀ e ∈ m, e.1 = k → e.2 = v := by
  induction m with
  | nil => intro e he; cases he
  | cons e1 rest ih =>
    obtain ⟨k1, v1⟩ := e1
    simp only [map_keys, List.map_cons, List.pairwise_cons] at hp
    obtain ⟨hall, hrest⟩ := hp
    rw [map_find_cons] at hf
    intro e he hk
    by_cases h1 : k1 = k
    · rw [if_pos h1] at hf
      cases hf
      rcases List.mem_cons.1 he with rfl | he1
      · rfl
      · have := hall e.1 (List.mem_map_of_mem Prod.fst he1)
        omega
    · rw [if_neg h1] at hf
      rcases List.mem_cons.1 he with rfl | he1
      · exact absurd hk h1
      · exact ih hrest hf e he1 hk

theorem map_find_mem {V : Type} (m : StdMap V) (k : Nat) (v : V) (hf : map_find m k = some v) :
    (k, v) ∈ m := by
  induction m with
  | nil => simp [map_find] at hf
  | cons e1 rest ih =>
    obtain ⟨k1, v1⟩ := e1
    rw [map_find_cons] at hf
    by_cases h1 : k1 = k
    · rw [if_pos h1] at hf
      cases hf
      rw [h1]; exact List.mem_cons_self _ _
    · rw [if_neg h1] at hf
      exact List.mem_cons_of_mem _ (ih hf)

theorem map_modify_eq_self {V : Type} (m : StdMap V) (k : Nat) (f : V → V)
    (h : ∀ e ∈ m, e.1 = k → f e.2 = e.2) : map_modify m k f = m := by
  unfold map_modify
  conv_rhs => rw [← List.map_id m]
  apply List.map_congr_left
  rintro ⟨k0, v0⟩ he
  by_cases hk : k0 = k
  · have := h (k0, v0) he hk
    simp only [hk, if_true, id]
    rw [this]
  · simp [hk]

theorem wf_modify (m : UdpMulticastManager) (k : Nat) (f : MulticastGroup → MulticastGroup)
    (hm : m.wf) (hf : ∀ grp : MulticastGroup, grp.wf → (f grp).wf) :
    UdpMulticastManager.wf { m with groups_ := map_modify m.groups_ k f } := by
  obtain ⟨hkeys, hid, hall⟩ := hm
  refine ⟨by simpa [map_keys_modify] using hkeys, hid, ?_⟩
  intro e he
  rcases mem_map_modify _ _ _ _ he with h0 | ⟨v, hv, hev⟩
  · exact hall e h0
  · have := hall _ hv
    exact ⟨this.1, by rw [hev]; exact hf v this.2⟩

theorem wf_step (m : UdpMulticastManager) (op : Op) (hm : m.wf) : (step m op).wf := by
  have hmod : ∀ x : Nat, x % UINT32_SIZE < UINT32_SIZE := fun x =>
    Nat.mod_lt x (by decide)
  cases op with
  | create_group a p env =>
    obtain ⟨hkeys, hid, hall⟩ := hm
    rcases create_group_result m a p env with h | ⟨ep, h⟩
    · simp only [step, h]
      exact ⟨hkeys, hmod _, hall⟩
    · simp only [step, h]
      refine ⟨pairwise_keys_insert _ _ _ hkeys, hmod _, ?_⟩
      intro e he
      rcases mem_map_insert _ _ _ _ he with rfl | h0
      · exact ⟨hid, by simp [MulticastGroup.wf, MulticastGroup.init, map_keys, UINT32_SIZE]⟩
      · exact hall e h0
  | delete_group g =>
    simp only [step, delete_group]
    cases hf : map_find m.groups_ g with
    | none => exact hm
    | some grp =>
      obtain ⟨hkeys, hid, hall⟩ := hm
      exact ⟨pairwise_keys_erase _ _ hkeys, hid, fun e he => hall e (mem_map_erase _ _ _ he)⟩
  | send_to_group g msg =>
    simp only [step, send_to_group]
    cases hf : map_find m.groups_ g <;> exact hm
  | send_reliable_to_group g msg now ok =>
    simp only [step, send_reliable_to_group]
    cases hf : map_find m.groups_ g with
    | none => exact hm
    | some grp =>
      have key : ∀ (t : MulticastGroup → Option Nat) (grp : MulticastGroup), grp.wf →
          MulticastGroup.wf ⟨grp.endpoint, (grp.next_seq + 1) % UINT32_SIZE,
            map_insert grp.sent_msgs grp.next_seq msg, t grp⟩ := by
        intro t grp ⟨hp, hn, hk⟩
        refine ⟨pairwise_keys_insert _ _ _ hp, hmod _, ?_⟩
        intro k hk1
        rcases (mem_map_keys_insert _ _ _ _).1 hk1 with rfl | h0
        · exact hn
        · exact hk k h0
      cases ok
      · exact wf_modify m g _ hm (key (fun grp => grp.retransmit_timer))
      · exact wf_modify m g _ hm (key (fun _ => some (now + RETRANSMIT_MS)))
  | handle_retransmit g now =>
    simp only [step, handle_retransmit]
    cases hf : map_find m.groups_ g with
    | none => exact hm
    | some grp =>
      simp only []
      split_ifs
      · exact hm
      · exact wf_modify m g _ hm (fun grp hg => hg)
  | handle_ack g seq =>
    simp only [step, handle_ack]
    cases hf : map_find m.groups_ g with
    | none => exact hm
    | some grp =>
      refine wf_modify m g _ hm ?_
      intro grp ⟨hp, hn, hk⟩
      exact ⟨pairwise_keys_erase _ _ hp, hn,
        fun k hk1 => hk k ((mem_map_keys_erase _ _ _).1 hk1).2⟩
  | stop =>
    obtain ⟨-, hid, -⟩ := hm
    exact ⟨by simp [step, stop, map_keys], hid, by simp [step, stop]⟩

theorem wf_of_reachable {m : UdpMulticastManager} (h : Reachable m) : m.wf := by
  obtain ⟨ops, rfl⟩ := h
  induction ops using List.reverseRecOn with
  | nil =>
    exact ⟨by simp [run, UdpMulticastManager.init, map_keys],
      by simp [run, UdpMulticastManager.init, UINT32_SIZE],
      by simp [run, UdpMulticastManager.init]⟩
  | append_singleton ops op ih =>
    rw [run_snoc]
    exact wf_step _ op ih

theorem group_wf_of_reachable {m : UdpMulticastManager} (h : Reachable m) (g : Nat)
    (grp : MulticastGroup) (hf : map_find m.groups_ g = some grp) : grp.wf :=
  ((wf_of_reachable h).2.2 _ (map_find_mem _ _ _ hf)).2

/-! ## Acknowledgement and retransmission -/

theorem handle_ack_groups (m : UdpMulticastManager) (g s : Nat) (grp : MulticastGroup)
    (h : map_find m.groups_ g = some grp) (g1 : Nat) :
    map_find (handle_ack m g s).groups_ g1
      = if g1 = g then some { grp with sent_msgs := map_erase grp.sent_msgs s }
        else map_find m.groups_ g1 := by
  simp [handle_ack, h, map_find_modify]

theorem handle_ack_not_live (m : UdpMulticastManager) (g s : Nat)
    (h : map_find m.groups_ g = none) : handle_ack m g s = m := by
  simp [handle_ack, h]

theorem handle_ack_absent (m : UdpMulticastManager) (hwf : m.wf) (g s : Nat)
    (grp : MulticastGroup) (h : map_find m.groups_ g = some grp)
    (habs : s ∉ map_keys grp.sent_msgs) : handle_ack m g s = m := by
  have hfix : map_modify m.groups_ g
      (fun x => { x with sent_msgs := map_erase x.sent_msgs s }) = m.groups_ := by
    apply map_modify_eq_self
    intro e he hk
    have he2 : e.2 = grp := entry_unique m.groups_ g grp hwf.1 h e he hk
    rw [he2, map_erase_of_not_found _ _ ((map_find_eq_none_iff _ _).2 habs)]
  simp only [handle_ack, h, hfix]

/-- C8. For a manager state that calls can produce and a live group `g`: after
`handle_ack(g, s)` the key `s` is not in the unacked table of `g`, every other key maps to
what it mapped to before, `next_seq` of `g`, every other group and the id counter are as
before; when `s` was not in the table the whole manager is unchanged. When `g` is not live
the whole manager is unchanged. Ingesting the same acknowledgement twice gives the state
that ingesting it once gives. -/
theorem handle_ack_spec (m : UdpMulticastManager) (hreach : Reachable m) (g s : Nat) :
    (∀ grp, map_find m.groups_ g = some grp →
        (∃ grp1, map_find (handle_ack m g s).groups_ g = some grp1
          ∧ s ∉ map_keys grp1.sent_msgs
          ∧ map_find grp1.sent_msgs s = none
          ∧ (∀ k, k ≠ s → map_find grp1.sent_msgs k = map_find grp.sent_msgs k)
          ∧ grp1.next_seq = grp.next_seq)
        ∧ (∀ g1, g1 ≠ g → map_find (handle_ack m g s).groups_ g1 = map_find m.groups_ g1)
        ∧ (handle_ack m g s).next_group_id_ = m.next_group_id_
        ∧ (s ∉ map_keys grp.sent_msgs → handle_ack m g s = m))
    ∧ (map_find m.groups_ g = none → handle_ack m g s = m)
    ∧ handle_ack (handle_ack m g s) g s = handle_ack m g s := by
  have hwf := wf_of_reachable hreach
  have habsent : ∀ grp : MulticastGroup, s ∉ map_keys (map_erase grp.sent_msgs s) := by
    intro grp hmem
    exact ((mem_map_keys_erase _ _ _).1 hmem).1 rfl
  refine ⟨?_, handle_ack_not_live m g s, ?_⟩
  · intro grp hf
    have hg := handle_ack_groups m g s grp hf g
    rw [if_pos rfl] at hg
    refine ⟨⟨_, hg, habsent grp, ?_, ?_, rfl⟩, ?_, ?_, handle_ack_absent m hwf g s grp hf⟩
    · simp [map_find_erase]
    · intro k hk
      simp [map_find_erase, hk]
    · intro g1 hg1
      rw [handle_ack_groups m g s grp hf g1, if_neg hg1]
    · simp [handle_ack, hf]
  · cases hf : map_find m.groups_ g with
    | none => rw [handle_ack_not_live m g s hf, handle_ack_not_live m g s hf]
    | some grp =>
      have hg := handle_ack_groups m g s grp hf g
      rw [if_pos rfl] at hg
      exact handle_ack_absent _ (wf_step m (Op.handle_ack g s) hwf) g s _ hg (habsent grp)

/-- C8 at a concrete run: two reliable sends, then the acknowledgement of the first. -/
theorem handle_ack_spec_witness :
    Reachable (run UdpMulticastManager.init
      [sample_create, Op.send_reliable_to_group 1 (ascii "A".toList) 0 true,
       Op.send_reliable_to_group 1 (ascii "B".toList) 10 true])
    ∧ handle_ack (handle_ack (run UdpMulticastManager.init
        [sample_create, Op.send_reliable_to_group 1 (ascii "A".toList) 0 true,
         Op.send_reliable_to_group 1 (ascii "B".toList) 10 true]) 1 0) 1 0
      = handle_ack (run UdpMulticastManager.init
        [sample_create, Op.send_reliable_to_group 1 (ascii "A".toList) 0 true,
         Op.send_reliable_to_group 1 (ascii "B".toList) 10 true]) 1 0
    ∧ map_find (handle_ack (run UdpMulticastManager.init
        [sample_create, Op.send_reliable_to_group 1 (ascii "A".toList) 0 true,
         Op.send_reliable_to_group 1 (ascii "B".toList) 10 true]) 1 0).groups_ 1
      = some { endpoint := ⟨⟨[239, 255, 0, 1]⟩, 30001⟩, next_seq := 2,
               sent_msgs := [(1, ascii "B".toList)], retransmit_timer := some 510 } :=
  ⟨⟨_, rfl⟩,
   (handle_ack_spec _ ⟨[sample_create, Op.send_reliable_to_group 1 (ascii "A".toList) 0 true,
      Op.send_reliable_to_group 1 (ascii "B".toList) 10 true], rfl⟩ 1 0).2.2,
   by decide⟩

/-- C9 (counterexample). After one reliable send at time 0 and the acknowledgement of its
sequence number 0, the unacked table of the group is empty and its timer is still armed,
with expiry 500. -/
theorem timer_still_armed_after_last_ack :
    ¬ timer_disarmed_iff_unacked_empty
        (handle_ack (run UdpMulticastManager.init
          [sample_create, Op.send_reliable_to_group 1 (ascii "A".toList) 0 true]) 1 0) 1 := by
  intro h
  have h1 := h { endpoint := ⟨⟨[239, 255, 0, 1]⟩, 30001⟩, next_seq := 1, sent_msgs := [],
                 retransmit_timer := some 500 } (by decide)
  exact absurd (h1.2 rfl) (by decide)

/-- C9 (amended). The call `handle_ack(g, s)` leaves the retransmission timer of every
group as it was: armed with the same expiry, or not armed. When it has emptied the unacked
table of `g`, the next `handle_retransmit(g)` sends nothing, arms nothing and changes
nothing. -/
theorem handle_ack_keeps_timer (m : UdpMulticastManager) (g s : Nat) :
    (∀ g1, (map_find (handle_ack m g s).groups_ g1).map (fun grp => grp.retransmit_timer)
        = (map_find m.groups_ g1).map (fun grp => grp.retransmit_timer))
    ∧ (∀ (grp1 : MulticastGroup) (now : Nat),
        map_find (handle_ack m g s).groups_ g = some grp1 → grp1.sent_msgs = [] →
        handle_retransmit (handle_ack m g s) g now = (handle_ack m g s, [])) := by
  constructor
  · intro g1
    cases hf : map_find m.groups_ g with
    | none => rw [handle_ack_not_live m g s hf]
    | some grp =>
      rw [handle_ack_groups m g s grp hf g1]
      by_cases hg : g1 = g
      · rw [if_pos hg, hg, hf]; rfl
      · rw [if_neg hg]
  · intro grp1 now hf hempty
    simp [handle_retransmit, hf, hempty]

theorem datagrams_map_send_to (ep : Endpoint) (l : StdMap Bytes) :
    datagrams (l.map (fun kv => Effect.send_to ep (htonl_bytes kv.1 ++ kv.2)))
      = l.map (fun kv => (ep, htonl_bytes kv.1 ++ kv.2)) := by
  induction l with
  | nil => rfl
  | cons e rest ih =>
    simp only [datagrams, List.map_cons, List.filterMap_cons] at ih ⊢
    rw [ih]

theorem timer_arms_map_send_to (ep : Endpoint) (l : StdMap Bytes) :
    timer_arms (l.map (fun kv => Effect.send_to ep (htonl_bytes kv.1 ++ kv.2))) = [] := by
  induction l with
  | nil => rfl
  | cons e rest ih =>
    simp only [timer_arms, List.map_cons, List.filterMap_cons] at ih ⊢
    exact ih

/-- C10. For a manager state that calls can produce and a live group `g`:
`handle_retransmit(g)` hands to the socket exactly one datagram per entry of the unacked
table, in the order of the table, which is ascending in the sequence number; each goes to the
endpoint of the group and is the four big-endian bytes of the sequence number of the entry
(they decode to that number) followed by its payload. `next_seq` and the unacked table are
unchanged, and the timer is armed again, 500 ms ahead, exactly when the table was not
empty. -/
theorem handle_retransmit_spec (m : UdpMulticastManager) (hreach : Reachable m) (g : Nat)
    (grp : MulticastGroup) (hlive : map_find m.groups_ g = some grp) (now : Nat) :
    datagrams (handle_retransmit m g now).2
      = grp.sent_msgs.map (fun kv => (grp.endpoint, htonl_bytes kv.1 ++ kv.2))
    ∧ (map_keys grp.sent_msgs).Pairwise (· < ·)
    ∧ (∀ kv ∈ grp.sent_msgs, ntohl_bytes (htonl_bytes kv.1 ++ kv.2) = kv.1)
    ∧ (∃ grp1, map_find (handle_retransmit m g now).1.groups_ g = some grp1
        ∧ grp1.next_seq = grp.next_seq ∧ grp1.sent_msgs = grp.sent_msgs)
    ∧ (handle_retransmit m g now).1.next_group_id_ = m.next_group_id_
    ∧ timer_arms (handle_retransmit m g now).2
        = (if grp.sent_msgs = [] then [] else [(g, now + 500)]) := by
  obtain ⟨hp, -, hk⟩ := group_wf_of_reachable hreach g grp hlive
  have hdec : ∀ kv ∈ grp.sent_msgs, ntohl_bytes (htonl_bytes kv.1 ++ kv.2) = kv.1 := by
    intro kv hkv
    rw [ntohl_htonl]
    exact Nat.mod_eq_of_lt (hk kv.1 (List.mem_map_of_mem Prod.fst hkv))
  by_cases hempty : grp.sent_msgs = []
  · have hr : handle_retransmit m g now = (m, []) := by
      simp [handle_retransmit, hlive, hempty]
    rw [hr, if_pos hempty, hempty]
    exact ⟨rfl, by simp [map_keys], by simp, ⟨grp, hlive, rfl, hempty⟩, rfl, rfl⟩
  · have hne : grp.sent_msgs.isEmpty = false := by
      cases hs : grp.sent_msgs with
      | nil => exact absurd hs hempty
      | cons _ _ => rfl
    have hr : handle_retransmit m g now
        = ({ m with groups_ := (map_modify m.groups_ g
              (fun x => { x with retransmit_timer := some (now + RETRANSMIT_MS) })) },
            grp.sent_msgs.map
                (fun kv => Effect.send_to grp.endpoint (htonl_bytes kv.1 ++ kv.2))
              ++ [Effect.timer_arm g (now + RETRANSMIT_MS)]) := by
      simp [handle_retransmit, hlive, hne]
    rw [hr, if_neg hempty]
    refine ⟨?_, hp, hdec,
      ⟨{ grp with retransmit_timer := some (now + RETRANSMIT_MS) }, ?_, rfl, rfl⟩, rfl, ?_⟩
    · show datagrams (_ ++ _) = _
      unfold datagrams
      rw [List.filterMap_append]
      have := datagrams_map_send_to grp.endpoint grp.sent_msgs
      unfold datagrams at this
      rw [this]
      simp
    · simp only [map_find_modify, if_true, hlive, Option.map_some]
      rfl
    · show timer_arms (_ ++ _) = _
      unfold timer_arms
      rw [List.filterMap_append]
      have := timer_arms_map_send_to grp.endpoint grp.sent_msgs
      unfold timer_arms at this
      rw [this]
      simp [RETRANSMIT_MS]

/-- C10 at a concrete run: two unacknowledged messages are sent again, 0 before 1. -/
theorem handle_retransmit_spec_witness :
    (Reachable (run UdpMulticastManager.init
        [sample_create, Op.send_reliable_to_group 1 (ascii "A".toList) 0 true,
         Op.send_reliable_to_group 1 (ascii "B".toList) 10 true])
      ∧ map_find (run UdpMulticastManager.init
        [sample_create, Op.send_reliable_to_group 1 (ascii "A".toList) 0 true,
         Op.send_reliable_to_group 1 (ascii "B".toList) 10 true]).groups_ 1
        = some { endpoint := ⟨⟨[239, 255, 0, 1]⟩, 30001⟩, next_seq := 2,
                 sent_msgs := [(0, ascii "A".toList), (1, ascii "B".toList)],
                 retransmit_timer := some 510 })
    ∧ datagrams (handle_retransmit (run UdpMulticastManager.init
        [sample_create, Op.send_reliable_to_group 1 (ascii "A".toList) 0 true,
         Op.send_reliable_to_group 1 (ascii "B".toList) 10 true]) 1 510).2
      = [(⟨⟨[239, 255, 0, 1]⟩, 30001⟩, [0, 0, 0, 0, 65]),
         (⟨⟨[239, 255, 0, 1]⟩, 30001⟩, [0, 0, 0, 1, 66])] :=
  ⟨⟨⟨_, rfl⟩, by decide⟩,
   (handle_retransmit_spec _ ⟨[sample_create,
      Op.send_reliable_to_group 1 (ascii "A".toList) 0 true,
      Op.send_reliable_to_group 1 (ascii "B".toList) 10 true], rfl⟩ 1
      { endpoint := ⟨⟨[239, 255, 0, 1]⟩, 30001⟩, next_seq := 2,
        sent_msgs := [(0, ascii "A".toList), (1, ascii "B".toList)],
        retransmit_timer := some 510 } (by decide) 510).1⟩


/-! ## Groups that are not live, deletion, unreliable send -/

theorem delete_group_of_live (m : UdpMulticastManager) (g : Nat) (grp : MulticastGroup)
    (h : map_find m.groups_ g = some grp) :
    delete_group m g
      = ({ m with groups_ := map_erase m.groups_ g }, true,
          [Effect.timer_cancel g, Effect.socket_close g]) := by
  simp [delete_group, h]

theorem delete_group_of_not_live (m : UdpMulticastManager) (g : Nat)
    (h : map_find m.groups_ g = none) : delete_group m g = (m, false, []) := by
  simp [delete_group, h]

theorem delete_group_absent_after (m : UdpMulticastManager) (g : Nat) :
    (delete_group m g).2.1 = true → map_find (delete_group m g).1.groups_ g = none := by
  intro h
  cases hf : map_find m.groups_ g with
  | none => rw [delete_group_of_not_live m g hf] at h; cases h
  | some grp =>
    rw [delete_group_of_live m g grp hf]
    simp [map_find_erase]

/-- C12. The call `delete_group(g)` returns true exactly when `g` is in the group table.
After a true result `g` is absent, every other group and the id counter are unchanged, and
the timer of the group was cancelled and its socket closed; after a false result the
manager is unchanged and nothing was done. A second `delete_group(g)` right after a
successful one returns false. -/
theorem delete_group_spec (m : UdpMulticastManager) (g : Nat) :
    ((delete_group m g).2.1 = true ↔ ∃ grp, map_find m.groups_ g = some grp)
    ∧ ((delete_group m g).2.1 = true →
        map_find (delete_group m g).1.groups_ g = none
        ∧ (∀ g1, g1 ≠ g → map_find (delete_group m g).1.groups_ g1 = map_find m.groups_ g1)
        ∧ (delete_group m g).1.next_group_id_ = m.next_group_id_
        ∧ (delete_group m g).2.2 = [Effect.timer_cancel g, Effect.socket_close g])
    ∧ ((delete_group m g).2.1 = false → delete_group m g = (m, false, []))
    ∧ ((delete_group m g).2.1 = true → (delete_group (delete_group m g).1 g).2.1 = false) := by
  cases hf : map_find m.groups_ g with
  | none =>
    rw [delete_group_of_not_live m g hf]
    simp
  | some grp =>
    have hdel : (delete_group m g).2.1 = true := by rw [delete_group_of_live m g grp hf]
    have habs := delete_group_absent_after m g hdel
    refine ⟨⟨fun _ => ⟨grp, rfl⟩, fun _ => hdel⟩, fun _ => ⟨habs, ?_, ?_, ?_⟩, ?_, fun _ => ?_⟩
    · intro g1 hg1
      rw [delete_group_of_live m g grp hf]
      simp [map_find_erase, hg1]
    · rw [delete_group_of_live m g grp hf]
    · rw [delete_group_of_live m g grp hf]
    · intro hfalse
      rw [hdel] at hfalse; cases hfalse
    · rw [delete_group_of_not_live _ g habs]

/-- C18. On a live group, `send_to_group` hands exactly one datagram to the socket, addressed
to the endpoint of the group, whose bytes are the payload itself, and returns the manager
unchanged, so every counter and every unacked table is as before. Whether `socket.send_to`
throws or not, the caller gets the same normal return. -/
theorem send_to_group_spec (m : UdpMulticastManager) (g : Nat) (grp : MulticastGroup)
    (p : Bytes) (h : map_find m.groups_ g = some grp) :
    send_to_group m g p = (m, [Effect.send_to grp.endpoint p])
    ∧ datagrams (send_to_group m g p).2 = [(grp.endpoint, p)]
    ∧ timer_arms (send_to_group m g p).2 = []
    ∧ (∀ send_ok : Bool, send_to_group_caller m g p send_ok = Except.ok (send_to_group m g p)) := by
  have h1 : send_to_group m g p = (m, [Effect.send_to grp.endpoint p]) := by
    simp [send_to_group, h]
  refine ⟨h1, by rw [h1]; rfl, by rw [h1]; rfl, ?_⟩
  intro send_ok
  rw [h1]
  cases send_ok <;> simp [send_to_group_caller, h]

/-- C18 at a concrete state: "hello" on the group of the first scenario. -/
theorem send_to_group_spec_witness :
    map_find (step UdpMulticastManager.init sample_create).groups_ 1
      = some (MulticastGroup.init ⟨⟨[239, 255, 0, 1]⟩, 30001⟩)
    ∧ send_to_group (step UdpMulticastManager.init sample_create) 1 (ascii "hello".toList)
      = (step UdpMulticastManager.init sample_create,
          [Effect.send_to ⟨⟨[239, 255, 0, 1]⟩, 30001⟩ (ascii "hello".toList)]) :=
  ⟨by decide,
   (send_to_group_spec _ 1 (MulticastGroup.init ⟨⟨[239, 255, 0, 1]⟩, 30001⟩)
      (ascii "hello".toList) (by decide)).1⟩

/-! ## Joining a group, allocated coordinates -/

/-- C20. The call `join_group(addr, port, g)` returns 0 exactly when `g` is not joined yet
and the system calls `socket`, `setsockopt(SO_REUSEADDR)`, the two `fcntl` calls, `bind` and
`setsockopt(IP_ADD_MEMBERSHIP)` all succeed; the table of joined groups is then the old one
with the one entry `g` added, which holds `addr`, `port`, the new descriptor and
`last_seq = 0`. Otherwise the code is that of the first check that fails, in this order:
-1 already joined, -2 socket, -3 reuse, -4 non-blocking, -5 bind, -6 membership; the six
codes are pairwise different, and the client is returned unchanged. -/
theorem join_group_spec (c : kcp_multicast_client) (addr : List Char) (port g : Nat)
    (env : JoinEnv) :
    ((join_group c addr port g env).2 = 0 ↔
        map_find c.groups_ g = none ∧ 0 ≤ env.socket_result ∧ 0 ≤ env.setsockopt_reuse
          ∧ 0 ≤ env.fcntl_getfl ∧ 0 ≤ env.fcntl_setfl ∧ 0 ≤ env.bind_result
          ∧ 0 ≤ env.setsockopt_add_membership)
    ∧ ((join_group c addr port g env).2 = 0 →
        (join_group c addr port g env).1
          = { c with groups_ := (map_insert c.groups_ g
                { multicast_addr := addr, port := port, socket_fd := env.socket_result,
                  last_seq := 0 }) }
        ∧ map_find (join_group c addr port g env).1.groups_ g
          = some { multicast_addr := addr, port := port, socket_fd := env.socket_result,
                   last_seq := 0 }
        ∧ ∀ g1, g1 ≠ g →
            map_find (join_group c addr port g env).1.groups_ g1 = map_find c.groups_ g1)
    ∧ ((join_group c addr port g env).2 ≠ 0 → (join_group c addr port g env).1 = c)
    ∧ ((∃ info, map_find c.groups_ g = some info) → (join_group c addr port g env).2 = -1)
    ∧ (map_find c.groups_ g = none → env.socket_result < 0 →
        (join_group c addr port g env).2 = -2)
    ∧ (map_find c.groups_ g = none → 0 ≤ env.socket_result → env.setsockopt_reuse < 0 →
        (join_group c addr port g env).2 = -3)
    ∧ (map_find c.groups_ g = none → 0 ≤ env.socket_result → 0 ≤ env.setsockopt_reuse →
        (env.fcntl_getfl < 0 ∨ env.fcntl_setfl < 0) → (join_group c addr port g env).2 = -4)
    ∧ (map_find c.groups_ g = none → 0 ≤ env.socket_result → 0 ≤ env.setsockopt_reuse →
        0 ≤ env.fcntl_getfl → 0 ≤ env.fcntl_setfl → env.bind_result < 0 →
        (join_group c addr port g env).2 = -5)
    ∧ (map_find c.groups_ g = none → 0 ≤ env.socket_result → 0 ≤ env.setsockopt_reuse →
        0 ≤ env.fcntl_getfl → 0 ≤ env.fcntl_setfl → 0 ≤ env.bind_result →
        env.setsockopt_add_membership < 0 → (join_group c addr port g env).2 = -6)
    ∧ [(-1 : Int), -2, -3, -4, -5, -6].Nodup := by
  refine ⟨?_, ?_, ?_, ?_, ?_, ?_, ?_, ?_, ?_, by decide⟩
  · unfold join_group
    cases hf : map_find c.groups_ g with
    | some info => simp
    | none =>
      simp only [Option.isSome_none, Bool.false_eq_true, if_false, true_and]
      split_ifs <;> simp <;> omega
  · intro h0
    unfold join_group at h0 ⊢
    cases hf : map_find c.groups_ g with
    | some info => simp [hf] at h0
    | none =>
      simp only [hf, Option.isSome_none, Bool.false_eq_true, if_false] at h0 ⊢
      split_ifs at h0 ⊢ <;> simp at h0
      refine ⟨rfl, by simp [map_find_insert], ?_⟩
      intro g1 hg1
      simp [map_find_insert, hg1]
  · intro hne
    simp only [join_group] at hne ⊢
    split_ifs at hne ⊢ <;> first | rfl | exact absurd rfl hne
  · rintro ⟨info, hf⟩
    simp [join_group, hf]
  · intro hf h1
    simp [join_group, hf, h1]
  · intro hf h1 h2
    simp [join_group, hf, Int.not_lt.2 h1, h2]
  · intro hf h1 h2 h3
    simp [join_group, hf, Int.not_lt.2 h1, Int.not_lt.2 h2, h3]
  · intro hf h1 h2 h3 h4 h5
    simp [join_group, hf, Int.not_lt.2 h1, Int.not_lt.2 h2, Int.not_lt.2 h3, Int.not_lt.2 h4, h5]
  · intro hf h1 h2 h3 h4 h5 h6
    simp [join_group, hf, Int.not_lt.2 h1, Int.not_lt.2 h2, Int.not_lt.2 h3, Int.not_lt.2 h4,
      Int.not_lt.2 h5, h6]

/-- C16 (the code at the failing input). Two calls of `create_group` without coordinates, for
which the random generator draws the same three values, leave two live groups, 1 and 2, with
the same address and port: nothing compares the generated pair with the live groups. -/
theorem allocator_gives_live_pair_again :
    map_find (run UdpMulticastManager.init
        [sample_allocating_create, sample_allocating_create]).groups_ 1
      = some (MulticastGroup.init ⟨⟨[239, 255, 0, 1]⟩, 30001⟩)
    ∧ map_find (run UdpMulticastManager.init
        [sample_allocating_create, sample_allocating_create]).groups_ 2
      = some (MulticastGroup.init ⟨⟨[239, 255, 0, 1]⟩, 30001⟩)
    ∧ ¬ endpoints_distinct (run UdpMulticastManager.init
        [sample_allocating_create, sample_allocating_create]) := by
  refine ⟨by decide, by decide, ?_⟩
  intro h
  exact h 1 2 (MulticastGroup.init ⟨⟨[239, 255, 0, 1]⟩, 30001⟩)
    (MulticastGroup.init ⟨⟨[239, 255, 0, 1]⟩, 30001⟩) (by decide) (by decide) (by decide) rfl

/-! ## Group ids -/

theorem create_group_eq (m : UdpMulticastManager) (a : List Char) (p : Nat) (env : CreateEnv) :
    create_group m a p env
      = match init_group_socket (chosen_coordinates a p env).1 (chosen_coordinates a p env).2
          env with
        | none => ({ m with next_group_id_ := (m.next_group_id_ + 1) % UINT32_SIZE }, 0)
        | some ep =>
          ({ groups_ := map_insert m.groups_ m.next_group_id_ (MulticastGroup.init ep),
             next_group_id_ := (m.next_group_id_ + 1) % UINT32_SIZE }, m.next_group_id_) := rfl

theorem sample_failed_create_step (m : UdpMulticastManager) :
    create_group m "no address".toList 30001 sample_env
      = ({ m with next_group_id_ := (m.next_group_id_ + 1) % UINT32_SIZE }, 0) := by
  have h : init_group_socket (chosen_coordinates "no address".toList 30001 sample_env).1
      (chosen_coordinates "no address".toList 30001 sample_env).2 sample_env = none := by
    decide
  rw [create_group_eq, h]

theorem run_replicate_failed (n : Nat) :
    ∀ m : UdpMulticastManager, m.next_group_id_ < UINT32_SIZE →
      run m (List.replicate n sample_failed_create)
        = { m with next_group_id_ := (m.next_group_id_ + n) % UINT32_SIZE }
      ∧ returned_ids m (List.replicate n sample_failed_create) = [] := by
  induction n with
  | zero =>
    intro m hm
    exact ⟨by simp [run, Nat.mod_eq_of_lt hm], rfl⟩
  | succ n ih =>
    intro m hm
    have hstep : step m sample_failed_create
        = { m with next_group_id_ := (m.next_group_id_ + 1) % UINT32_SIZE } := by
      show (create_group m "no address".toList 30001 sample_env).1 = _
      rw [sample_failed_create_step]
    have hret : returned_id m sample_failed_create = [] := by
      show (if (create_group m "no address".toList 30001 sample_env).2 = 0 then []
        else [(create_group m "no address".toList 30001 sample_env).2]) = []
      rw [sample_failed_create_step]; rfl
    obtain ⟨h1, h2⟩ := ih (step m sample_failed_create)
      (by rw [hstep]; exact Nat.mod_lt _ (by decide))
    rw [List.replicate_succ, run_cons]
    refine ⟨?_, ?_⟩
    · rw [h1, hstep]
      simp only [UINT32_SIZE, UdpMulticastManager.mk.injEq, true_and]
      omega
    · show returned_id m sample_failed_create ++ returned_ids (step m sample_failed_create) _ = []
      rw [hret, h2]; rfl

theorem returned_ids_append (ops1 : List Op) :
    ∀ (m : UdpMulticastManager) (ops2 : List Op),
      returned_ids m (ops1 ++ ops2) = returned_ids m ops1 ++ returned_ids (run m ops1) ops2 := by
  induction ops1 with
  | nil => intro m ops2; rfl
  | cons op ops1 ih =>
    intro m ops2
    show returned_id m op ++ returned_ids (step m op) (ops1 ++ ops2) = _
    rw [ih, run_cons]
    show _ = (returned_id m op ++ returned_ids (step m op) ops1) ++ _
    rw [List.append_assoc]

theorem creates_cons (op : Op) (ops : List Op) :
    creates (op :: ops) = (if op.is_create then 1 else 0) + creates ops := by
  simp [creates, List.countP_cons, Nat.add_comm]

theorem returned_ids_of_no_creates (ops : List Op) :
    ∀ m : UdpMulticastManager, creates ops = 0 → returned_ids m ops = [] := by
  induction ops with
  | nil => intro m _; rfl
  | cons op ops ih =>
    intro m h
    rw [creates_cons] at h
    have hop : op.is_create = false := by
      cases hc : op.is_create with
      | false => rfl
      | true => rw [hc] at h; simp at h
    show returned_id m op ++ returned_ids (step m op) ops = []
    rw [ih (step m op) (by rw [hop] at h; simpa using h)]
    cases op <;> first | rfl | (simp [Op.is_create] at hop)

theorem returned_id_cases (m : UdpMulticastManager) (op : Op) :
    returned_id m op = [] ∨ (op.is_create = true ∧ returned_id m op = [m.next_group_id_]) := by
  cases op with
  | create_group a p env =>
    rcases create_group_result m a p env with h | ⟨ep, h⟩
    · left; simp [returned_id, h]
    · by_cases h0 : m.next_group_id_ = 0
      · left; simp [returned_id, h, h0]
      · right; exact ⟨rfl, by simp [returned_id, h, h0]⟩
  | _ => left; rfl

/-- From a state with id counter `n`, a sequence holding `c` calls of `create_group` with
`n + c ≤ 2 ^ 32` returns ids that lie in `n .. n + c - 1` and ascend strictly. -/
theorem returned_ids_ascend (ops : List Op) :
    ∀ m : UdpMulticastManager, m.next_group_id_ + creates ops ≤ UINT32_SIZE →
      (∀ id ∈ returned_ids m ops, m.next_group_id_ ≤ id)
      ∧ (returned_ids m ops).Pairwise (· < ·) := by
  induction ops with
  | nil =>
    intro m _
    exact ⟨fun id h => (by cases h), List.Pairwise.nil⟩
  | cons op ops ih =>
    intro m hle
    rw [creates_cons] at hle
    have hcons : returned_ids m (op :: ops)
        = returned_id m op ++ returned_ids (step m op) ops := rfl
    rw [hcons]
    by_cases hz : creates ops = 0
    · rw [returned_ids_of_no_creates ops _ hz, List.append_nil]
      rcases returned_id_cases m op with h | ⟨-, h⟩
      · rw [h]; exact ⟨fun id h => (by cases h), List.Pairwise.nil⟩
      · rw [h]
        exact ⟨fun id hid => (by simp at hid; omega), List.pairwise_singleton _ _⟩
    · have hnext := step_next_group_id m op
      by_cases hc : op.is_create = true
      · rw [if_pos hc] at hnext hle
        have hn1 : (step m op).next_group_id_ = m.next_group_id_ + 1 := by
          rw [hnext]; simp only [UINT32_SIZE] at hle ⊢; omega
        obtain ⟨hge, hpw⟩ := ih (step m op) (by rw [hn1]; omega)
        rw [hn1] at hge
        rcases returned_id_cases m op with h | ⟨-, h⟩
        · rw [h, List.nil_append]
          exact ⟨fun id hid => (by have := hge id hid; omega), hpw⟩
        · rw [h]
          refine ⟨?_, ?_⟩
          · intro id hid
            rcases List.mem_append.1 hid with h1 | h1
            · simp at h1; omega
            · have := hge id h1; omega
          · rw [List.pairwise_append]
            refine ⟨List.pairwise_singleton _ _, hpw, ?_⟩
            intro a ha b hb
            simp at ha
            have := hge b hb
            omega
      · rw [if_neg hc] at hnext hle
        obtain ⟨hge, hpw⟩ := ih (step m op) (by rw [hnext]; omega)
        rw [hnext] at hge
        rcases returned_id_cases m op with h | ⟨h0, -⟩
        · rw [h, List.nil_append]
          exact ⟨hge, hpw⟩
        · exact absurd h0 hc

/-- C13 (counterexample). The first call of `create_group` returns 1; after `2 ^ 32 - 1`
failed calls, each of which consumes an id, the counter is back at 1 and the next successful
call returns 1 again. -/
theorem group_id_returned_again_after_wrap :
    returned_ids UdpMulticastManager.init
        (sample_create :: (List.replicate 4294967295 sample_failed_create ++ [sample_create]))
      = [1, 1]
    ∧ ¬ (returned_ids UdpMulticastManager.init
          (sample_create :: (List.replicate 4294967295 sample_failed_create
            ++ [sample_create]))).Pairwise (· < ·) := by
  have hm1 : (step UdpMulticastManager.init sample_create).next_group_id_ < UINT32_SIZE := by
    decide
  obtain ⟨hrun, hret⟩ := run_replicate_failed 4294967295 _ hm1
  have h : returned_ids UdpMulticastManager.init
      (sample_create :: (List.replicate 4294967295 sample_failed_create ++ [sample_create]))
      = [1, 1] := by
    show returned_id UdpMulticastManager.init sample_create
      ++ returned_ids (step UdpMulticastManager.init sample_create) _ = _
    rw [returned_ids_append, hret, hrun]
    decide
  rw [h]
  exact ⟨rfl, by decide⟩

/-- C13 (amended). Over any sequence of calls on a freshly constructed manager that holds
fewer than `2 ^ 32` calls of `create_group`, the ids that `create_group` returns (failed
calls, `delete_group` and `stop` in between included) are strictly increasing in call
order; hence they are pairwise different and no id is returned twice. -/
theorem returned_ids_increase_before_wrap (ops : List Op) (hfew : creates ops < 4294967296) :
    (returned_ids UdpMulticastManager.init ops).Pairwise (· < ·)
    ∧ (returned_ids UdpMulticastManager.init ops).Nodup := by
  have h := (returned_ids_ascend ops UdpMulticastManager.init (by
    show 1 + creates ops ≤ 4294967296
    omega)).2
  exact ⟨h, h.imp (fun hab => Nat.ne_of_lt hab)⟩

/-- C13 (amended) at a concrete run: a failed call and a deletion lie between the calls
that return 1, 3 and 4. -/
theorem returned_ids_increase_before_wrap_witness :
    creates [sample_create, sample_failed_create, sample_create, Op.delete_group 1,
        Op.stop, sample_create] < 4294967296
    ∧ returned_ids UdpMulticastManager.init
        [sample_create, sample_failed_create, sample_create, Op.delete_group 1,
          Op.stop, sample_create] = [1, 3, 4]
    ∧ (returned_ids UdpMulticastManager.init
        [sample_create, sample_failed_create, sample_create, Op.delete_group 1,
          Op.stop, sample_create]).Pairwise (· < ·) :=
  ⟨by decide, by decide,
   (returned_ids_increase_before_wrap
      [sample_create, sample_failed_create, sample_create, Op.delete_group 1,
        Op.stop, sample_create] (by decide)).1⟩

/-- Along a run with fewer than `2 ^ 32` calls of `create_group`, no live group has id 0. -/
theorem run_zero_not_live (ops : List Op) :
    creates ops < UINT32_SIZE → zero_not_live (run UdpMulticastManager.init ops) := by
  induction ops using List.reverseRecOn with
  | nil => intro _; rfl
  | append_singleton ops op ih =>
    intro hfew
    rw [creates_snoc] at hfew
    have hprev : zero_not_live (run UdpMulticastManager.init ops) := ih (by omega)
    unfold zero_not_live at hprev ⊢
    rw [run_snoc]
    cases hf : map_find (step (run UdpMulticastManager.init ops) op).groups_ 0 with
    | none => rfl
    | some grp1 =>
      exfalso
      rcases step_group_cases _ op 0 grp1 hf with ⟨-, -, hc, hg⟩ | ⟨grp, hf0, -, -⟩
          | ⟨grp, hf0, -, -, -⟩
      · rw [if_pos hc] at hfew
        obtain ⟨hid, -⟩ := run_ids ops (by omega)
        omega
      · rw [hprev] at hf0; cases hf0
      · rw [hprev] at hf0; cases hf0

/-- C15 (counterexample). After `2 ^ 32 - 1` failed calls of `create_group` the id counter
is 0; the next call succeeds, stores its group under id 0 and returns 0, the value that
signals failure. -/
theorem group_zero_live_after_wrap :
    ¬ zero_not_live (run UdpMulticastManager.init
        (List.replicate 4294967295 sample_failed_create ++ [sample_create]))
    ∧ (create_group (run UdpMulticastManager.init
        (List.replicate 4294967295 sample_failed_create)) "239.255.0.1".toList 30001
        sample_env).2 = 0 := by
  obtain ⟨hrun, -⟩ := run_replicate_failed 4294967295 UdpMulticastManager.init (by decide)
  constructor
  · rw [run_snoc, hrun]
    unfold zero_not_live
    decide
  · rw [hrun]
    decide

/-- C15 (amended). In every state, when socket initialisation fails (the address text does
not parse, or a socket call throws), `create_group` returns 0 and the group table is exactly
what it was. As long as the call is not the `2 ^ 32`-th call of `create_group` or a later
one, 0 is not the id of a live group before or after the call, and a call whose socket
initialisation succeeds returns a non-zero id under which the new group is stored. -/
theorem create_group_failure_is_atomic (ops : List Op) (a : List Char) (p : Nat)
    (env : CreateEnv) (hfew : creates ops + 1 < 4294967296) :
    (∀ m : UdpMulticastManager,
        init_group_socket (chosen_coordinates a p env).1 (chosen_coordinates a p env).2 env
          = none →
        (create_group m a p env).2 = 0 ∧ (create_group m a p env).1.groups_ = m.groups_)
    ∧ (from_string (chosen_coordinates a p env).1 = none →
        init_group_socket (chosen_coordinates a p env).1 (chosen_coordinates a p env).2 env
          = none)
    ∧ (env.socket_ok = false →
        init_group_socket (chosen_coordinates a p env).1 (chosen_coordinates a p env).2 env
          = none)
    ∧ zero_not_live (run UdpMulticastManager.init ops)
    ∧ zero_not_live (create_group (run UdpMulticastManager.init ops) a p env).1
    ∧ (∀ ep,
        init_group_socket (chosen_coordinates a p env).1 (chosen_coordinates a p env).2 env
          = some ep →
        (create_group (run UdpMulticastManager.init ops) a p env).2 ≠ 0
        ∧ map_find (create_group (run UdpMulticastManager.init ops) a p env).1.groups_
            (create_group (run UdpMulticastManager.init ops) a p env).2
          = some (MulticastGroup.init ep)) := by
  refine ⟨?_, ?_, ?_, ?_, ?_, ?_⟩
  · intro m hfail
    rw [create_group_eq, hfail]
    exact ⟨rfl, rfl⟩
  · intro hparse
    simp [init_group_socket, hparse]
  · intro hsock
    unfold init_group_socket
    cases from_string (chosen_coordinates a p env).1 <;> simp [hsock]
  · exact run_zero_not_live ops (by simp only [UINT32_SIZE]; omega)
  · have h := run_zero_not_live (ops ++ [Op.create_group a p env]) (by
      rw [creates_snoc]; simp only [UINT32_SIZE, Op.is_create, if_true]; omega)
    rw [run_snoc] at h
    exact h
  · intro ep hok
    obtain ⟨hid, -⟩ := run_ids ops (by simp only [UINT32_SIZE]; omega)
    rw [create_group_eq, hok]
    exact ⟨by show (run UdpMulticastManager.init ops).next_group_id_ ≠ 0; omega,
      by simp [map_find_insert]⟩

/-- C15 (amended) at a concrete run: the second call fails, returns 0 and leaves the table
with the one group of the first call. -/
theorem create_group_failure_is_atomic_witness :
    creates [sample_create] + 1 < 4294967296
    ∧ (create_group (run UdpMulticastManager.init [sample_create]) "no address".toList 30001
        sample_env).2 = 0
    ∧ (create_group (run UdpMulticastManager.init [sample_create]) "no address".toList 30001
        sample_env).1.groups_ = (run UdpMulticastManager.init [sample_create]).groups_ :=
  ⟨by decide,
   (create_group_failure_is_atomic [sample_create] "no address".toList 30001 sample_env
      (by decide)).1 _ (by decide)⟩

/-! ## Decimal text -/

theorem toDigitsCore_append (fuel : Nat) :
    ∀ (n : Nat) (ds : List Char),
      Nat.toDigitsCore 10 fuel n ds = Nat.toDigitsCore 10 fuel n [] ++ ds := by
  induction fuel with
  | zero => intro n ds; rfl
  | succ f ih =>
    intro n ds
    simp only [Nat.toDigitsCore]
    split_ifs with h
    · rfl
    · rw [ih (n / 10) (Nat.digitChar (n % 10) :: ds), ih (n / 10) [Nat.digitChar (n % 10)]]
      simp

theorem toDigitsCore_indep (n : Nat) :
    ∀ f1 f2 : Nat, n < f1 → n < f2 →
      Nat.toDigitsCore 10 f1 n [] = Nat.toDigitsCore 10 f2 n [] := by
  induction n using Nat.strong_induction_on with
  | _ n ih =>
    intro f1 f2 h1 h2
    cases f1 with
    | zero => omega
    | succ f1 =>
      cases f2 with
      | zero => omega
      | succ f2 =>
        simp only [Nat.toDigitsCore]
        split_ifs with h
        · rfl
        · rw [toDigitsCore_append f1, toDigitsCore_append f2,
            ih (n / 10) (by omega) f1 f2 (by omega) (by omega)]

theorem toDigitsCore_succ (f n : Nat) (ds : List Char) :
    Nat.toDigitsCore 10 (f + 1) n ds
      = if n / 10 = 0 then Nat.digitChar (n % 10) :: ds
        else Nat.toDigitsCore 10 f (n / 10) (Nat.digitChar (n % 10) :: ds) := rfl

theorem to_string_rec (n : Nat) :
    to_string n
      = if n < 10 then [Nat.digitChar n]
        else to_string (n / 10) ++ [Nat.digitChar (n % 10)] := by
  show Nat.toDigitsCore 10 (n + 1) n []
    = if n < 10 then [Nat.digitChar n]
      else Nat.toDigitsCore 10 (n / 10 + 1) (n / 10) [] ++ [Nat.digitChar (n % 10)]
  rw [toDigitsCore_succ n n []]
  by_cases h : n < 10
  · have h0 : n / 10 = 0 := by omega
    have h1 : n % 10 = n := by omega
    rw [if_pos h0, if_pos h, h1]
  · have h0 : ¬ n / 10 = 0 := by omega
    rw [if_neg h0, if_neg h, toDigitsCore_append n,
      toDigitsCore_indep (n / 10) n (n / 10 + 1) (by omega) (by omega)]

theorem digitChar_isDigit (d : Nat) (h : d < 10) : (Nat.digitChar d).isDigit = true := by
  interval_cases d <;> rfl

theorem digitChar_value (d : Nat) (h : d < 10) : (Nat.digitChar d).toNat - 48 = d := by
  interval_cases d <;> rfl

theorem digitChar_ne_zero (d : Nat) (h : d < 10) (h0 : d ≠ 0) : Nat.digitChar d ≠ '0' := by
  interval_cases d <;> first | exact absurd rfl h0 | decide

theorem to_string_digits (n : Nat) : ∀ c ∈ to_string n, c.isDigit = true := by
  induction n using Nat.strong_induction_on with
  | _ n ih =>
    rw [to_string_rec]
    split_ifs with h
    · intro c hc
      rw [List.mem_singleton] at hc
      rw [hc]; exact digitChar_isDigit n h
    · intro c hc
      rcases List.mem_append.1 hc with h1 | h1
      · exact ih (n / 10) (by omega) c h1
      · rw [List.mem_singleton] at h1
        rw [h1]; exact digitChar_isDigit _ (by omega)

theorem to_string_ne_nil (n : Nat) : to_string n ≠ [] := by
  rw [to_string_rec]
  split_ifs <;> simp

theorem decimal_value_snoc (cs : List Char) (c : Char) :
    decimal_value (cs ++ [c]) = decimal_value cs * 10 + (c.toNat - 48) := by
  simp [decimal_value, List.foldl_append]

theorem decimal_value_to_string (n : Nat) : decimal_value (to_string n) = n := by
  induction n using Nat.strong_induction_on with
  | _ n ih =>
    rw [to_string_rec]
    split_ifs with h
    · simp [decimal_value, digitChar_value n h]
    · rw [decimal_value_snoc, ih (n / 10) (by omega), digitChar_value _ (by omega)]
      omega

theorem to_string_head (n : Nat) (h0 : n ≠ 0) : (to_string n).head? ≠ some '0' := by
  induction n using Nat.strong_induction_on with
  | _ n ih =>
    rw [to_string_rec]
    split_ifs with h
    · simp only [List.head?_cons, ne_eq, Option.some.injEq]
      exact digitChar_ne_zero n h h0
    · have hne := to_string_ne_nil (n / 10)
      have := ih (n / 10) (by omega) (by omega)
      cases hs : to_string (n / 10) with
      | nil => exact absurd hs hne
      | cons c cs => rw [hs] at this; simpa using this

theorem to_string_length_le (n : Nat) (h : n < 1000) : (to_string n).length ≤ 3 := by
  rw [to_string_rec]
  split_ifs with h1
  · simp
  · rw [List.length_append, to_string_rec (n / 10)]
    split_ifs with h2
    · simp
    · rw [List.length_append, to_string_rec (n / 10 / 10)]
      have h3 : n / 10 / 10 < 10 := by omega
      simp [h3]

theorem to_string_length_one (n : Nat) (h : 1 < (to_string n).length) : n ≠ 0 := by
  intro h0
  rw [h0] at h
  exact absurd h (by decide)

theorem parse_octet_to_string (x : Nat) (hx : x ≤ 255) : parse_octet (to_string x) = some x := by
  have hlen := to_string_length_le x (by omega)
  have hne := to_string_ne_nil x
  have hpos : 0 < (to_string x).length := List.length_pos.2 hne
  have hall : (to_string x).all Char.isDigit = true := by
    rw [List.all_eq_true]; exact to_string_digits x
  have hval : List.foldl (fun acc c => acc * 10 + (c.toNat - 48)) 0 (to_string x) = x :=
    decimal_value_to_string x
  unfold parse_octet
  have c1 : ¬ ((to_string x).length = 0 ∨ 3 < (to_string x).length) := by omega
  have c3 : ¬ (1 < (to_string x).length ∧ (to_string x).head? = some '0') := by
    rintro ⟨h1, h2⟩
    exact to_string_head x (to_string_length_one x h1) h2
  simp only [c1, if_false, hall, Bool.not_true, Bool.false_eq_true, c3, hval, hx, if_true]

theorem digit_bounds (c : Char) (h : c.isDigit = true) : 48 ≤ c.toNat ∧ c.toNat ≤ 57 := by
  simp only [Char.isDigit, Bool.and_eq_true, decide_eq_true_eq] at h
  exact ⟨h.1, h.2⟩

theorem digitChar_of_isDigit (c : Char) (h : c.isDigit = true) :
    Nat.digitChar (c.toNat - 48) = c := by
  obtain ⟨h1, h2⟩ := digit_bounds c h
  have hc : c = Char.ofNat c.toNat := (Char.ofNat_toNat c).symm
  generalize c.toNat = k at h1 h2 hc
  rw [hc]
  interval_cases k <;> rfl

/-- A run of digits without a leading zero is the decimal text of its value. -/
theorem to_string_decimal_value (cs : List Char) :
    cs ≠ [] → (∀ c ∈ cs, c.isDigit = true) → (1 < cs.length → cs.head? ≠ some '0') →
      to_string (decimal_value cs) = cs := by
  induction cs using List.reverseRecOn with
  | nil => intro h; exact absurd rfl h
  | append_singleton front c ih =>
    intro _ hd hlead
    have hc : c.isDigit = true := hd c (by simp)
    obtain ⟨hc1, hc2⟩ := digit_bounds c hc
    rw [decimal_value_snoc]
    by_cases hfront : front = []
    · subst hfront
      have hv : decimal_value [] = 0 := rfl
      rw [hv, to_string_rec, if_pos (by omega)]
      simp only [Nat.zero_mul, Nat.zero_add, List.nil_append]
      rw [digitChar_of_isDigit c hc]
    · have hlen : 1 < (front ++ [c]).length := by
        have := List.length_pos.2 hfront
        simp; omega
      have hhead : front.head? ≠ some '0' := by
        have := hlead hlen
        cases hf : front with
        | nil => exact absurd hf hfront
        | cons x xs => rw [hf] at this; simpa using this
      have hih := ih hfront (fun x hx => hd x (by simp [hx])) (fun _ => hhead)
      have hne0 : decimal_value front ≠ 0 := by
        intro h0
        rw [h0] at hih
        rw [← hih] at hhead
        exact hhead (by decide)
      rw [to_string_rec, if_neg (by omega)]
      have h1 : (decimal_value front * 10 + (c.toNat - 48)) / 10 = decimal_value front := by
        omega
      have h2 : (decimal_value front * 10 + (c.toNat - 48)) % 10 = c.toNat - 48 := by omega
      rw [h1, h2, hih, digitChar_of_isDigit c hc]

theorem parse_octet_some (cs : List Char) (v : Nat) (h : parse_octet cs = some v) :
    to_string v = cs ∧ v ≤ 255 := by
  unfold parse_octet at h
  split_ifs at h with c1 c2 c3
  have hne : cs ≠ [] := by
    intro h0; rw [h0] at c1; simp at c1
  have hd : ∀ c ∈ cs, c.isDigit = true := by
    simpa [List.all_eq_true] using c2
  have hlead : 1 < cs.length → cs.head? ≠ some '0' := fun h1 h2 => c3 ⟨h1, h2⟩
  have hts := to_string_decimal_value cs hne hd hlead
  change (if decimal_value cs ≤ 255 then some (decimal_value cs) else none) = some v at h
  split_ifs at h with c4
  cases h
  exact ⟨hts, c4⟩

theorem address_to_string_four (a b c d : Nat) :
    Address.to_string ⟨[a, b, c, d]⟩
      = to_string a ++ '.' :: (to_string b ++ '.' :: (to_string c ++ '.' :: to_string d)) := by
  simp [Address.to_string, List.intercalate]

/-- Text that `from_string` accepts is the text that `to_string` gives back. -/
theorem to_string_of_from_string (a : List Char) (addr : Address)
    (h : from_string a = some addr) : addr.to_string = a := by
  unfold from_string at h
  split at h
  · rename_i p1 p2 p3 p4 hsp
    split at h
    · rename_i v1 v2 v3 v4 h1 h2 h3 h4
      cases h
      have e := List.intercalate_splitOn a '.'
      rw [hsp] at e
      rw [← e]
      simp only [Address.to_string, List.map_cons, List.map_nil,
        (parse_octet_some _ _ h1).1, (parse_octet_some _ _ h2).1, (parse_octet_some _ _ h3).1,
        (parse_octet_some _ _ h4).1]
    · cases h
  · cases h

theorem dot_not_in_to_string (n : Nat) : '.' ∉ to_string n := by
  intro h
  have := to_string_digits n '.' h
  exact absurd this (by decide)

/-- The dotted text of four octets parses to these octets. -/
theorem from_string_dotted (a b c d : Nat) (ha : a ≤ 255) (hb : b ≤ 255) (hc : c ≤ 255)
    (hd : d ≤ 255) :
    from_string (to_string a ++ '.' :: (to_string b ++ '.' :: (to_string c ++ '.' :: to_string d)))
      = some ⟨[a, b, c, d]⟩ := by
  have hi : to_string a ++ '.' :: (to_string b ++ '.' :: (to_string c ++ '.' :: to_string d))
      = ['.'].intercalate [to_string a, to_string b, to_string c, to_string d] := by
    simp [List.intercalate]
  have hsp := List.splitOn_intercalate [to_string a, to_string b, to_string c, to_string d] '.'
    (by
      intro l hl
      simp only [List.mem_cons, List.mem_singleton, List.not_mem_nil, or_false] at hl
      rcases hl with rfl | rfl | rfl | rfl <;> exact dot_not_in_to_string _)
    (by simp)
  unfold from_string
  rw [hi, hsp]
  simp only [parse_octet_to_string a ha, parse_octet_to_string b hb, parse_octet_to_string c hc,
    parse_octet_to_string d hd]

/-! ## Allocated coordinates and the ACK frame -/

/-- C17. Whatever the random generator draws, `generate_multicast_address` returns the text
"239.255." followed by the decimal text of the first draw, a dot and the decimal text of the
second draw, both draws being at most 255; this text parses to the address with octets
239, 255 and the two draws, which lies in 239.255.0.0/16; and it returns a port between
30000 and 40000. -/
theorem generate_multicast_address_range (env : CreateEnv) :
    (generate_multicast_address env).1
      = "239.255.".toList ++ to_string env.addr_x.val ++ ['.'] ++ to_string env.addr_y.val
    ∧ env.addr_x.val ≤ 255 ∧ env.addr_y.val ≤ 255
    ∧ decimal_value (to_string env.addr_x.val) = env.addr_x.val
    ∧ decimal_value (to_string env.addr_y.val) = env.addr_y.val
    ∧ from_string (generate_multicast_address env).1
        = some ⟨[239, 255, env.addr_x.val, env.addr_y.val]⟩
    ∧ 30000 ≤ (generate_multicast_address env).2
    ∧ (generate_multicast_address env).2 ≤ 40000 := by
  have hx : env.addr_x.val ≤ 255 := by have := env.addr_x.isLt; omega
  have hy : env.addr_y.val ≤ 255 := by have := env.addr_y.isLt; omega
  have hp : env.port_offset.val ≤ 10000 := by have := env.port_offset.isLt; omega
  refine ⟨rfl, hx, hy, decimal_value_to_string _, decimal_value_to_string _, ?_, ?_, ?_⟩
  · have hpre : MULTICAST_PREFIX = to_string 239 ++ '.' :: (to_string 255 ++ ['.']) := by
      decide
    have ht : (generate_multicast_address env).1
        = to_string 239 ++ '.' :: (to_string 255 ++ '.' :: (to_string env.addr_x.val
            ++ '.' :: to_string env.addr_y.val)) := by
      simp only [generate_multicast_address, hpre, List.append_assoc, List.cons_append,
        List.nil_append, List.singleton_append]
    rw [ht]
    exact from_string_dotted 239 255 _ _ (by omega) (by omega) hx hy
  · simp only [generate_multicast_address, MULTICAST_PORT_MIN]; omega
  · simp only [generate_multicast_address, MULTICAST_PORT_MIN]; omega

/-- C19. For a joined group, `send_ack(group_id, s)` makes exactly one `sendto`, on the
socket of the group and towards its `(multicast_addr, port)`, whose bytes are the four
characters "ACK:" followed by the decimal text of `s`: digits only (no sign, no white space,
no terminator), at least one, without a leading zero unless `s` is 0, and of value `s`. For
a group id that is not joined it sends nothing. -/
theorem send_ack_spec (c : kcp_multicast_client) (g s : Nat) (info : GroupInfo)
    (hjoin : map_find c.groups_ g = some info) :
    send_ack c g s
      = [ClientEvent.sendto info.socket_fd info.multicast_addr info.port
          (ascii "ACK:".toList ++ ascii (to_string s))]
    ∧ (∀ ch ∈ to_string s, ch.isDigit = true)
    ∧ to_string s ≠ []
    ∧ (s ≠ 0 → (to_string s).head? ≠ some '0')
    ∧ to_string 0 = ['0']
    ∧ decimal_value (to_string s) = s
    ∧ (∀ (c0 : kcp_multicast_client) (g0 : Nat),
        map_find c0.groups_ g0 = none → send_ack c0 g0 s = []) := by
  refine ⟨by simp [send_ack, hjoin, ACK_TAG], to_string_digits s, to_string_ne_nil s,
    to_string_head s, rfl, decimal_value_to_string s, ?_⟩
  intro c0 g0 h0
  simp [send_ack, h0]

/-- C19 at the sample client: the acknowledgement of sequence number 4294967295. -/
theorem send_ack_spec_witness :
    map_find sample_client.groups_ 1
      = some { multicast_addr := "239.255.0.1".toList, port := 30001, socket_fd := 3,
               last_seq := 0 }
    ∧ send_ack sample_client 1 4294967295
      = [ClientEvent.sendto 3 "239.255.0.1".toList 30001
          (ascii "ACK:".toList ++ ascii (to_string 4294967295))]
    ∧ ascii "ACK:".toList ++ ascii (to_string 4294967295) = ascii "ACK:4294967295".toList :=
  ⟨by decide,
   (send_ack_spec sample_client 1 4294967295
      { multicast_addr := "239.255.0.1".toList, port := 30001, socket_fd := 3, last_seq := 0 }
      (by decide)).1,
   by decide⟩

/-! ## Reading the group information text back -/

theorem isPrefixOf_self_append (ns rest : List Char) : ns.isPrefixOf (ns ++ rest) = true := by
  induction ns with
  | nil => simp [List.isPrefixOf]
  | cons a as ih => simp [List.isPrefixOf, ih]

theorem find_from_cons (c : Char) (cs needle : List Char) (i : Nat) :
    find_from (c :: cs) needle i
      = if needle.isPrefixOf (c :: cs) then some i else find_from cs needle (i + 1) := rfl

/-- A needle whose first character does not occur before its first occurrence is found
there. -/
theorem find_from_skip (x : Char) (ns rest : List Char) (pre : List Char) :
    ∀ i : Nat, x ∉ pre →
      find_from (pre ++ ((x :: ns) ++ rest)) (x :: ns) i = some (i + pre.length) := by
  induction pre with
  | nil =>
    intro i _
    have hp : (x :: ns).isPrefixOf (x :: (ns ++ rest)) = true :=
      isPrefixOf_self_append (x :: ns) rest
    show find_from (x :: (ns ++ rest)) (x :: ns) i = some i
    rw [find_from_cons, if_pos hp]
  | cons c pre ih =>
    intro i hx
    have hc : (x == c) = false := by
      simp only [List.mem_cons, not_or] at hx
      simpa using hx.1
    have hx2 : x ∉ pre := fun h => hx (List.mem_cons_of_mem _ h)
    have hnp : (x :: ns).isPrefixOf (c :: (pre ++ ((x :: ns) ++ rest))) = false := by
      simp [List.isPrefixOf, hc]
    show find_from (c :: (pre ++ ((x :: ns) ++ rest))) (x :: ns) i = _
    rw [find_from_cons, hnp]
    simp only [Bool.false_eq_true, if_false]
    rw [ih (i + 1) hx2, List.length_cons]
    congr 1; omega

theorem string_find_skip (front pre rest : List Char) (x : Char) (ns : List Char)
    (hx : x ∉ pre) :
    string_find (front ++ (pre ++ ((x :: ns) ++ rest))) (x :: ns) front.length
      = some (front.length + pre.length) := by
  unfold string_find
  rw [if_pos (by simp), List.drop_left]
  exact find_from_skip x ns rest pre front.length hx

theorem substr_until_mid (front mid rest : List Char) :
    substr_until (front ++ (mid ++ rest)) front.length (some (front.length + mid.length))
      = mid := by
  simp [substr_until, List.drop_left]

theorem isspace_of_isDigit (c : Char) (h : c.isDigit = true) : isspace c = false := by
  obtain ⟨h1, h2⟩ := digit_bounds c h
  simp only [isspace, Bool.or_eq_false_iff, decide_eq_false_iff_not, Bool.and_eq_false_iff]
  constructor
  · omega
  · right; omega

/-- The function `std::stoi` reads the decimal text of an `int` value back. -/
theorem stoi_to_string (n : Nat) (hn : n ≤ 2147483647) : stoi (to_string n) = some (n : Int) := by
  have hd := to_string_digits n
  have hv := decimal_value_to_string n
  cases hts : to_string n with
  | nil => exact absurd hts (to_string_ne_nil n)
  | cons c cs =>
    rw [hts] at hd hv
    have hc : c.isDigit = true := hd c (List.mem_cons_self _ _)
    have hsp : isspace c = false := isspace_of_isDigit c hc
    have hdrop : List.dropWhile isspace (c :: cs) = c :: cs := by
      simp [List.dropWhile, hsp]
    have hminus : c ≠ '-' := by
      intro h; rw [h] at hc; exact absurd hc (by decide)
    have hplus : c ≠ '+' := by
      intro h; rw [h] at hc; exact absurd hc (by decide)
    have htake : List.takeWhile Char.isDigit (c :: cs) = c :: cs := by
      rw [List.takeWhile_eq_self_iff]; exact hd
    have hsign : stoi_sign (c :: cs) = (false, c :: cs) := by
      unfold stoi_sign
      split
      · rename_i r heq
        cases heq; exact absurd rfl hminus
      · rename_i r heq
        cases heq; exact absurd rfl hplus
      · rfl
    unfold stoi
    simp only [hdrop, hsign, htake, List.isEmpty_cons, Bool.false_eq_true, if_false, hv]
    rw [if_neg (by omega)]

/-- The text with the two labels, an address without `P` and line break after the first, a
run of characters without line break after the second: the read-back finds that address
and applies `stoi` to that run. -/
theorem read_back_of_shape (front addr digits rest : List Char)
    (hfM : 'M' ∉ front) (hfP : 'P' ∉ front) (haP : 'P' ∉ addr) (haN : '\n' ∉ addr)
    (hdN : '\n' ∉ digits) :
    read_back_group_info
        (front ++ ("Multicast Address: ".toList ++ (addr ++ ('\n' :: ("Port: ".toList
          ++ (digits ++ ('\n' :: rest)))))))
      = match stoi digits with
        | none => none
        | some v => some (addr, (v % 65536).toNat) := by
  have hL1 : "Multicast Address: ".toList = 'M' :: "ulticast Address: ".toList := by decide
  have hL2 : "Port: ".toList = 'P' :: "ort: ".toList := by decide
  have hL1P : 'P' ∉ "Multicast Address: ".toList := by decide
  have hL1len : "Multicast Address: ".toList.length = 19 := by decide
  have hL2len : "Port: ".toList.length = 6 := by decide
  -- the first label
  have h1 : string_find (front ++ ("Multicast Address: ".toList ++ (addr ++ ('\n' ::
      ("Port: ".toList ++ (digits ++ ('\n' :: rest))))))) "Multicast Address: ".toList 0
      = some front.length := by
    have := string_find_skip [] front (addr ++ ('\n' :: ("Port: ".toList
      ++ (digits ++ ('\n' :: rest))))) 'M' "ulticast Address: ".toList hfM
    rw [← hL1] at this
    simpa using this
  -- the second label
  have h2 : string_find (front ++ ("Multicast Address: ".toList ++ (addr ++ ('\n' ::
      ("Port: ".toList ++ (digits ++ ('\n' :: rest))))))) "Port: ".toList 0
      = some (front.length + 19 + addr.length + 1) := by
    have hx : 'P' ∉ front ++ ("Multicast Address: ".toList ++ (addr ++ ['\n'])) := by
      simp only [List.mem_append, List.mem_singleton, not_or]
      exact ⟨hfP, hL1P, haP, by decide⟩
    have := string_find_skip [] (front ++ ("Multicast Address: ".toList ++ (addr ++ ['\n'])))
      (digits ++ ('\n' :: rest)) 'P' "ort: ".toList hx
    rw [← hL2] at this
    simp only [List.nil_append, List.length_nil, Nat.zero_add, List.length_append, hL1len,
      List.length_singleton, List.append_assoc, List.singleton_append] at this
    rw [this]
    congr 1; omega
  -- the end of the address
  have h3 : string_find (front ++ ("Multicast Address: ".toList ++ (addr ++ ('\n' ::
      ("Port: ".toList ++ (digits ++ ('\n' :: rest))))))) ['\n'] (front.length + 19)
      = some (front.length + 19 + addr.length) := by
    have := string_find_skip (front ++ "Multicast Address: ".toList) addr
      ("Port: ".toList ++ (digits ++ ('\n' :: rest))) '\n' [] haN
    simp only [List.length_append, hL1len, List.append_assoc, List.singleton_append] at this
    exact this
  have h4 : substr_until (front ++ ("Multicast Address: ".toList ++ (addr ++ ('\n' ::
      ("Port: ".toList ++ (digits ++ ('\n' :: rest))))))) (front.length + 19)
      (some (front.length + 19 + addr.length)) = addr := by
    have := substr_until_mid (front ++ "Multicast Address: ".toList) addr
      ('\n' :: ("Port: ".toList ++ (digits ++ ('\n' :: rest))))
    simp only [List.length_append, hL1len, List.append_assoc] at this
    exact this
  -- the end of the port
  have h5 : string_find (front ++ ("Multicast Address: ".toList ++ (addr ++ ('\n' ::
      ("Port: ".toList ++ (digits ++ ('\n' :: rest))))))) ['\n']
      (front.length + 19 + addr.length + 1 + 6)
      = some (front.length + 19 + addr.length + 1 + 6 + digits.length) := by
    have := string_find_skip
      (front ++ ("Multicast Address: ".toList ++ (addr ++ ('\n' :: "Port: ".toList))))
      digits rest '\n' [] hdN
    simp only [List.length_append, hL1len, hL2len, List.length_cons, List.append_assoc,
      List.singleton_append, List.cons_append] at this
    have e : front.length + (19 + (addr.length + (6 + 1)))
        = front.length + 19 + addr.length + 1 + 6 := by omega
    rw [e] at this
    exact this
  have h6 : substr_until (front ++ ("Multicast Address: ".toList ++ (addr ++ ('\n' ::
      ("Port: ".toList ++ (digits ++ ('\n' :: rest)))))))
      (front.length + 19 + addr.length + 1 + 6)
      (some (front.length + 19 + addr.length + 1 + 6 + digits.length)) = digits := by
    have := substr_until_mid
      (front ++ ("Multicast Address: ".toList ++ (addr ++ ('\n' :: "Port: ".toList))))
      digits ('\n' :: rest)
    simp only [List.length_append, hL1len, hL2len, List.length_cons, List.append_assoc,
      List.cons_append] at this
    have e : front.length + (19 + (addr.length + (6 + 1)))
        = front.length + 19 + addr.length + 1 + 6 := by omega
    rw [e] at this
    exact this
  unfold read_back_group_info
  simp only [h1, h2, h3, h4, h5, h6]

theorem from_string_chars (a : List Char) (addr : Address) (h : from_string a = some addr) :
    ∀ c ∈ a, c.isDigit = true ∨ c = '.' := by
  have hts := to_string_of_from_string a addr h
  unfold from_string at h
  split at h
  · split at h
    · rename_i v1 v2 v3 v4 h1 h2 h3 h4
      cases h
      rw [address_to_string_four] at hts
      intro c hc
      rw [← hts] at hc
      simp only [List.mem_append, List.mem_cons] at hc
      rcases hc with hc | hc | hc | hc | hc | hc | hc
      · exact Or.inl (to_string_digits _ c hc)
      · exact Or.inr hc
      · exact Or.inl (to_string_digits _ c hc)
      · exact Or.inr hc
      · exact Or.inl (to_string_digits _ c hc)
      · exact Or.inr hc
      · exact Or.inl (to_string_digits _ c hc)
    · cases h
  · cases h

theorem not_mem_of_digits_or_dot (a : List Char) (x : Char)
    (h : ∀ c ∈ a, c.isDigit = true ∨ c = '.') (hx1 : x.isDigit = false) (hx2 : x ≠ '.') :
    x ∉ a := by
  intro hx
  rcases h x hx with h1 | h1
  · rw [hx1] at h1; cases h1
  · exact hx2 h1

theorem not_mem_to_string (n : Nat) (x : Char) (hx : x.isDigit = false) : x ∉ to_string n := by
  intro h
  have := to_string_digits n x h
  rw [hx] at this; cases this

/-- C14. A call `create_group(a, p)` with a non-empty address text and a port other than 0
that returns a non-zero id `g` has stored under `g` a group whose endpoint has the address
of text `a` and the port `p`, with an empty unacked table; `get_group_info(g)` is the four
lines "Group ID: g", "Multicast Address: a", "Port: p", "Pending Messages: 0"; and what the
test server reads back from that text is the pair `(a, p)`. For an id that is not live
`get_group_info` is "Group not found". -/
theorem create_group_explicit_info (m : UdpMulticastManager) (a : List Char) (p : Nat)
    (env : CreateEnv) (ha : a ≠ []) (hp : p ≠ 0) (hp16 : p < 65536)
    (hid : (create_group m a p env).2 ≠ 0) :
    (∃ grp, map_find (create_group m a p env).1.groups_ (create_group m a p env).2 = some grp
        ∧ grp.endpoint.address.to_string = a ∧ grp.endpoint.port = p ∧ grp.sent_msgs = [])
    ∧ get_group_info (create_group m a p env).1 (create_group m a p env).2
        = "Group ID: ".toList ++ to_string (create_group m a p env).2 ++ ['\n']
          ++ "Multicast Address: ".toList ++ a ++ ['\n']
          ++ "Port: ".toList ++ to_string p ++ ['\n']
          ++ "Pending Messages: ".toList ++ to_string 0
    ∧ read_back_group_info
        (get_group_info (create_group m a p env).1 (create_group m a p env).2) = some (a, p)
    ∧ (∀ (m0 : UdpMulticastManager) (g0 : Nat), map_find m0.groups_ g0 = none →
        get_group_info m0 g0 = "Group not found".toList) := by
  have hcoord : chosen_coordinates a p env = (a, p) := by
    unfold chosen_coordinates
    have : ¬ (a.isEmpty = true ∨ p = 0) := by
      rintro (h | h)
      · exact ha (List.isEmpty_iff.1 h)
      · exact hp h
    rw [if_neg this]
  have hcg : create_group m a p env
      = match init_group_socket a p env with
        | none => ({ m with next_group_id_ := (m.next_group_id_ + 1) % UINT32_SIZE }, 0)
        | some ep =>
          ({ groups_ := map_insert m.groups_ m.next_group_id_ (MulticastGroup.init ep),
             next_group_id_ := (m.next_group_id_ + 1) % UINT32_SIZE }, m.next_group_id_) := by
    rw [create_group_eq, hcoord]
  cases hinit : init_group_socket a p env with
  | none =>
    rw [hinit] at hcg
    rw [hcg] at hid
    exact absurd rfl hid
  | some ep =>
    rw [hinit] at hcg
    rw [hcg] at hid ⊢
    simp only [] at hid ⊢
    -- the endpoint that was stored
    have hep : ∃ addr, from_string a = some addr ∧ ep = { address := addr, port := p } := by
      unfold init_group_socket at hinit
      cases hfs : from_string a with
      | none => rw [hfs] at hinit; cases hinit
      | some addr =>
        rw [hfs] at hinit
        simp only [] at hinit
        split_ifs at hinit
        cases hinit
        exact ⟨addr, rfl, rfl⟩
    obtain ⟨addr, hfs, rfl⟩ := hep
    have hts : addr.to_string = a := to_string_of_from_string a addr hfs
    have hchars := from_string_chars a addr hfs
    have hfind : map_find (map_insert m.groups_ m.next_group_id_
        (MulticastGroup.init { address := addr, port := p })) m.next_group_id_
        = some (MulticastGroup.init { address := addr, port := p }) := by
      simp [map_find_insert]
    have htext : get_group_info
        { groups_ := map_insert m.groups_ m.next_group_id_
            (MulticastGroup.init { address := addr, port := p }),
          next_group_id_ := (m.next_group_id_ + 1) % UINT32_SIZE } m.next_group_id_
        = "Group ID: ".toList ++ to_string m.next_group_id_ ++ ['\n']
          ++ "Multicast Address: ".toList ++ a ++ ['\n']
          ++ "Port: ".toList ++ to_string p ++ ['\n']
          ++ "Pending Messages: ".toList ++ to_string 0 := by
      unfold get_group_info
      rw [hfind]
      simp only [MulticastGroup.init, hts, List.length_nil]
    refine ⟨⟨_, hfind, hts, rfl, rfl⟩, htext, ?_, ?_⟩
    · rw [htext]
      have hshape : "Group ID: ".toList ++ to_string m.next_group_id_ ++ ['\n']
            ++ "Multicast Address: ".toList ++ a ++ ['\n']
            ++ "Port: ".toList ++ to_string p ++ ['\n']
            ++ "Pending Messages: ".toList ++ to_string 0
          = ("Group ID: ".toList ++ to_string m.next_group_id_ ++ ['\n'])
            ++ ("Multicast Address: ".toList ++ (a ++ ('\n' :: ("Port: ".toList
              ++ (to_string p ++ ('\n' :: ("Pending Messages: ".toList ++ to_string 0))))))) := by
        simp only [List.append_assoc, List.singleton_append, List.cons_append, List.nil_append]
      rw [hshape, read_back_of_shape]
      · rw [stoi_to_string p (by omega)]
        simp only [Option.some.injEq, Prod.mk.injEq, true_and]
        omega
      · simp only [List.mem_append, List.mem_singleton, not_or]
        exact ⟨⟨by decide, not_mem_to_string _ _ (by decide)⟩, by decide⟩
      · simp only [List.mem_append, List.mem_singleton, not_or]
        exact ⟨⟨by decide, not_mem_to_string _ _ (by decide)⟩, by decide⟩
      · exact not_mem_of_digits_or_dot a _ hchars (by decide) (by decide)
      · exact not_mem_of_digits_or_dot a _ hchars (by decide) (by decide)
      · exact not_mem_to_string _ _ (by decide)
    · intro m0 g0 h0
      simp [get_group_info, h0]

/-- C14 at the call of the first scenario: `create_group("239.255.0.1", 30001)` on a fresh
manager returns 1, and the text is read back as that address and port. -/
theorem create_group_explicit_info_witness :
    ("239.255.0.1".toList ≠ [] ∧ (30001 : Nat) ≠ 0 ∧ (30001 : Nat) < 65536
      ∧ (create_group UdpMulticastManager.init "239.255.0.1".toList 30001 sample_env).2 ≠ 0)
    ∧ get_group_info
        (create_group UdpMulticastManager.init "239.255.0.1".toList 30001 sample_env).1 1
      = ("Group ID: 1\nMulticast Address: 239.255.0.1\nPort: 30001\n"
          ++ "Pending Messages: 0").toList
    ∧ read_back_group_info (get_group_info
        (create_group UdpMulticastManager.init "239.255.0.1".toList 30001 sample_env).1
        (create_group UdpMulticastManager.init "239.255.0.1".toList 30001 sample_env).2)
      = some ("239.255.0.1".toList, 30001) :=
  ⟨⟨by decide, by decide, by decide, by decide⟩, by decide,
   (create_group_explicit_info UdpMulticastManager.init "239.255.0.1".toList 30001 sample_env
      (by decide) (by decide) (by decide) (by decide)).2.2.1⟩


/-! ## Leaving, starting and stopping on the client -/

theorem leave_group_of_joined (c : kcp_multicast_client) (g : Nat) (r : Int) (info : GroupInfo)
    (h : map_find c.groups_ g = some info) :
    leave_group c g r = ({ c with groups_ := map_erase c.groups_ g }, 0, [info.socket_fd]) := by
  unfold leave_group
  rw [h]
  simp only []
  split_ifs <;> rfl

theorem join_group_of_free (c : kcp_multicast_client) (addr : List Char) (port g : Nat)
    (env : JoinEnv) (h : map_find c.groups_ g = none) (h1 : 0 ≤ env.socket_result)
    (h2 : 0 ≤ env.setsockopt_reuse) (h3 : 0 ≤ env.fcntl_getfl) (h4 : 0 ≤ env.fcntl_setfl)
    (h5 : 0 ≤ env.bind_result) (h6 : 0 ≤ env.setsockopt_add_membership) :
    join_group c addr port g env
      = ({ c with groups_ := (map_insert c.groups_ g
            { multicast_addr := addr, port := port, socket_fd := env.socket_result,
              last_seq := 0 }) }, 0) := by
  simp [join_group, h, Int.not_lt.2 h1, Int.not_lt.2 h2, Int.not_lt.2 h3, Int.not_lt.2 h4,
    Int.not_lt.2 h5, Int.not_lt.2 h6]

/-- C21. For a joined group `g`, `leave_group(g)` returns 0 whatever
`setsockopt(IP_DROP_MEMBERSHIP)` returns, closes the socket of the group and removes the
entry `g` from the table of joined groups, every other entry and every other member of the
client staying as they were; afterwards `join_group` on `g` does not report "already
joined" and succeeds when its system calls do. For a group id that is not joined,
`leave_group` returns -1, closes nothing and leaves the client unchanged. -/
theorem leave_group_spec (c : kcp_multicast_client) (g : Nat) (r : Int) :
    (∀ info, map_find c.groups_ g = some info →
        (leave_group c g r).2.1 = 0
        ∧ (leave_group c g r).1 = { c with groups_ := map_erase c.groups_ g }
        ∧ map_find (leave_group c g r).1.groups_ g = none
        ∧ (∀ g1, g1 ≠ g → map_find (leave_group c g r).1.groups_ g1 = map_find c.groups_ g1)
        ∧ (leave_group c g r).2.2 = [info.socket_fd]
        ∧ (∀ (addr : List Char) (port : Nat) (env : JoinEnv),
            (join_group (leave_group c g r).1 addr port g env).2 ≠ -1)
        ∧ (∀ (addr : List Char) (port : Nat) (env : JoinEnv),
            0 ≤ env.socket_result → 0 ≤ env.setsockopt_reuse → 0 ≤ env.fcntl_getfl →
            0 ≤ env.fcntl_setfl → 0 ≤ env.bind_result → 0 ≤ env.setsockopt_add_membership →
            (join_group (leave_group c g r).1 addr port g env).2 = 0
            ∧ map_find (join_group (leave_group c g r).1 addr port g env).1.groups_ g
              = some { multicast_addr := addr, port := port, socket_fd := env.socket_result,
                       last_seq := 0 }))
    ∧ (map_find c.groups_ g = none →
        (leave_group c g r).2.1 = -1 ∧ (leave_group c g r).2.1 < 0
        ∧ (leave_group c g r).1 = c ∧ (leave_group c g r).2.2 = []) := by
  constructor
  · intro info h
    have hl := leave_group_of_joined c g r info h
    have hfree : map_find (leave_group c g r).1.groups_ g = none := by
      rw [hl]; simp [map_find_erase]
    refine ⟨by rw [hl], by rw [hl], hfree, ?_, by rw [hl], ?_, ?_⟩
    · intro g1 hg1
      rw [hl]; simp [map_find_erase, hg1]
    · intro addr port env
      simp only [join_group, hfree, Option.isSome_none, Bool.false_eq_true, if_false]
      split_ifs <;> simp
    · intro addr port env h1 h2 h3 h4 h5 h6
      rw [join_group_of_free _ addr port g env hfree h1 h2 h3 h4 h5 h6]
      exact ⟨rfl, by simp [map_find_insert]⟩
  · intro h
    have hl : leave_group c g r = (c, -1, []) := by simp [leave_group, h]
    rw [hl]
    exact ⟨rfl, (by show (-1 : Int) < 0; decide), rfl, rfl⟩

/-- C22 (the code at the failing input). A client that joined group 1 and was never started
is not running; `stop` returns at its first test, closes no socket, and the table of joined
groups still holds group 1. -/
theorem stop_of_unstarted_client_keeps_groups :
    sample_joined_client.running_ = false
    ∧ map_find sample_joined_client.groups_ 1
      = some { multicast_addr := "239.255.0.1".toList, port := 30001, socket_fd := 3,
               last_seq := 0 }
    ∧ sample_joined_client.stop = (sample_joined_client, [])
    ∧ sample_joined_client.stop.1.groups_ ≠ [] := by
  refine ⟨by decide, by decide, by decide, by decide⟩

/-- A running client is left by `stop` not running and with an empty table of joined
groups, every socket having been closed. -/
theorem stop_of_running_client (c : kcp_multicast_client) (h : c.running_ = true) :
    c.stop.1.groups_ = [] ∧ c.stop.1.running_ = false ∧ c.stop.1.thread_running_ = false
    ∧ c.stop.2 = c.groups_.map (fun e => e.2.socket_fd) := by
  unfold kcp_multicast_client.stop
  simp only [h, Bool.not_true, Bool.false_eq_true, if_false]
  cases ht : c.thread_running_ <;> simp

/-- C23. When the client is running, `start` returns false and leaves the client as it was.
When it is not running and `pthread_create` returns 0, `start` returns true and the client
is running, the table of joined groups being unchanged. When `pthread_create` fails, `start`
returns false and the client is as before, not running, and a later `start` whose
`pthread_create` succeeds returns true. -/
theorem start_spec (c : kcp_multicast_client) (r : Int) :
    (c.running_ = true → c.start r = (c, false))
    ∧ (c.running_ = false → r = 0 →
        c.start r = ({ c with running_ := true }, true)
        ∧ (c.start r).1.running_ = true ∧ (c.start r).1.groups_ = c.groups_)
    ∧ (c.running_ = false → r ≠ 0 →
        c.start r = (c, false) ∧ (c.start r).1.running_ = false
        ∧ ((c.start r).1.start 0).2 = true) := by
  refine ⟨?_, ?_, ?_⟩
  · intro h
    simp [kcp_multicast_client.start, h]
  · intro h hr
    subst hr
    simp [kcp_multicast_client.start, h]
  · intro h hr
    have hs : c.start r = (c, false) := by
      obtain ⟨groups, running, thread, cb⟩ := c
      simp only at h
      subst h
      simp [kcp_multicast_client.start, hr]
    rw [hs]
    exact ⟨rfl, h, by simp [kcp_multicast_client.start, h]⟩

/-! ## Timer arming, the facade, acknowledgement without callback, partial coordinates -/

/-- C27 (the code at the failing input). A reliable send at time 0 arms the timer of group 1
with expiry 500. A second reliable send at time 100, while that wait is pending, calls
`expires_from_now` and `async_wait` again: the timer is left with expiry 600, not 500. The
call of `expires_from_now` cancels the pending wait, and the handler of that wait was bound
as `handle_retransmit(group_id)` without the error code, so it runs on the cancellation: at
that state and time `handle_retransmit(1)` sends the frames of sequence numbers 0 and 1 once
more, at time 100 and not 500 ms after they were sent, arms the timer again, which cancels
the wait just registered, and returns the state it started from. -/
theorem second_reliable_send_moves_expiry :
    map_find (run UdpMulticastManager.init
        [sample_create, Op.send_reliable_to_group 1 (ascii "A".toList) 0 true]).groups_ 1
      = some { endpoint := ⟨⟨[239, 255, 0, 1]⟩, 30001⟩, next_seq := 1,
               sent_msgs := [(0, ascii "A".toList)], retransmit_timer := some 500 }
    ∧ map_find (send_reliable_to_group (run UdpMulticastManager.init
        [sample_create, Op.send_reliable_to_group 1 (ascii "A".toList) 0 true])
        1 (ascii "B".toList) 100 true).1.groups_ 1
      = some { endpoint := ⟨⟨[239, 255, 0, 1]⟩, 30001⟩, next_seq := 2,
               sent_msgs := [(0, ascii "A".toList), (1, ascii "B".toList)],
               retransmit_timer := some 600 }
    ∧ ¬ timer_kept_when_armed (run UdpMulticastManager.init
        [sample_create, Op.send_reliable_to_group 1 (ascii "A".toList) 0 true])
        1 (ascii "B".toList) 100 true
    ∧ handle_retransmit (send_reliable_to_group (run UdpMulticastManager.init
        [sample_create, Op.send_reliable_to_group 1 (ascii "A".toList) 0 true])
        1 (ascii "B".toList) 100 true).1 1 100
      = ((send_reliable_to_group (run UdpMulticastManager.init
          [sample_create, Op.send_reliable_to_group 1 (ascii "A".toList) 0 true])
          1 (ascii "B".toList) 100 true).1,
         [Effect.send_to ⟨⟨[239, 255, 0, 1]⟩, 30001⟩ [0, 0, 0, 0, 65],
          Effect.send_to ⟨⟨[239, 255, 0, 1]⟩, 30001⟩ [0, 0, 0, 1, 66],
          Effect.timer_arm 1 600]) := by
  have h1 : map_find (run UdpMulticastManager.init
      [sample_create, Op.send_reliable_to_group 1 (ascii "A".toList) 0 true]).groups_ 1
      = some { endpoint := ⟨⟨[239, 255, 0, 1]⟩, 30001⟩, next_seq := 1,
               sent_msgs := [(0, ascii "A".toList)], retransmit_timer := some 500 } := by
    decide
  have h2 : map_find (send_reliable_to_group (run UdpMulticastManager.init
      [sample_create, Op.send_reliable_to_group 1 (ascii "A".toList) 0 true])
      1 (ascii "B".toList) 100 true).1.groups_ 1
      = some { endpoint := ⟨⟨[239, 255, 0, 1]⟩, 30001⟩, next_seq := 2,
               sent_msgs := [(0, ascii "A".toList), (1, ascii "B".toList)],
               retransmit_timer := some 600 } := by
    decide
  refine ⟨h1, h2, ?_, by decide⟩
  intro hkeep
  obtain ⟨grp1, hf, ht⟩ := hkeep _ 500 h1 rfl
  rw [h2] at hf
  cases hf
  exact absurd ht (by decide)

/-- What the body of `send_reliable_to_group` does with the timer of a live group: when
`send_to` does not throw it sets the expiry to 500 ms after the call, whether a wait was
pending or not, and registers one wait; when `send_to` throws it does neither. -/
theorem send_reliable_sets_expiry (m : UdpMulticastManager) (g : Nat) (grp : MulticastGroup)
    (msg : Bytes) (now : Nat) (h : map_find m.groups_ g = some grp) :
    (∃ grp1, map_find (send_reliable_to_group m g msg now true).1.groups_ g = some grp1
        ∧ grp1.retransmit_timer = some (now + 500))
    ∧ timer_arms (send_reliable_to_group m g msg now true).2 = [(g, now + 500)]
    ∧ (∃ grp1, map_find (send_reliable_to_group m g msg now false).1.groups_ g = some grp1
        ∧ grp1.retransmit_timer = grp.retransmit_timer)
    ∧ timer_arms (send_reliable_to_group m g msg now false).2 = [] := by
  have ht := send_reliable_groups m g grp msg now true h g
  have hf := send_reliable_groups m g grp msg now false h g
  rw [if_pos rfl] at ht hf
  refine ⟨⟨_, ht, rfl⟩, ?_, ⟨_, hf, rfl⟩, ?_⟩
  · rw [send_reliable_effects m g grp msg now true h]; rfl
  · rw [send_reliable_effects m g grp msg now false h]; rfl

/-- The lemma above at a concrete state: the second send at time 100 sets expiry 600. -/
theorem send_reliable_sets_expiry_witness :
    map_find (run UdpMulticastManager.init
        [sample_create, Op.send_reliable_to_group 1 (ascii "A".toList) 0 true]).groups_ 1
      = some { endpoint := ⟨⟨[239, 255, 0, 1]⟩, 30001⟩, next_seq := 1,
               sent_msgs := [(0, ascii "A".toList)], retransmit_timer := some 500 }
    ∧ timer_arms (send_reliable_to_group (run UdpMulticastManager.init
        [sample_create, Op.send_reliable_to_group 1 (ascii "A".toList) 0 true])
        1 (ascii "B".toList) 100 true).2 = [(1, 100 + 500)] :=
  ⟨by decide,
   (send_reliable_sets_expiry _ 1
      { endpoint := ⟨⟨[239, 255, 0, 1]⟩, 30001⟩, next_seq := 1,
        sent_msgs := [(0, ascii "A".toList)], retransmit_timer := some 500 }
      (ascii "B".toList) 100 (by decide)).2.1⟩

/-- C28. The two sending functions of the facade pass a message that is neither the null
pointer nor empty on to `send_to_group` and `send_reliable_to_group` of the manager, with the
same group id and bytes, and their effect is that of the manager function. For the null
pointer and for the empty message they return the server unchanged and do nothing: no
datagram, no sequence number consumed, the unacked tables as before. -/
theorem facade_forwards_non_empty (s : server) (g : Nat) (now : Nat) (ok : Bool) :
    (∀ b : Bytes, b ≠ [] →
        s.send_msg_to_multicast_group g (some b)
          = ({ multicast_manager_ptr_ := (send_to_group s.multicast_manager_ptr_ g b).1 },
              (send_to_group s.multicast_manager_ptr_ g b).2)
        ∧ s.send_reliable_msg_to_multicast_group g (some b) now ok
          = ({ multicast_manager_ptr_ :=
                (send_reliable_to_group s.multicast_manager_ptr_ g b now ok).1 },
              (send_reliable_to_group s.multicast_manager_ptr_ g b now ok).2))
    ∧ s.send_msg_to_multicast_group g none = (s, [])
    ∧ s.send_msg_to_multicast_group g (some []) = (s, [])
    ∧ s.send_reliable_msg_to_multicast_group g none now ok = (s, [])
    ∧ s.send_reliable_msg_to_multicast_group g (some []) now ok = (s, []) := by
  refine ⟨?_, rfl, rfl, rfl, rfl⟩
  intro b hb
  have he : b.isEmpty = false := by
    cases b with
    | nil => exact absurd rfl hb
    | cons _ _ => rfl
  simp [server.send_msg_to_multicast_group, server.send_reliable_msg_to_multicast_group, he]

/-- C29. On a joined group, a datagram `b0 b1 b2 b3 rest` whose first four bytes are not
"ACK:" makes the client send exactly one acknowledgement, for the big-endian value of
`b0 b1 b2 b3`, whether a callback is registered or not. Without a callback nothing else
happens: the payload is handed to nobody. With a callback the payload is handed to it
before the acknowledgement is sent. -/
theorem ack_sent_without_callback (c : kcp_multicast_client) (g : Nat) (info : GroupInfo)
    (b0 b1 b2 b3 : Byte) (rest : Bytes) (hjoin : map_find c.groups_ g = some info)
    (hne : [b0, b1, b2, b3] ≠ ACK_TAG) :
    client_datagrams (receive_datagram c g (b0 :: b1 :: b2 :: b3 :: rest)).2
      = [ACK_TAG ++ ascii (to_string
          (b0.val * 16777216 + b1.val * 65536 + b2.val * 256 + b3.val))]
    ∧ (c.msg_callback_ = false →
        receive_datagram c g (b0 :: b1 :: b2 :: b3 :: rest)
          = (c, [ClientEvent.sendto info.socket_fd info.multicast_addr info.port
                  (ACK_TAG ++ ascii (to_string
                    (b0.val * 16777216 + b1.val * 65536 + b2.val * 256 + b3.val)))])
        ∧ callbacks (receive_datagram c g (b0 :: b1 :: b2 :: b3 :: rest)).2 = [])
    ∧ (c.msg_callback_ = true →
        receive_datagram c g (b0 :: b1 :: b2 :: b3 :: rest)
          = (c, [ClientEvent.callback g rest,
                 ClientEvent.sendto info.socket_fd info.multicast_addr info.port
                  (ACK_TAG ++ ascii (to_string
                    (b0.val * 16777216 + b1.val * 65536 + b2.val * 256 + b3.val)))])) := by
  rw [receive_datagram_reliable c g b0 b1 b2 b3 rest hne]
  cases hcb : c.msg_callback_ <;>
    simp [handle_multicast_message, hcb, send_ack, hjoin, client_datagrams, callbacks]

/-- C29 at a client without callback: the frame of sequence number 258 is acknowledged and
delivered to nobody. -/
theorem ack_sent_without_callback_witness :
    (map_find ({ sample_client with msg_callback_ := false }).groups_ 1
        = some { multicast_addr := "239.255.0.1".toList, port := 30001, socket_fd := 3,
                 last_seq := 0 }
      ∧ ([0, 0, 1, 2] : Bytes) ≠ ACK_TAG)
    ∧ receive_datagram { sample_client with msg_callback_ := false } 1
        (0 :: 0 :: 1 :: 2 :: ascii "A".toList)
      = ({ sample_client with msg_callback_ := false },
          [ClientEvent.sendto 3 "239.255.0.1".toList 30001
            (ACK_TAG ++ ascii (to_string (0 * 16777216 + 0 * 65536 + 1 * 256 + 2)))]) :=
  ⟨⟨by decide, by decide⟩,
   ((ack_sent_without_callback { sample_client with msg_callback_ := false } 1
      { multicast_addr := "239.255.0.1".toList, port := 30001, socket_fd := 3, last_seq := 0 }
      0 0 1 2 (ascii "A".toList) (by decide) (by decide)).2.1 rfl).1⟩

theorem from_string_generated (env : CreateEnv) :
    from_string (generate_multicast_address env).1
      = some ⟨[239, 255, env.addr_x.val, env.addr_y.val]⟩ := by
  have hx : env.addr_x.val ≤ 255 := by have := env.addr_x.isLt; omega
  have hy : env.addr_y.val ≤ 255 := by have := env.addr_y.isLt; omega
  have hpre : MULTICAST_PREFIX = to_string 239 ++ '.' :: (to_string 255 ++ ['.']) := by
    decide
  have ht : (generate_multicast_address env).1
      = to_string 239 ++ '.' :: (to_string 255 ++ '.' :: (to_string env.addr_x.val
          ++ '.' :: to_string env.addr_y.val)) := by
    simp only [generate_multicast_address, hpre, List.append_assoc, List.cons_append,
      List.nil_append, List.singleton_append]
  rw [ht]
  exact from_string_dotted 239 255 _ _ (by omega) (by omega) hx hy

/-- C30. The coordinates that `create_group(addr, port)` passes to `init_group_socket` are
those of the caller exactly when `addr` is not empty and `port` is not 0. Otherwise, also
when only one of the two is missing, they are the generated pair, address and port both, and
the group that is stored when the socket calls succeed has the generated address
`239.255.X.Y` and the generated port: the value that was given is not used. -/
theorem partial_coordinates_are_discarded (m : UdpMulticastManager) (a : List Char) (p : Nat)
    (env : CreateEnv) :
    (chosen_coordinates a p env = (a, p) ↔ a ≠ [] ∧ p ≠ 0)
    ∧ ((a = [] ∨ p = 0) → chosen_coordinates a p env = generate_multicast_address env)
    ∧ create_group m a p env
        = (match init_group_socket (chosen_coordinates a p env).1
              (chosen_coordinates a p env).2 env with
          | none => ({ m with next_group_id_ := (m.next_group_id_ + 1) % UINT32_SIZE }, 0)
          | some ep =>
            ({ groups_ := map_insert m.groups_ m.next_group_id_ (MulticastGroup.init ep),
               next_group_id_ := (m.next_group_id_ + 1) % UINT32_SIZE }, m.next_group_id_))
    ∧ ((a = [] ∨ p = 0) → env.socket_ok = true →
        create_group m a p env
          = ({ groups_ := map_insert m.groups_ m.next_group_id_
                (MulticastGroup.init ⟨⟨[239, 255, env.addr_x.val, env.addr_y.val]⟩,
                  30000 + env.port_offset.val⟩),
               next_group_id_ := (m.next_group_id_ + 1) % UINT32_SIZE }, m.next_group_id_)) := by
  have hgen : (a = [] ∨ p = 0) →
      chosen_coordinates a p env = generate_multicast_address env := by
    intro h
    unfold chosen_coordinates
    rw [if_pos]
    rcases h with h | h
    · left; rw [h]; rfl
    · right; exact h
  refine ⟨⟨?_, ?_⟩, hgen, create_group_eq m a p env, ?_⟩
  · intro heq
    by_contra hcon
    have hor : a = [] ∨ p = 0 := by
      by_cases ha : a = []
      · exact Or.inl ha
      · right
        by_contra hp
        exact hcon ⟨ha, hp⟩
    rw [hgen hor] at heq
    have h1 : (generate_multicast_address env).1 = a := congrArg Prod.fst heq
    have h2 : (generate_multicast_address env).2 = p := congrArg Prod.snd heq
    rcases hor with h | h
    · rw [h] at h1
      simp [generate_multicast_address, MULTICAST_PREFIX] at h1
    · rw [h] at h2
      simp [generate_multicast_address, MULTICAST_PORT_MIN] at h2
  · rintro ⟨ha, hp⟩
    unfold chosen_coordinates
    rw [if_neg]
    rintro (h | h)
    · exact ha (List.isEmpty_iff.1 h)
    · exact hp h
  · intro h hok
    rw [create_group_eq, hgen h]
    simp only [init_group_socket, from_string_generated env, hok, if_true]
    rfl

/-! ## The empty payload -/

/-- The empty payload outside the one sequence number whose encoding is the ACK tag. On a
live group `send_to_group` with the empty payload hands one datagram of length 0 to the
socket; `send_reliable_to_group` with the empty payload stores the empty payload under the
sequence number it takes, moves the counter on, and hands one datagram of four bytes, the
big-endian sequence number, to the socket; a client that joined the group and has a
callback delivers the empty payload and acknowledges the number, when the number is not
1094929210. -/
theorem empty_payload_paths (m : UdpMulticastManager) (g : Nat) (grp : MulticastGroup)
    (now : Nat) (ok : Bool) (h : map_find m.groups_ g = some grp) :
    datagrams (send_to_group m g []).2 = [(grp.endpoint, [])]
    ∧ datagrams (send_reliable_to_group m g [] now ok).2
        = [(grp.endpoint, htonl_bytes grp.next_seq)]
    ∧ (htonl_bytes grp.next_seq).length = 4
    ∧ map_find (send_reliable_to_group m g [] now ok).1.groups_ g
        = some { grp with
            next_seq := (grp.next_seq + 1) % UINT32_SIZE
            sent_msgs := map_insert grp.sent_msgs grp.next_seq []
            retransmit_timer := if ok then some (now + RETRANSMIT_MS) else grp.retransmit_timer }
    ∧ (∀ (c : kcp_multicast_client) (info : GroupInfo), map_find c.groups_ g = some info →
        c.msg_callback_ = true → grp.next_seq < UINT32_SIZE → grp.next_seq ≠ 1094929210 →
        receive_datagram c g (htonl_bytes grp.next_seq)
          = (c, [ClientEvent.callback g [],
                 ClientEvent.sendto info.socket_fd info.multicast_addr info.port
                   (ACK_TAG ++ ascii (to_string grp.next_seq))])) := by
  refine ⟨?_, ?_, rfl, ?_, ?_⟩
  · simp [send_to_group, h, datagrams]
  · rw [send_reliable_effects m g grp [] now ok h]
    cases ok <;> simp [datagrams]
  · have := send_reliable_groups m g grp [] now ok h g
    rw [if_pos rfl] at this
    exact this
  · intro c info hjoin hcb hlt hne
    have := reliable_round_trip_of_ne c g info grp.next_seq [] hjoin hcb hlt hne
    rw [List.append_nil] at this
    exact this

/-- C26 (the code at the failing input). A group whose counter has reached 1094929210 is
reachable; `send_reliable_to_group` with the empty payload stores the empty payload under
that number and emits a datagram of four bytes, which are the text "ACK:"; the client drops
that frame: the empty payload is not delivered and the number is not acknowledged. -/
theorem empty_reliable_frame_with_seq_ACK_is_dropped :
    ∃ m : UdpMulticastManager, Reachable m ∧ ∃ grp, map_find m.groups_ 1 = some grp ∧
      grp.next_seq = 1094929210 ∧
      ∀ (now : Nat) (c : kcp_multicast_client),
        datagrams (send_reliable_to_group m 1 [] now true).2 = [(grp.endpoint, ACK_TAG)]
          ∧ ACK_TAG.length = 4
          ∧ (∃ grp1, map_find (send_reliable_to_group m 1 [] now true).1.groups_ 1 = some grp1
              ∧ map_find grp1.sent_msgs 1094929210 = some []
              ∧ grp1.next_seq = 1094929211)
          ∧ receive_datagram c 1 ACK_TAG = (c, []) := by
  obtain ⟨grp, hf, hseq, -, -⟩ :=
    run_replicate_reliable (step UdpMulticastManager.init sample_create) 1 _ [] 0 true
      sample_create_group rfl 1094929210
  have hseq1 : grp.next_seq = 1094929210 := by rw [hseq]; decide
  refine ⟨_, ⟨sample_create :: List.replicate 1094929210 (Op.send_reliable_to_group 1 [] 0 true),
    rfl⟩, grp, ?_, hseq1, ?_⟩
  · rw [run_cons]; exact hf
  · intro now c
    have hack := receive_datagram_ack_tag c 1 []
    rw [List.append_nil] at hack
    refine ⟨?_, rfl, ?_, hack⟩
    · rw [run_cons, send_reliable_effects _ 1 grp [] now true hf, hseq1]
      have h1 : htonl_bytes 1094929210 = ACK_TAG := by decide
      simp [datagrams, h1]
    · have hg := send_reliable_groups _ 1 grp [] now true hf 1
      rw [if_pos rfl] at hg
      rw [run_cons]
      refine ⟨_, hg, ?_, ?_⟩
      · show map_find (map_insert grp.sent_msgs grp.next_seq []) 1094929210 = some []
        rw [hseq1, map_find_insert, if_pos rfl]
      · show (grp.next_seq + 1) % UINT32_SIZE = 1094929211
        rw [hseq1]; decide

/-! ## The announcement handler -/

/-- The handler on a message in which the prefix and the two further colons are found: the
three fields are cut out and parsed in the order of the source. -/
theorem on_receive_message_of_fields (s : TestClient) (msg a ps gs : List Char) (p2 p3 : Nat)
    (jenv : JoinEnv) (r : Int) (h0 : string_find msg "MULTICAST:".toList 0 = some 0)
    (h2 : string_find msg [':'] 10 = some p2) (h3 : string_find msg [':'] (p2 + 1) = some p3)
    (h4 : substr_until msg 10 (some p2) = a) (h5 : substr_until msg (p2 + 1) (some p3) = ps)
    (h6 : msg.drop (p3 + 1) = gs) :
    on_receive_message s msg jenv r
      = (match stoi ps with
        | none => ({ s with g_multicast_addr := a }, true)
        | some vp =>
          match stoi gs with
          | none =>
            ({ s with g_multicast_addr := a, g_multicast_port := (vp % 65536).toNat }, true)
          | some vg =>
            match s.g_multicast_client with
            | some _ =>
              ({ s with g_multicast_addr := a, g_multicast_port := (vp % 65536).toNat,
                        g_multicast_group_id := (vg % 4294967296).toNat }, false)
            | none =>
              if (join_group (set_message_callback kcp_multicast_client.init) a
                    (vp % 65536).toNat (vg % 4294967296).toNat jenv).2 = 0 then
                ({ g_multicast_addr := a, g_multicast_port := (vp % 65536).toNat,
                   g_multicast_group_id := (vg % 4294967296).toNat,
                   g_multicast_client := some ((join_group
                     (set_message_callback kcp_multicast_client.init) a (vp % 65536).toNat
                     (vg % 4294967296).toNat jenv).1.start r).1 }, false)
              else
                ({ g_multicast_addr := a, g_multicast_port := (vp % 65536).toNat,
                   g_multicast_group_id := (vg % 4294967296).toNat,
                   g_multicast_client := some (join_group
                     (set_message_callback kcp_multicast_client.init) a (vp % 65536).toNat
                     (vg % 4294967296).toNat jenv).1 }, false)) := by
  simp only [on_receive_message, h0, h2, h3, h4, h5, h6, if_true]

/-- The three fields of the text that the server composes are found again by the searches of
the handler, when the address holds no colon and the port is written in digits. -/
theorem compose_multicast_info_fields (a : List Char) (p g : Nat) (ha : ':' ∉ a) :
    string_find (compose_multicast_info a p g) "MULTICAST:".toList 0 = some 0
    ∧ string_find (compose_multicast_info a p g) [':'] 10 = some (10 + a.length)
    ∧ string_find (compose_multicast_info a p g) [':'] (10 + a.length + 1)
        = some (10 + a.length + 1 + (to_string p).length)
    ∧ substr_until (compose_multicast_info a p g) 10 (some (10 + a.length)) = a
    ∧ substr_until (compose_multicast_info a p g) (10 + a.length + 1)
        (some (10 + a.length + 1 + (to_string p).length)) = to_string p
    ∧ (compose_multicast_info a p g).drop (10 + a.length + 1 + (to_string p).length + 1)
        = to_string g := by
  have hp : ':' ∉ to_string p := not_mem_to_string p ':' (by decide)
  have hlen : "MULTICAST:".toList.length = 10 := by decide
  have e0 : compose_multicast_info a p g
      = [] ++ ([] ++ (('M' :: "ULTICAST:".toList)
          ++ (a ++ [':'] ++ to_string p ++ [':'] ++ to_string g))) := by
    simp [compose_multicast_info]
  have e2 : compose_multicast_info a p g
      = "MULTICAST:".toList ++ (a ++ ((':' :: []) ++ (to_string p ++ [':'] ++ to_string g))) := by
    simp [compose_multicast_info]
  have e3 : compose_multicast_info a p g
      = ("MULTICAST:".toList ++ a ++ [':']) ++ (to_string p ++ ((':' :: []) ++ to_string g)) := by
    simp [compose_multicast_info]
  have e4 : compose_multicast_info a p g
      = ("MULTICAST:".toList ++ a ++ [':'] ++ to_string p ++ [':']) ++ to_string g := by
    simp [compose_multicast_info]
  have l3 : ("MULTICAST:".toList ++ a ++ [':']).length = 10 + a.length + 1 := by
    rw [List.length_append, List.length_append, hlen]; rfl
  have l4 : ("MULTICAST:".toList ++ a ++ [':'] ++ to_string p ++ [':']).length
      = 10 + a.length + 1 + (to_string p).length + 1 := by
    rw [List.length_append, List.length_append, l3]; rfl
  refine ⟨?_, ?_, ?_, ?_, ?_, ?_⟩
  · have h := string_find_skip [] [] (a ++ [':'] ++ to_string p ++ [':'] ++ to_string g) 'M'
      "ULTICAST:".toList (by simp)
    rw [← e0] at h
    exact h
  · have h := string_find_skip "MULTICAST:".toList a (to_string p ++ [':'] ++ to_string g) ':'
      [] ha
    rw [← e2, hlen] at h
    exact h
  · have h := string_find_skip ("MULTICAST:".toList ++ a ++ [':']) (to_string p) (to_string g)
      ':' [] hp
    rw [← e3, l3] at h
    exact h
  · have h := substr_until_mid "MULTICAST:".toList a
      ((':' :: []) ++ (to_string p ++ [':'] ++ to_string g))
    rw [← e2, hlen] at h
    exact h
  · have h := substr_until_mid ("MULTICAST:".toList ++ a ++ [':']) (to_string p)
      ((':' :: []) ++ to_string g)
    rw [← e3, l3] at h
    exact h
  · rw [← l4]
    conv_lhs => rw [e4]
    exact List.drop_left _ _

theorem stoi_to_string_large (n : Nat) (hn : 2147483647 < n) : stoi (to_string n) = none := by
  have hd := to_string_digits n
  have hv := decimal_value_to_string n
  cases hts : to_string n with
  | nil => exact absurd hts (to_string_ne_nil n)
  | cons c cs =>
    rw [hts] at hd hv
    have hc : c.isDigit = true := hd c (List.mem_cons_self _ _)
    have hsp : isspace c = false := isspace_of_isDigit c hc
    have hdrop : List.dropWhile isspace (c :: cs) = c :: cs := by
      simp [List.dropWhile, hsp]
    have hminus : c ≠ '-' := by
      intro h; rw [h] at hc; exact absurd hc (by decide)
    have hplus : c ≠ '+' := by
      intro h; rw [h] at hc; exact absurd hc (by decide)
    have htake : List.takeWhile Char.isDigit (c :: cs) = c :: cs := by
      rw [List.takeWhile_eq_self_iff]; exact hd
    have hsign : stoi_sign (c :: cs) = (false, c :: cs) := by
      unfold stoi_sign
      split
      · rename_i r heq
        cases heq; exact absurd rfl hminus
      · rename_i r heq
        cases heq; exact absurd rfl hplus
      · rfl
    unfold stoi
    simp only [hdrop, hsign, htake, List.isEmpty_cons, Bool.false_eq_true, if_false, hv]
    rw [if_pos (by omega)]

/-- The handler on the text that the server composes for a dotted address `a`, a port `p` of
16 bits and a group id `g`, when no receiver exists yet. For `g` up to 2147483647 it records
exactly `(a, p, g)`, creates the receiver with the callback and calls `join_group(a, p, g)`
on it, then `start()` when the join returned 0. For a larger `g` the second `std::stoi`
throws: address and port are recorded, the group id is not, and no receiver is created. -/
theorem announcement_round_trip (s : TestClient) (a : List Char) (addr : Address) (p g : Nat)
    (jenv : JoinEnv) (r : Int) (ha : from_string a = some addr) (hp : p ≤ 65535)
    (hs : s.g_multicast_client = none) :
    (g ≤ 2147483647 →
      on_receive_message s (compose_multicast_info a p g) jenv r
        = ({ g_multicast_addr := a, g_multicast_port := p, g_multicast_group_id := g,
             g_multicast_client := some
               (if (join_group (set_message_callback kcp_multicast_client.init) a p g jenv).2 = 0
                then ((join_group (set_message_callback kcp_multicast_client.init) a p g
                        jenv).1.start r).1
                else (join_group (set_message_callback kcp_multicast_client.init) a p g
                        jenv).1) }, false))
    ∧ (2147483647 < g →
      on_receive_message s (compose_multicast_info a p g) jenv r
        = ({ s with g_multicast_addr := a, g_multicast_port := p }, true)) := by
  have hcolon : ':' ∉ a :=
    not_mem_of_digits_or_dot a ':' (from_string_chars a addr ha) (by decide) (by decide)
  obtain ⟨h0, h2, h3, h4, h5, h6⟩ := compose_multicast_info_fields a p g hcolon
  have hmain := on_receive_message_of_fields s _ _ _ _ _ _ jenv r h0 h2 h3 h4 h5 h6
  have hport : (((p : Int) % 65536).toNat) = p := by omega
  rw [stoi_to_string p (by omega)] at hmain
  constructor
  · intro hg
    have hgid : (((g : Int) % 4294967296).toNat) = g := by omega
    rw [stoi_to_string g hg] at hmain
    simp only [hs, hport, hgid] at hmain
    rw [hmain]
    split_ifs <;> rfl
  · intro hg
    rw [stoi_to_string_large g hg] at hmain
    simp only [hport] at hmain
    exact hmain

/-- C24 (the code at the failing input). The server composes
"MULTICAST:239.255.0.1:30001:2147483648" for the address 239.255.0.1, the port 30001 and the
group id 2147483648. On that text the handler of the client records the address and the
port, then `std::stoi` throws on the group id, which is no `int`: the handler does not
return normally, the group id stays 0, no receiver is created and no group is joined. -/
theorem announcement_with_group_id_2147483648_throws :
    from_string "239.255.0.1".toList = some ⟨[239, 255, 0, 1]⟩
    ∧ compose_multicast_info "239.255.0.1".toList 30001 2147483648
        = "MULTICAST:239.255.0.1:30001:2147483648".toList
    ∧ stoi "2147483648".toList = none
    ∧ on_receive_message TestClient.init
        (compose_multicast_info "239.255.0.1".toList 30001 2147483648) sample_join_env 0
      = ({ g_multicast_addr := "239.255.0.1".toList, g_multicast_port := 30001,
           g_multicast_group_id := 0, g_multicast_client := none }, true) := by
  refine ⟨by decide, by decide, by decide, by decide⟩

theorem find_from_single_none (x : Char) (l : List Char) (h : x ∉ l) :
    ∀ i : Nat, find_from l [x] i = none := by
  induction l with
  | nil => intro i; rfl
  | cons c cs ih =>
    intro i
    have hc : x ≠ c := fun e => h (e ▸ List.mem_cons_self _ _)
    have hcs : x ∉ cs := fun e => h (List.mem_cons_of_mem _ e)
    rw [find_from_cons, if_neg, ih hcs]
    simp [List.isPrefixOf, hc]

theorem find_from_single_some (x : Char) (l : List Char) :
    ∀ i j : Nat, find_from l [x] i = some j →
      ∃ pre post, l = pre ++ x :: post ∧ x ∉ pre ∧ j = i + pre.length := by
  induction l with
  | nil => intro i j h; simp [find_from] at h
  | cons c cs ih =>
    intro i j h
    rw [find_from_cons] at h
    by_cases hc : x = c
    · rw [if_pos (by simp [List.isPrefixOf, hc])] at h
      cases h
      exact ⟨[], cs, by simp [hc], by simp, rfl⟩
    · rw [if_neg (by simp [List.isPrefixOf, hc])] at h
      obtain ⟨pre, post, hl, hx, hj⟩ := ih (i + 1) j h
      refine ⟨c :: pre, post, by simp [hl], ?_, ?_⟩
      · intro hmem
        rcases List.mem_cons.1 hmem with e | e
        · exact hc e
        · exact hx e
      · rw [hj, List.length_cons]; omega

/-- A message that begins with "MULTICAST:" and holds fewer than two further colons is
ignored: the handler returns normally and leaves the globals as they were. -/
theorem announcement_lacking_colon_ignored (s : TestClient) (rest : List Char) (jenv : JoinEnv)
    (r : Int) (h : rest.count ':' < 2) :
    on_receive_message s ("MULTICAST:".toList ++ rest) jenv r = (s, false) := by
  have hlen : "MULTICAST:".toList.length = 10 := by decide
  have hdrop : ("MULTICAST:".toList ++ rest).drop 10 = rest := by
    rw [← hlen]; exact List.drop_left _ _
  have h2 : string_find ("MULTICAST:".toList ++ rest) [':'] 10 = find_from rest [':'] 10 := by
    unfold string_find
    rw [if_pos (by rw [List.length_append, hlen]; omega), hdrop]
  cases hf : find_from rest [':'] 10 with
  | none =>
    rw [hf] at h2
    simp only [on_receive_message, h2]
    split_ifs <;> rfl
  | some p2 =>
    rw [hf] at h2
    obtain ⟨pre, post, hl, hx, hj⟩ := find_from_single_some ':' rest 10 p2 hf
    have hpost : ':' ∉ post := by
      intro hmem
      have hc : 0 < post.count ':' := List.count_pos_iff.2 hmem
      rw [hl] at h
      simp only [List.count_append, List.count_cons_self] at h
      omega
    have h3 : string_find ("MULTICAST:".toList ++ rest) [':'] (p2 + 1) = none := by
      have e : "MULTICAST:".toList ++ rest = ("MULTICAST:".toList ++ pre ++ [':']) ++ post := by
        rw [hl]; simp
      have l : ("MULTICAST:".toList ++ pre ++ [':']).length = p2 + 1 := by
        rw [List.length_append, List.length_append, hlen, hj]; rfl
      unfold string_find
      rw [e, ← l, List.drop_left]
      rw [find_from_single_none ':' post hpost]
      split_ifs <;> rfl
    simp only [on_receive_message, h2, h3]
    split_ifs <;> rfl

/-- C25 (the code at the failing inputs). On "MULTICAST:239.255.0.1:70000:1", whose port is
out of range, the handler keeps the low 16 bits, records the port 4464, creates a receiver
and joins the group. On "MULTICAST:239.255.0.1:abc:1", whose port is no number, `std::stoi`
throws after the recorded address has been overwritten. On "MULTICAST:239.255.0.1:30001:",
whose group id is missing, `std::stoi` throws after address and port have been
overwritten. -/
theorem malformed_announcement_is_not_ignored :
    on_receive_message TestClient.init "MULTICAST:239.255.0.1:70000:1".toList sample_join_env 0
      = ({ g_multicast_addr := "239.255.0.1".toList, g_multicast_port := 4464,
           g_multicast_group_id := 1,
           g_multicast_client := some
             { groups_ := [(1, { multicast_addr := "239.255.0.1".toList, port := 4464,
                                 socket_fd := 3, last_seq := 0 })],
               running_ := true, thread_running_ := false, msg_callback_ := true } }, false)
    ∧ on_receive_message TestClient.init "MULTICAST:239.255.0.1:abc:1".toList sample_join_env 0
      = ({ g_multicast_addr := "239.255.0.1".toList, g_multicast_port := 0,
           g_multicast_group_id := 0, g_multicast_client := none }, true)
    ∧ on_receive_message TestClient.init "MULTICAST:239.255.0.1:30001:".toList sample_join_env 0
      = ({ g_multicast_addr := "239.255.0.1".toList, g_multicast_port := 30001,
           g_multicast_group_id := 0, g_multicast_client := none }, true) := by
  refine ⟨by decide, by decide, by decide⟩

end AsioKcp
